import Mathlib

/-!
Verification of the mp4san top-level box scanner, layout planner and
chunk-offset rewriter (src/mp4san/src/lib.rs, `sanitize_async`) and of the
typed-array codec (src/mp4san/src/parse/array.rs).

The source code is embedded shallowly:

* byte streams become a `Source` structure: a length plus a byte function,
  mirroring the forward-only byte stream of the crate (read, skip-forward,
  position, length).  Skipping past `u64::MAX` fails with an io error, as in
  the crate's `Skip for T: Seek` impl (`seek past u64::MAX`); skipping past
  end-of-stream is allowed, after which the scanner's loop condition
  (`fill_buf().is_empty()`) ends the loop.
* `u64`/`u32` values are `Nat`s; every place the Rust code uses checked
  arithmetic carries the explicit bound check, and positions stay below
  `2 ^ 64` because every advance is guarded exactly where the code guards it.
* fallible code returns `Except Err`.
* the scan loop of `sanitize_async` becomes the fuel-indexed `scan`;
  `sanitize` supplies `src.len + 1` fuel, which is always sufficient because
  every loop iteration consumes at least 8 bytes while the loop only runs at
  positions below `src.len`.  Fuel exhaustion is a distinct error value
  (`Err.outOfFuel`) and is proved unreachable where needed.

Parts of the crate that the claims depend on but whose sources are not under
src/ (the `parse` module other than array.rs, and `util::checked_add_signed`)
are modelled from the spec; each such definition carries a doc comment saying
so.
-/

namespace Mp4San

/-- Largest `u64` value. -/
def U64MAX : Nat := 18446744073709551615

/-- Largest `u32` value. -/
def U32MAX : Nat := 4294967295

/-- Maximum size of a box read into memory, `MAX_READ_BOX_SIZE` = 200 MiB
(src/mp4san/src/lib.rs line 92). -/
def MAXREAD : Nat := 209715200

/-- Big-endian decoding of the first four bytes of a list. -/
def dec32 (l : List Nat) : Nat :=
  l.getD 0 0 * 16777216 + l.getD 1 0 * 65536 + l.getD 2 0 * 256 + l.getD 3 0

/-- Big-endian encoding of a value below `2 ^ 32` as four bytes. -/
def enc32 (n : Nat) : List Nat :=
  [n / 16777216 % 256, n / 65536 % 256, n / 256 % 256, n % 256]

/-- Big-endian decoding of the first eight bytes of a list. -/
def dec64 (l : List Nat) : Nat :=
  dec32 (l.take 4) * 4294967296 + dec32 (l.drop 4)

/-- Big-endian encoding of a value below `2 ^ 64` as eight bytes. -/
def enc64 (n : Nat) : List Nat :=
  enc32 (n / 4294967296) ++ enc32 (n % 4294967296)

/-- Four-character code `ftyp`. -/
def FTYP : Nat := 0x66747970
/-- Four-character code `moov`. -/
def MOOV : Nat := 0x6d6f6f76
/-- Four-character code `mdat`. -/
def MDAT : Nat := 0x6d646174
/-- Four-character code `free`. -/
def FREE : Nat := 0x66726565
/-- Four-character code `trak`. -/
def TRAK : Nat := 0x7472616b
/-- Four-character code `mdia`. -/
def MDIA : Nat := 0x6d646961
/-- Four-character code `minf`. -/
def MINF : Nat := 0x6d696e66
/-- Four-character code `stbl`. -/
def STBL : Nat := 0x7374626c
/-- Four-character code `stco`. -/
def STCO : Nat := 0x7374636f
/-- Four-character code `co64`. -/
def CO64 : Nat := 0x636f3634
/-- Four-character code `isom`, the required compatible brand
(`COMPATIBLE_BRAND`, src/mp4san/src/lib.rs line 82). -/
def ISOM : Nat := 0x69736f6d

/-- Error message / context attachments used by the code paths the claims
mention.  The Rust code attaches strings; they are modelled as an enum so the
messages can be compared in theorems. -/
inductive ErrMsg where
  | whileParsingBoxHeader
  | whileParsingBox
  | multipleFtypBoxes
  | ftypNotFirst
  | discontiguousMdat
  | mdatDisplacedTooFar
  | chunkOffsetNotInMdat
  | seekPastU64Max
  | overflow
  | missingTrak
  | stblCo
  | noMsg
deriving DecidableEq, Repr

/-- Parse-error kinds, from the crate's `ParseError` as used in
src/mp4san/src/lib.rs (the enum itself is outside src/; the set of
constructors is taken from the spec error model and the uses in lib.rs). -/
inductive ParseErr where
  | truncatedBox
  | invalidInput
  | invalidBoxLayout
  | unsupportedBoxLayout
  | unsupportedBox (typ : Nat)
  | unsupportedFormat (brand : Nat)
  | missingRequiredBox (typ : Nat)
  | boxDataTooLarge
deriving DecidableEq, Repr

/-- Top-level error type, mirroring `Error` (src/mp4san/src/lib.rs lines
30-36): an io error or a parse error with a context attachment.
`outOfFuel` is an artifact of the fuel-indexed loop embedding and is proved
unreachable when the fuel is at least `src.len + 1`. -/
inductive Err where
  | io (m : ErrMsg)
  | parse (k : ParseErr) (m : ErrMsg)
  | outOfFuel
deriving DecidableEq, Repr

/-- A byte range in the input, `InputSpan` (src/mp4san/src/lib.rs lines
44-48). -/
structure InputSpan where
  offset : Nat
  len : Nat
deriving DecidableEq, Repr

/-- Result of sanitization, `SanitizedMetadata` (src/mp4san/src/lib.rs lines
38-42). -/
structure SanitizedMetadata where
  metadata : List Nat
  data : InputSpan
deriving DecidableEq, Repr

/-- The input byte stream: a total length and the byte at each position,
abstracting the crate's forward-only input interface (read, skip, position,
length). -/
structure Source where
  len : Nat
  byte : Nat → Nat

/-- Read `n` bytes of `src` starting at `pos` as a list (used only after an
availability check). -/
def grab (src : Source) (pos n : Nat) : List Nat :=
  (List.range n).map fun k => src.byte (pos + k)

/-- Read `n` bytes at `pos`, failing (EOF) when the stream is too short. -/
def readBytes (src : Source) (pos n : Nat) : Option (List Nat) :=
  if pos + n ≤ src.len then some (grab src pos n) else none

/-- Box size variants: explicit 32-bit, extended 64-bit, or until-EOF.
Modelled from the spec: `BoxSize` (spec §3), the `parse` module sources are
not under src/. -/
inductive BoxSz where
  | u32 (n : Nat)
  | ext (n : Nat)
  | untilEof
deriving DecidableEq, Repr

/-- A box header: size and type. Modelled from the spec: `BoxHeader`
(spec §3, §4.1), the `parse` module sources are not under src/. -/
structure BoxHeader where
  sz : BoxSz
  typ : Nat
deriving DecidableEq, Repr

/-- Encoded length of a header: 8 bytes, or 16 with an extended size. -/
def BoxHeader.encLen (h : BoxHeader) : Nat :=
  match h.sz with
  | .u32 _ => 8
  | .ext _ => 16
  | .untilEof => 8

/-- Decode a box header from the front of a byte list, returning the header
and the number of bytes consumed.  Modelled from the spec: header codec
`decode` (spec §4.1): 4-byte size then 4-byte type; size 1 means an 8-byte
extended size follows which must be at least 16; size 0 means until-EOF;
sizes 2 through 7 are invalid. -/
def decodeHdr (l : List Nat) : Except Err (BoxHeader × Nat) :=
  if l.length < 8 then .error (.parse .truncatedBox .whileParsingBoxHeader)
  else if dec32 (l.take 4) = 1 then
    if l.length < 16 then .error (.parse .truncatedBox .whileParsingBoxHeader)
    else if dec64 ((l.drop 8).take 8) < 16 then
      .error (.parse .invalidInput .whileParsingBoxHeader)
    else .ok (⟨.ext (dec64 ((l.drop 8).take 8)), dec32 ((l.drop 4).take 4)⟩, 16)
  else if dec32 (l.take 4) = 0 then .ok (⟨.untilEof, dec32 ((l.drop 4).take 4)⟩, 8)
  else if dec32 (l.take 4) < 8 then .error (.parse .invalidInput .whileParsingBoxHeader)
  else .ok (⟨.u32 (dec32 (l.take 4)), dec32 ((l.drop 4).take 4)⟩, 8)

/-- Read a box header from the stream at `pos` (`BoxHeader::read` with the
EOF-to-`TruncatedBox` mapping of src/mp4san/src/lib.rs lines 113-115). -/
def readHeader (src : Source) (pos : Nat) : Except Err (BoxHeader × Nat) :=
  (decodeHdr (grab src pos (min 16 (src.len - pos)))).map fun hc => (hc.1, pos + hc.2)

/-- Body size of a box whose header has been read, the position being just
after the header: explicit sizes minus the header length, or the remaining
stream for until-EOF (src/mp4san/src/lib.rs lines 349-352). -/
def bodySizeOf (src : Source) (hdr : BoxHeader) (pos : Nat) : Nat :=
  match hdr.sz with
  | .u32 n => n - 8
  | .ext n => n - 16
  | .untilEof => src.len - pos

/-- Skip `amount` bytes from `pos`: fails with an io error when the target
position would pass `u64::MAX` (the `Skip for T: Seek` impl,
src/mp4san/src/lib.rs lines 264-280), and is otherwise allowed to pass the
end of the stream. -/
def skipTo (pos amount : Nat) : Except Err Nat :=
  if pos + amount ≤ U64MAX then .ok (pos + amount)
  else .error (.io .seekPastU64Max)

/-- Parsed `ftyp` box body: 4 bytes major brand, 4 bytes minor version, and
the remaining bytes holding compatible brands.  Modelled from the spec:
`FtypBox` body (spec §3); the raw bytes are kept so that re-emission is
byte-exact, and brands are read as the whole 4-byte chunks (the crate's
`UnboundedArray` entry iterator, src/mp4san/src/parse/array.rs lines
97-101, which drops a trailing partial entry). -/
structure FtypData where
  major : List Nat
  minor : List Nat
  brands : List Nat
deriving DecidableEq, Repr

/-- Encoded body of an `ftyp` box. -/
def fbodyOf (F : FtypData) : List Nat := F.major ++ F.minor ++ F.brands

/-- Parse an `ftyp` body.  Modelled from the spec: `FtypBox` body (spec §3);
fails as a truncated box when fewer than 8 bytes are present. -/
def parseFtyp (body : List Nat) : Except Err FtypData :=
  if body.length < 8 then .error (.parse .truncatedBox .whileParsingBox)
  else .ok ⟨body.take 4, (body.drop 4).take 4, body.drop 8⟩

/-- Exact `w`-byte chunks of a list, dropping a trailing partial chunk
(`chunks_exact`, src/mp4san/src/parse/array.rs lines 97-101). -/
def chunksExact (w : Nat) (l : List Nat) : List (List Nat) :=
  (List.range (l.length / w)).map fun i => ((l.drop (w * i)).take w)

/-- Exact 4-byte chunks of a list. -/
def chunks4 (l : List Nat) : List (List Nat) := chunksExact 4 l

/-- Exact 8-byte chunks of a list. -/
def chunks8 (l : List Nat) : List (List Nat) := chunksExact 8 l

/-- The `UnboundedArray::parse` of src/mp4san/src/parse/array.rs lines
114-118: `buf.split()` takes every remaining byte as the backing entry
bytes, leaving the buffer empty, and the parse always succeeds.  The entry
iterator exposes the `chunks_exact` view and `entry_count` is
`entries.len() / size_of::<T>()` (lines 97-111); `put_buf` re-emits all
backing bytes (lines 124-127). -/
def unboundedArrayParse (buf : List Nat) : Except Err (List Nat × List Nat) :=
  .ok (buf, [])

/-- Whether the compatible brands of an `ftyp` contain `isom`
(`compatible_brands().any(|b| b == COMPATIBLE_BRAND)`,
src/mp4san/src/lib.rs line 184). -/
def hasIsom (F : FtypData) : Bool :=
  (chunks4 F.brands).any fun c => dec32 c = ISOM

/-- A child box inside a container body: its decoded header, the raw header
bytes, and the raw body bytes.  Modelled from the spec: `Box<T>` with an
opaque body (spec §3, §9 lazy body parsing); raw bytes are kept so
re-emission is byte-exact. -/
structure Child where
  hdr : BoxHeader
  hdrBytes : List Nat
  body : List Nat
deriving DecidableEq, Repr

/-- Re-encode a child box. -/
def encChild (c : Child) : List Nat := c.hdrBytes ++ c.body

/-- Re-encode a list of child boxes. -/
def encChildren (cs : List Child) : List Nat := (cs.map encChild).flatten

/-- Body length of a child box given its header and the bytes remaining after
the header; fails as truncated when the explicit size exceeds what remains.
Modelled from the spec: body-size determination (spec §4.3). -/
def childBodyLen (hdr : BoxHeader) (restLen : Nat) : Except Err Nat :=
  match hdr.sz with
  | .u32 n => if n - 8 ≤ restLen then .ok (n - 8) else .error (.parse .truncatedBox .whileParsingBox)
  | .ext n => if n - 16 ≤ restLen then .ok (n - 16) else .error (.parse .truncatedBox .whileParsingBox)
  | .untilEof => .ok restLen

/-- Parse a byte list into a sequence of child boxes (fuel-indexed; each step
consumes at least 8 bytes so `l.length + 1` fuel always suffices).  Modelled
from the spec: container box bodies are ordered sequences of child boxes
(spec §3). -/
def parseBoxes : Nat → List Nat → Except Err (List Child)
  | 0, l => if l.isEmpty then .ok [] else .error .outOfFuel
  | fuel + 1, l =>
    if l.isEmpty then .ok []
    else do
      let (hdr, c) ← decodeHdr l
      let b ← childBodyLen hdr (l.drop c).length
      let cs ← parseBoxes fuel ((l.drop c).drop b)
      .ok (⟨hdr, l.take c, (l.drop c).take b⟩ :: cs)

/-- Parse a `moov` body into its child boxes, requiring at least one `trak`.
Modelled from the spec: `MoovBox` body (spec §3: an ordered sequence of child
boxes; the core requires at least one `trak`). -/
def parseMoov (body : List Nat) : Except Err (List Child) := do
  let cs ← parseBoxes (body.length + 1) body
  if cs.any fun c => c.hdr.typ = TRAK then .ok cs
  else .error (.parse .invalidInput .missingTrak)

/-- Checked addition of a signed displacement to an unsigned entry bounded by
`bound` (`2 ^ 32` for `stco`, `2 ^ 64` for `co64`): `none` on a negative
result or overflow.  Modelled from the spec: `util::checked_add_signed`
(spec §4.4: compute `entry + displacement` with checked arithmetic), whose
source is not under src/; it mirrors `u32::checked_add_signed` /
`u64::checked_add_signed`. -/
def checkedAddSigned (e : Nat) (d : Int) (bound : Nat) : Option Nat :=
  if 0 ≤ (e : Int) + d ∧ (e : Int) + d < (bound : Int) then some ((e : Int) + d).toNat
  else none

/-- Sequential fallible map over a list, short-circuiting on the first
error, as a Rust `for` loop with `?` does. -/
def exMapM {a b : Type} (f : a → Except Err b) : List a → Except Err (List b)
  | [] => .ok []
  | x :: l => do
    let y ← f x
    let ys ← exMapM f l
    .ok (y :: ys)

/-- Rewrite the entries of an `stco` body in place by the displacement `d`:
4 bytes version/flags, a 4-byte entry count, `count` 4-byte entries (parsed
as the crate's `BoundedArray<u32, u32>`, src/mp4san/src/parse/array.rs lines
60-73: the count times entry size product is computed with `u32` checked
multiplication, overflow is `InvalidInput`, and a short buffer is
`TruncatedBox`), each entry replaced through the array's mutable setter by
`entry + d` computed with checked arithmetic, failing with
`InvalidInput` (`chunk offset not within mdat`) when the checked addition
fails (src/mp4san/src/lib.rs lines 227-234). All bytes other than the
entries are preserved verbatim. -/
def rewriteStcoBody (d : Int) (body : List Nat) : Except Err (List Nat) :=
  if body.length < 4 then .error (.parse .truncatedBox .whileParsingBox)
  else
    let vf := body.take 4
    let r1 := body.drop 4
    if r1.length < 4 then .error (.parse .truncatedBox .whileParsingBox)
    else
      let cntB := r1.take 4
      let cnt := dec32 cntB
      if 4 * cnt > U32MAX then .error (.parse .invalidInput .overflow)
      else
        let r2 := r1.drop 4
        if r2.length < 4 * cnt then .error (.parse .truncatedBox .whileParsingBox)
        else do
          let es' ← exMapM (fun eb =>
            match checkedAddSigned (dec32 eb) d 4294967296 with
            | some v => Except.ok (enc32 v)
            | none => Except.error (.parse .invalidInput .chunkOffsetNotInMdat))
            (chunks4 (r2.take (4 * cnt)))
          .ok (vf ++ cntB ++ es'.flatten ++ r2.drop (4 * cnt))

/-- Rewrite the entries of a `co64` body in place by the displacement `d`
widened to 64 bits (src/mp4san/src/lib.rs lines 235-243), analogous to
`rewriteStcoBody` with 8-byte entries. -/
def rewriteCo64Body (d : Int) (body : List Nat) : Except Err (List Nat) :=
  if body.length < 4 then .error (.parse .truncatedBox .whileParsingBox)
  else
    let vf := body.take 4
    let r1 := body.drop 4
    if r1.length < 4 then .error (.parse .truncatedBox .whileParsingBox)
    else
      let cntB := r1.take 4
      let cnt := dec32 cntB
      if 8 * cnt > U32MAX then .error (.parse .invalidInput .overflow)
      else
        let r2 := r1.drop 4
        if r2.length < 8 * cnt then .error (.parse .truncatedBox .whileParsingBox)
        else do
          let es' ← exMapM (fun eb =>
            match checkedAddSigned (dec64 eb) d 18446744073709551616 with
            | some v => Except.ok (enc64 v)
            | none => Except.error (.parse .invalidInput .chunkOffsetNotInMdat))
            (chunks8 (r2.take (8 * cnt)))
          .ok (vf ++ cntB ++ es'.flatten ++ r2.drop (8 * cnt))

/-- Apply `f` to the body of the first child of type `typ`, failing when no
such child exists.  Modelled from the spec: the movie-box descent
(spec §2, §4.4) locating the required child box at each level. -/
def replaceFirst (typ : Nat) (f : List Nat → Except Err (List Nat)) :
    List Child → Except Err (List Child)
  | [] => .error (.parse (.missingRequiredBox typ) .noMsg)
  | c :: rest =>
    if c.hdr.typ = typ then do
      let b' ← f c.body
      .ok ({ c with body := b' } :: rest)
    else do
      let rest' ← replaceFirst typ f rest
      .ok (c :: rest')

/-- Locate exactly one of `stco` or `co64` among the children of an `stbl`
and rewrite its entries.  Modelled from the spec: the descent locates
exactly one of `stco` or `co64` (spec §4.4). -/
def rewriteCo (d : Int) (cs : List Child) : Except Err (List Child) :=
  if (cs.countP fun c => c.hdr.typ = STCO) + (cs.countP fun c => c.hdr.typ = CO64) = 1 then
    if cs.any fun c => c.hdr.typ = STCO then replaceFirst STCO (rewriteStcoBody d) cs
    else replaceFirst CO64 (rewriteCo64Body d) cs
  else .error (.parse .invalidInput .stblCo)

/-- Rewrite chunk offsets below an `stbl` body. -/
def rewriteStbl (d : Int) (body : List Nat) : Except Err (List Nat) := do
  let cs ← parseBoxes (body.length + 1) body
  let cs' ← rewriteCo d cs
  .ok (encChildren cs')

/-- Rewrite chunk offsets below a `minf` body. -/
def rewriteMinf (d : Int) (body : List Nat) : Except Err (List Nat) := do
  let cs ← parseBoxes (body.length + 1) body
  let cs' ← replaceFirst STBL (rewriteStbl d) cs
  .ok (encChildren cs')

/-- Rewrite chunk offsets below an `mdia` body. -/
def rewriteMdia (d : Int) (body : List Nat) : Except Err (List Nat) := do
  let cs ← parseBoxes (body.length + 1) body
  let cs' ← replaceFirst MINF (rewriteMinf d) cs
  .ok (encChildren cs')

/-- Rewrite chunk offsets below a `trak` body
(`trak.mdia_mut()?.minf_mut()?.stbl_mut()?.co_mut()?`,
src/mp4san/src/lib.rs line 226). -/
def rewriteTrak (d : Int) (body : List Nat) : Except Err (List Nat) := do
  let cs ← parseBoxes (body.length + 1) body
  let cs' ← replaceFirst MDIA (rewriteMdia d) cs
  .ok (encChildren cs')

/-- Rewrite chunk offsets in every `trak` of a `moov` (the loop of
src/mp4san/src/lib.rs lines 225-244); children that are not `trak` boxes
are left untouched. -/
def rewriteMoov (d : Int) (cs : List Child) : Except Err (List Child) :=
  exMapM (fun c =>
    if c.hdr.typ = TRAK then do
      let b' ← rewriteTrak d c.body
      Except.ok { c with body := b' }
    else Except.ok c) cs

/-- Header bytes for a box of the given body length, using the smallest
explicit encoding that fits.  Modelled from the spec: header codec `encode`
(spec §4.1, `Mp4Box::with_data` forcing explicit sizes). -/
def boxHdrBytes (typ blen : Nat) : List Nat :=
  if blen + 8 ≤ U32MAX then enc32 (blen + 8) ++ enc32 typ
  else enc32 1 ++ enc32 typ ++ enc64 (blen + 16)

/-- Encoded length of a box with the given body length under the smallest
explicit header encoding. -/
def boxEncLen (blen : Nat) : Nat :=
  (if blen + 8 ≤ U32MAX then 8 else 16) + blen

/-- A box as emitted: smallest explicit header followed by the body. -/
def mkBox (typ : Nat) (body : List Nat) : List Nat :=
  boxHdrBytes typ body.length ++ body

/-- Padding `free` box of total size `s` (8 ≤ s): a header whose 32-bit size
field is `s`, then zero fill (src/mp4san/src/lib.rs lines 251-255). -/
def padBytes (s : Nat) : List Nat :=
  enc32 s ++ enc32 FREE ++ List.replicate (s - 8) 0

/-- Minimal `free`-box header size, `PAD_HEADER_SIZE`
(src/mp4san/src/lib.rs line 203). -/
def PADHDR : Nat := 8

/-- Largest padding size, `MAX_PAD_SIZE = u32::MAX - PAD_HEADER_SIZE`
(src/mp4san/src/lib.rs line 204). -/
def MAXPAD : Nat := U32MAX - 8

/-- The layout planner and emitter (src/mp4san/src/lib.rs lines 194-257):
re-encode `ftyp` and `moov` with explicit sizes, then decide between no
padding (`data.offset == metadata_len`), a padding `free` box
(`data.offset - metadata_len` within `[PAD_HEADER_SIZE, MAX_PAD_SIZE]`), and
a signed chunk-offset displacement that must fit in 32 bits, failing with
`UnsupportedBoxLayout` (`mdat displaced too far`) when it does not. -/
def plan (F : FtypData) (cs : List Child) (span : InputSpan) :
    Except Err SanitizedMetadata :=
  let fbody := fbodyOf F
  let mbody := encChildren cs
  let metadataLen := boxEncLen fbody.length + boxEncLen mbody.length
  if metadataLen ≤ span.offset then
    let s := span.offset - metadataLen
    if s = 0 then .ok ⟨mkBox FTYP fbody ++ mkBox MOOV mbody, span⟩
    else if 8 ≤ s ∧ s ≤ MAXPAD then
      .ok ⟨mkBox FTYP fbody ++ mkBox MOOV mbody ++ padBytes s, span⟩
    else if s ≤ 2147483647 then do
      let cs' ← rewriteMoov (-(s : Int)) cs
      .ok ⟨mkBox FTYP fbody ++ boxHdrBytes MOOV mbody.length ++ encChildren cs', span⟩
    else .error (.parse .unsupportedBoxLayout .mdatDisplacedTooFar)
  else
    let s := metadataLen - span.offset
    if s ≤ 2147483647 then do
      let cs' ← rewriteMoov (s : Int) cs
      .ok ⟨mkBox FTYP fbody ++ boxHdrBytes MOOV mbody.length ++ encChildren cs', span⟩
    else .error (.parse .unsupportedBoxLayout .mdatDisplacedTooFar)

/-- Scanner state: at most one `ftyp`, one `moov`, and one accumulating
payload span (src/mp4san/src/lib.rs lines 106-108). -/
structure ScanState where
  ftyp : Option FtypData
  moov : Option (List Child)
  data : Option InputSpan
deriving DecidableEq, Repr

/-- Read a box body into memory (`Mp4Box::read_data`): bodies larger than
`MAX_READ_BOX_SIZE` are an error, reading past end of stream is a truncated
box.  Modelled from the spec: body materialization bounded by
`MAX_READ_BOX_SIZE` (spec §4.3). -/
def readData (src : Source) (hdr : BoxHeader) (pos : Nat) :
    Except Err (List Nat × Nat) :=
  if bodySizeOf src hdr pos > MAXREAD then .error (.parse .boxDataTooLarge .whileParsingBox)
  else
    match readBytes src pos (bodySizeOf src hdr pos) with
    | none => .error (.parse .truncatedBox .whileParsingBox)
    | some bytes => .ok (bytes, pos + bodySizeOf src hdr pos)

/-- The top-level scan loop of `sanitize_async` (src/mp4san/src/lib.rs lines
110-178), fuel-indexed.  Dispatch order follows the `match` arms: `free`,
`ftyp`, the anything-before-`ftyp` guard, `mdat`, `moov`, and unsupported
boxes. -/
def scan (src : Source) : Nat → Nat → ScanState → Except Err ScanState
  | 0, pos, st => if pos < src.len then .error .outOfFuel else .ok st
  | fuel + 1, pos, st =>
    if pos < src.len then do
        let (hdr, p) ← readHeader src pos
        if hdr.typ = FREE then do
          let b := bodySizeOf src hdr p
          let p' ← skipTo p b
          let st' :=
            match st.data with
            | some d =>
              if d.offset + d.len = pos then
                { st with data := some ⟨d.offset, d.len + (b + hdr.encLen)⟩ }
              else st
            | none => st
          scan src fuel p' st'
        else if hdr.typ = FTYP then
          if st.ftyp.isSome then .error (.parse .invalidBoxLayout .multipleFtypBoxes)
          else do
            let (body, p') ← readData src hdr p
            let F ← parseFtyp body
            scan src fuel p' { st with ftyp := some F }
        else if st.ftyp.isNone then
          .error (.parse .invalidBoxLayout .ftypNotFirst)
        else if hdr.typ = MDAT then do
          let b := bodySizeOf src hdr p
          let p' ← skipTo p b
          match st.data with
          | some d =>
            if d.offset + d.len = pos then
              scan src fuel p' { st with data := some ⟨d.offset, d.len + (b + hdr.encLen)⟩ }
            else .error (.parse .unsupportedBoxLayout .discontiguousMdat)
          | none => scan src fuel p' { st with data := some ⟨pos, b + hdr.encLen⟩ }
        else if hdr.typ = MOOV then do
          let (body, p') ← readData src hdr p
          let cs ← parseMoov body
          scan src fuel p' { st with moov := some cs }
        else do
          let b := bodySizeOf src hdr p
          let _ ← skipTo p b
          .error (.parse (.unsupportedBox hdr.typ) .noMsg)
    else .ok st

/-- The checks after the scan loop (src/mp4san/src/lib.rs lines 180-192),
followed by the planner: `ftyp` present, compatible brand contains `isom`,
`moov` present, payload present, in that order. -/
def finalize (st : ScanState) : Except Err SanitizedMetadata :=
  match st.ftyp with
  | none => .error (.parse (.missingRequiredBox FTYP) .noMsg)
  | some F =>
    if ¬hasIsom F then .error (.parse (.unsupportedFormat (dec32 F.major)) .noMsg)
    else
      match st.moov with
      | none => .error (.parse (.missingRequiredBox MOOV) .noMsg)
      | some cs =>
        match st.data with
        | none => .error (.parse (.missingRequiredBox MDAT) .noMsg)
        | some span => plan F cs span

/-- The sanitizer, `sanitize` / `sanitize_async` (src/mp4san/src/lib.rs
lines 98-258): scan the stream box by box, then check and plan. -/
def sanitize (src : Source) : Except Err SanitizedMetadata := do
  let st ← scan src (src.len + 1) 0 ⟨none, none, none⟩
  finalize st

/-- Total encoded length of the explicit-sized `ftyp` and `moov`
(`metadata_len`, src/mp4san/src/lib.rs line 201). -/
def metadataLenOf (F : FtypData) (cs : List Child) : Nat :=
  boxEncLen (fbodyOf F).length + boxEncLen (encChildren cs).length

instance {ε α : Type} [DecidableEq ε] [DecidableEq α] : DecidableEq (Except ε α) := fun x y =>
  match x, y with
  | .ok a, .ok b => if h : a = b then isTrue (by rw [h]) else isFalse (by simp [h])
  | .error a, .error b => if h : a = b then isTrue (by rw [h]) else isFalse (by simp [h])
  | .ok _, .error _ => isFalse (by simp)
  | .error _, .ok _ => isFalse (by simp)

/-- A source backed by a byte list. -/
def listSource (bytes : List Nat) : Source := ⟨bytes.length, fun i => bytes.getD i 0⟩

/-- Bytes of a box with a 32-bit header. -/
def u32Box (t : Nat) (body : List Nat) : List Nat :=
  enc32 (body.length + 8) ++ (enc32 t ++ body)

/-- Body bytes of a small `ftyp` box: major brand `isom`, minor version 0,
one compatible brand `isom`. -/
def ftypBodyW : List Nat := enc32 ISOM ++ ([0, 0, 0, 0] ++ enc32 ISOM)

/-- Bytes of an `stco` box with the given entries: version/flags 0, entry
count, 4-byte entries. -/
def stcoW (entries : List Nat) : List Nat :=
  u32Box STCO ([0, 0, 0, 0] ++ (enc32 entries.length ++ (entries.map enc32).flatten))

/-- Body bytes of a `moov` box holding one `trak` with the descent chain
down to an `stco` with the given entries. -/
def moovBodyW (entries : List Nat) : List Nat :=
  u32Box TRAK (u32Box MDIA (u32Box MINF (u32Box STBL (stcoW entries))))

/-- Metadata prefix bytes: `ftyp` then `moov` with the given `stco`
entries. -/
def preW (entries : List Nat) : List Nat :=
  u32Box FTYP ftypBodyW ++ u32Box MOOV (moovBodyW entries)

/-- Stream for the `u64::MAX` boundary: `ftyp`, `moov`, then an `mdat`
header with 64-bit extended total size `16 + L` whose body lies past the end
of the stream (the body is skipped, never read). -/
def c7bytes (L : Nat) : List Nat :=
  preW [] ++ (enc32 1 ++ (enc32 MDAT ++ enc64 (16 + L)))

/-- Source for the `u64::MAX` boundary stream. -/
def c7src (L : Nat) : Source := listSource (c7bytes L)

/-- The single parsed `moov` child of `moovBodyW []`. -/
def c7cs : List Child :=
  [⟨⟨.u32 48, TRAK⟩, [0, 0, 0, 48, 116, 114, 97, 107],
    [0, 0, 0, 40, 109, 100, 105, 97, 0, 0, 0, 32, 109, 105, 110, 102, 0, 0, 0, 24,
     115, 116, 98, 108, 0, 0, 0, 16, 115, 116, 99, 111, 0, 0, 0, 0, 0, 0, 0, 0]⟩]

/-- Tail bytes shared by the free-box-first streams: `ftyp`, `moov`, and an
empty `mdat`. -/
def tail84 : List Nat := preW [] ++ (enc32 8 ++ enc32 MDAT)

/-- Stream beginning with a `free` box of total size `f` (32-bit header,
zero body) followed by a valid `ftyp`, `moov` and `mdat`. -/
def freeLedSrc (f : Nat) : Source :=
  ⟨f + 84, fun i =>
    if i < 8 then (enc32 f ++ enc32 FREE).getD i 0
    else if i < f then 0
    else tail84.getD (i - f) 0⟩

/-- Source for the chunk-offset counterexample: `ftyp`, `moov` whose `stco`
holds the single entry 0, and an empty `mdat` at offset 80. -/
def c2src : Source := listSource (preW [0] ++ (enc32 8 ++ enc32 MDAT))

/-- Well-formedness of a parsed child box: its header bytes decode to its
header (with any continuation), their length is the header's encoded
length, and the body length matches an explicit size. -/
def ChildWF (c : Child) : Prop :=
  (∀ r, decodeHdr (c.hdrBytes ++ r) = .ok (c.hdr, c.hdrBytes.length)) ∧
  c.hdrBytes.length = c.hdr.encLen ∧
  (match c.hdr.sz with
   | .u32 n => c.body.length = n - 8
   | .ext n => c.body.length = n - 16
   | .untilEof => True)

/-- Well-formedness of a child-box sequence: every child is well formed and
only the last may have an until-EOF size. -/
def ChildrenWF (cs : List Child) : Prop :=
  (∀ c ∈ cs, ChildWF c) ∧ (∀ c ∈ cs.dropLast, c.hdr.sz ≠ .untilEof)

/-- Entries of the chunk-offset table located among the children of an
`stbl`, mirroring the descent of the rewriter: exactly one of `stco` or
`co64`, first match, count-bounded entries. -/
def stblOffsets (body : List Nat) : List Nat :=
  match parseBoxes (body.length + 1) body with
  | .ok cs =>
    if (cs.countP fun c => c.hdr.typ = STCO) + (cs.countP fun c => c.hdr.typ = CO64) = 1 then
      if cs.any fun c => c.hdr.typ = STCO then
        match cs.find? fun c => c.hdr.typ = STCO with
        | some c => (chunks4 ((c.body.drop 8).take (4 * dec32 ((c.body.drop 4).take 4)))).map dec32
        | none => []
      else
        match cs.find? fun c => c.hdr.typ = CO64 with
        | some c => (chunks8 ((c.body.drop 8).take (8 * dec32 ((c.body.drop 4).take 4)))).map dec64
        | none => []
    else []
  | .error _ => []

/-- Parse a container body and apply `k` to the body of its first child of
type `typ`, the collection analogue of the descent. -/
def descend (typ : Nat) (k : List Nat → List Nat) (body : List Nat) : List Nat :=
  match parseBoxes (body.length + 1) body with
  | .ok cs =>
    match cs.find? fun c => c.hdr.typ = typ with
    | some c => k c.body
    | none => []
  | .error _ => []

/-- Chunk-offset entries located below a `trak` body by the descent. -/
def trakOffsets (body : List Nat) : List Nat :=
  descend MDIA (descend MINF (descend STBL stblOffsets)) body

/-- Chunk-offset entries located below every `trak` of a `moov`. -/
def moovOffsets (cs : List Child) : List Nat :=
  ((cs.filter fun c => c.hdr.typ = TRAK).map fun c => trakOffsets c.body).flatten

/-- Chunk-offset entries contained in a metadata byte string: parse the
top-level boxes, and collect through every `moov`. -/
def offsetsIn (m : List Nat) : List Nat :=
  match parseBoxes (m.length + 1) m with
  | .ok cs =>
    ((cs.filter fun c => c.hdr.typ = MOOV).map fun c =>
      match parseBoxes (c.body.length + 1) c.body with
      | .ok ms => moovOffsets ms
      | .error _ => []).flatten
  | .error _ => []

/-- The entry shift applied by the rewriter: `entry + displacement` as an
integer, truncated back to a natural number. -/
def shiftEntry (d : Int) (e : Nat) : Nat := ((e : Int) + d).toNat

/-- Two child boxes with the same header, the same raw header bytes, and
bodies of the same length: the relation the offset rewriter preserves. -/
def SameShape (a b : Child) : Prop :=
  a.hdr = b.hdr ∧ a.hdrBytes = b.hdrBytes ∧ a.body.length = b.body.length

/-- A child box with a 32-bit header, as the emitter produces. -/
def u32Child (t : Nat) (body : List Nat) : Child :=
  ⟨⟨.u32 (body.length + 8), t⟩, enc32 (body.length + 8) ++ enc32 t, body⟩

/-- The padding `free` box as a parsed child. -/
def padChild (s : Nat) : Child :=
  ⟨⟨.u32 s, FREE⟩, enc32 s ++ enc32 FREE, List.replicate (s - 8) 0⟩

/-- A one-`trak` moov child list whose descent reaches an `stco` with the
single entry 80, used as a witness input. -/
def c2cs : List Child :=
  [u32Child TRAK (u32Box MDIA (u32Box MINF (u32Box STBL (stcoW [80]))))]

/-- Re-encoded cost of an accumulated `ftyp`: the emitted box length. -/
def fcost : Option FtypData → Nat
  | none => 0
  | some F => boxEncLen (fbodyOf F).length

/-- Re-encoded cost of an accumulated `moov`: the emitted box length. -/
def mcost : Option (List Child) → Nat
  | none => 0
  | some cs => boxEncLen (encChildren cs).length

/-- Cost of the accumulated payload span: its length. -/
def dcost : Option InputSpan → Nat
  | none => 0
  | some d => d.len

/-- Total re-encoded cost of a scanner state: what the emitted metadata and
payload will occupy, used to bound positions by `u64::MAX`. -/
def stCost (st : ScanState) : Nat := fcost st.ftyp + mcost st.moov + dcost st.data

/-- A box at position `p` ending at `q` that the scanner absorbs into the
payload span: an `mdat` or `free` box whose skip target stays within
`u64::MAX`. -/
def SpanBox (src : Source) (p q : Nat) : Prop :=
  ∃ hdr : BoxHeader, readHeader src p = .ok (hdr, p + hdr.encLen) ∧
    (hdr.typ = MDAT ∨ hdr.typ = FREE) ∧ p < src.len ∧
    q = p + hdr.encLen + bodySizeOf src hdr (p + hdr.encLen) ∧ q ≤ U64MAX

/-- An `mdat` box at position `p` ending at `q`. -/
def MdatAt (src : Source) (p q : Nat) : Prop :=
  ∃ hdr : BoxHeader, readHeader src p = .ok (hdr, p + hdr.encLen) ∧
    hdr.typ = MDAT ∧ p < src.len ∧
    q = p + hdr.encLen + bodySizeOf src hdr (p + hdr.encLen) ∧ q ≤ U64MAX

/-- A contiguous run of absorbable boxes from `p` to `r`. -/
inductive Chain (src : Source) : Nat → Nat → Prop where
  | nil (p : Nat) : Chain src p p
  | cons {p q r : Nat} (hb : SpanBox src p q) (hc : Chain src q r) : Chain src p r

/-- The accumulated payload span is an `mdat` box followed by a contiguous
chain of `mdat` and `free` boxes, covering the span exactly. -/
def MSpan (src : Source) (d : InputSpan) : Prop :=
  ∃ q0, MdatAt src d.offset q0 ∧ Chain src q0 (d.offset + d.len)

/-- Provenance invariant for the accumulated `ftyp`. -/
def FtypInv : Option FtypData → Prop
  | none => True
  | some F => F.major.length = 4 ∧ F.minor.length = 4 ∧ (fbodyOf F).length ≤ MAXREAD

/-- Provenance invariant for the accumulated `moov`. -/
def MoovInv : Option (List Child) → Prop
  | none => True
  | some cs => ChildrenWF cs ∧ (cs.any fun c => c.hdr.typ = TRAK) = true ∧
      (encChildren cs).length ≤ MAXREAD

/-- Provenance invariant for the accumulated payload span. -/
def DataInv (src : Source) : Option InputSpan → Prop
  | none => True
  | some d => MSpan src d

/-- The round-trip reconstruction of the claim: the returned metadata
followed by the input's payload span, truncated at end of stream. -/
def reconstruct (src : Source) (r : SanitizedMetadata) : Source :=
  listSource (r.metadata ++ grab src r.data.offset (min r.data.len (src.len - r.data.offset)))

/-- Concrete 8-byte stream holding a bare `mdat` header, used as a witness
input. -/
def mdatW : Source := ⟨8, fun i => [0, 0, 0, 8, 109, 100, 97, 116].getD i 0⟩

/-- Concrete parsed `ftyp` data with major brand and single compatible brand
`isom`, used as a witness input. -/
def ftypW : FtypData := ⟨[105, 115, 111, 109], [0, 0, 0, 0], [105, 115, 111, 109]⟩

--
-- basic codec lemmas
--

theorem enc32_length (n : Nat) : (enc32 n).length = 4 := rfl

theorem enc64_length (n : Nat) : (enc64 n).length = 8 := rfl

theorem take4_enc32_append (n : Nat) (l : List Nat) : (enc32 n ++ l).take 4 = enc32 n := by
  rw [← enc32_length n]
  exact List.take_left _ _

theorem drop4_enc32_append (n : Nat) (l : List Nat) : (enc32 n ++ l).drop 4 = l := by
  rw [← enc32_length n]
  exact List.drop_left _ _

theorem dec32_enc32 {n : Nat} (h : n < 4294967296) : dec32 (enc32 n) = n := by
  simp only [dec32, enc32, List.getD_cons_zero, List.getD_cons_succ]
  omega

theorem dec64_enc64 {n : Nat} (h : n < 18446744073709551616) : dec64 (enc64 n) = n := by
  have h1 : n / 4294967296 < 4294967296 := by omega
  have h2 : n % 4294967296 < 4294967296 := by omega
  simp only [dec64, enc64, take4_enc32_append, drop4_enc32_append, dec32_enc32 h1,
    dec32_enc32 h2]
  omega

theorem boxHdrBytes_length (typ blen : Nat) :
    (boxHdrBytes typ blen).length = if blen + 8 ≤ U32MAX then 8 else 16 := by
  unfold boxHdrBytes
  split <;> simp [enc32_length, enc64_length]

theorem mkBox_length (typ : Nat) (body : List Nat) :
    (mkBox typ body).length = boxEncLen body.length := by
  simp only [mkBox, List.length_append, boxHdrBytes_length, boxEncLen]

theorem padBytes_length {s : Nat} (h : 8 ≤ s) : (padBytes s).length = s := by
  simp only [padBytes, List.length_append, List.length_replicate, enc32_length]
  omega

--
-- mapM helper lemmas
--

theorem exMapM_ok {α β : Type} {f : α → Except Err β} {g : α → β} :
    ∀ {l : List α}, (∀ a ∈ l, f a = .ok (g a)) → exMapM f l = .ok (l.map g) := by
  intro l
  induction l with
  | nil => intro _; rfl
  | cons a l ih =>
    intro h
    have hl : exMapM f l = .ok (l.map g) := ih fun x hx => h x (by simp [hx])
    simp only [exMapM, h a (by simp), hl, List.map_cons]
    rfl

theorem exMapM_error {α β : Type} {f : α → Except Err β} {g : α → β} {e : Err} :
    ∀ {l : List α}, (∀ a ∈ l, f a = .ok (g a) ∨ f a = .error e) →
      (∃ a ∈ l, f a = .error e) → exMapM f l = .error e := by
  intro l
  induction l with
  | nil => rintro _ ⟨a, ha, _⟩; exact absurd ha (List.not_mem_nil a)
  | cons a l ih =>
    intro hall hex
    obtain ⟨b, hb, hberr⟩ := hex
    rcases hall a (by simp) with ha | ha
    · have hbl : b ∈ l := by
        rcases List.mem_cons.mp hb with rfl | h
        · exact absurd hberr (by simp [ha])
        · exact h
      have hl : exMapM f l = .error e := ih (fun x hx => hall x (by simp [hx])) ⟨b, hbl, hberr⟩
      simp only [exMapM, ha, hl]
      rfl
    · simp only [exMapM, ha]
      rfl

--
-- scan step lemmas
--

theorem exbind_ok {α β : Type} (a : α) (f : α → Except Err β) :
    (Except.ok a >>= f) = f a := rfl

theorem exbind_error {α β : Type} (e : Err) (f : α → Except Err β) :
    ((Except.error e : Except Err α) >>= f) = .error e := rfl

theorem scan_exit {src : Source} {fuel pos : Nat} {st : ScanState} (h : ¬pos < src.len) :
    scan src fuel pos st = .ok st := by
  cases fuel <;> simp only [scan, if_neg h]

theorem isNone_false_of_isSome {o : Option FtypData} (h : o.isSome = true) :
    o.isNone = false := by
  cases o <;> simp_all

theorem scan_step_mdat_ext {src : Source} {fuel pos : Nat} {st : ScanState}
    {hdr : BoxHeader} {p : Nat} {d : InputSpan}
    (hpos : pos < src.len) (hread : readHeader src pos = .ok (hdr, p))
    (htyp : hdr.typ = MDAT) (hftyp : st.ftyp.isSome = true) (hdata : st.data = some d)
    (hcontig : d.offset + d.len = pos)
    (hskip : p + bodySizeOf src hdr p ≤ U64MAX) :
    scan src (fuel + 1) pos st =
      scan src fuel (p + bodySizeOf src hdr p)
        { st with data := some ⟨d.offset, d.len + (bodySizeOf src hdr p + hdr.encLen)⟩ } := by
  have hfree : ¬hdr.typ = FREE := by rw [htyp]; decide
  have hft : ¬hdr.typ = FTYP := by rw [htyp]; decide
  simp only [scan, if_pos hpos, hread, exbind_ok, if_neg hfree, if_neg hft,
    isNone_false_of_isSome hftyp, Bool.false_eq_true, if_false, if_pos htyp,
    skipTo, if_pos hskip, hdata, if_pos hcontig]

theorem scan_step_free_none {src : Source} {fuel pos : Nat} {st : ScanState}
    {hdr : BoxHeader} {p : Nat}
    (hpos : pos < src.len) (hread : readHeader src pos = .ok (hdr, p))
    (htyp : hdr.typ = FREE) (hdata : st.data = none)
    (hskip : p + bodySizeOf src hdr p ≤ U64MAX) :
    scan src (fuel + 1) pos st = scan src fuel (p + bodySizeOf src hdr p) st := by
  simp only [scan, if_pos hpos, hread, exbind_ok, if_pos htyp, skipTo, if_pos hskip, hdata]

theorem scan_step_free_absorb {src : Source} {fuel pos : Nat} {st : ScanState}
    {hdr : BoxHeader} {p : Nat} {d : InputSpan}
    (hpos : pos < src.len) (hread : readHeader src pos = .ok (hdr, p))
    (htyp : hdr.typ = FREE) (hdata : st.data = some d)
    (hcontig : d.offset + d.len = pos)
    (hskip : p + bodySizeOf src hdr p ≤ U64MAX) :
    scan src (fuel + 1) pos st =
      scan src fuel (p + bodySizeOf src hdr p)
        { st with data := some ⟨d.offset, d.len + (bodySizeOf src hdr p + hdr.encLen)⟩ } := by
  simp only [scan, if_pos hpos, hread, exbind_ok, if_pos htyp, skipTo, if_pos hskip, hdata,
    if_pos hcontig]

theorem scan_step_free_skip {src : Source} {fuel pos : Nat} {st : ScanState}
    {hdr : BoxHeader} {p : Nat} {d : InputSpan}
    (hpos : pos < src.len) (hread : readHeader src pos = .ok (hdr, p))
    (htyp : hdr.typ = FREE) (hdata : st.data = some d)
    (hncontig : ¬d.offset + d.len = pos)
    (hskip : p + bodySizeOf src hdr p ≤ U64MAX) :
    scan src (fuel + 1) pos st = scan src fuel (p + bodySizeOf src hdr p) st := by
  simp only [scan, if_pos hpos, hread, exbind_ok, if_pos htyp, skipTo, if_pos hskip, hdata,
    if_neg hncontig]

theorem scan_step_ftyp {src : Source} {fuel pos : Nat} {st : ScanState}
    {hdr : BoxHeader} {p p' : Nat} {body : List Nat} {F : FtypData}
    (hpos : pos < src.len) (hread : readHeader src pos = .ok (hdr, p))
    (htyp : hdr.typ = FTYP) (hnone : st.ftyp = none)
    (hrd : readData src hdr p = .ok (body, p')) (hpf : parseFtyp body = .ok F) :
    scan src (fuel + 1) pos st = scan src fuel p' { st with ftyp := some F } := by
  have hfree : ¬hdr.typ = FREE := by rw [htyp]; decide
  simp only [scan, if_pos hpos, hread, exbind_ok, if_neg hfree, if_pos htyp, hnone,
    Option.isSome_none, Bool.false_eq_true, if_false, hrd, hpf]

theorem scan_step_ftyp_dup {src : Source} {fuel pos : Nat} {st : ScanState}
    {hdr : BoxHeader} {p : Nat}
    (hpos : pos < src.len) (hread : readHeader src pos = .ok (hdr, p))
    (htyp : hdr.typ = FTYP) (hftyp : st.ftyp.isSome = true) :
    scan src (fuel + 1) pos st = .error (.parse .invalidBoxLayout .multipleFtypBoxes) := by
  have hfree : ¬hdr.typ = FREE := by rw [htyp]; decide
  simp only [scan, if_pos hpos, hread, exbind_ok, if_neg hfree, if_pos htyp, hftyp, if_true]

theorem scan_step_early {src : Source} {fuel pos : Nat} {st : ScanState}
    {hdr : BoxHeader} {p : Nat}
    (hpos : pos < src.len) (hread : readHeader src pos = .ok (hdr, p))
    (hfree : ¬hdr.typ = FREE) (hft : ¬hdr.typ = FTYP) (hnone : st.ftyp = none) :
    scan src (fuel + 1) pos st = .error (.parse .invalidBoxLayout .ftypNotFirst) := by
  simp only [scan, if_pos hpos, hread, exbind_ok, if_neg hfree, if_neg hft, hnone,
    Option.isNone_none, if_true]

theorem scan_step_mdat_new {src : Source} {fuel pos : Nat} {st : ScanState}
    {hdr : BoxHeader} {p : Nat}
    (hpos : pos < src.len) (hread : readHeader src pos = .ok (hdr, p))
    (htyp : hdr.typ = MDAT) (hftyp : st.ftyp.isSome = true) (hdata : st.data = none)
    (hskip : p + bodySizeOf src hdr p ≤ U64MAX) :
    scan src (fuel + 1) pos st =
      scan src fuel (p + bodySizeOf src hdr p)
        { st with data := some ⟨pos, bodySizeOf src hdr p + hdr.encLen⟩ } := by
  have hfree : ¬hdr.typ = FREE := by rw [htyp]; decide
  have hft : ¬hdr.typ = FTYP := by rw [htyp]; decide
  simp only [scan, if_pos hpos, hread, exbind_ok, if_neg hfree, if_neg hft,
    isNone_false_of_isSome hftyp, Bool.false_eq_true, if_false, if_pos htyp,
    skipTo, if_pos hskip, hdata]

theorem scan_step_mdat_disc {src : Source} {fuel pos : Nat} {st : ScanState}
    {hdr : BoxHeader} {p : Nat} {d : InputSpan}
    (hpos : pos < src.len) (hread : readHeader src pos = .ok (hdr, p))
    (htyp : hdr.typ = MDAT) (hftyp : st.ftyp.isSome = true) (hdata : st.data = some d)
    (hncontig : ¬d.offset + d.len = pos)
    (hskip : p + bodySizeOf src hdr p ≤ U64MAX) :
    scan src (fuel + 1) pos st = .error (.parse .unsupportedBoxLayout .discontiguousMdat) := by
  have hfree : ¬hdr.typ = FREE := by rw [htyp]; decide
  have hft : ¬hdr.typ = FTYP := by rw [htyp]; decide
  simp only [scan, if_pos hpos, hread, exbind_ok, if_neg hfree, if_neg hft,
    isNone_false_of_isSome hftyp, Bool.false_eq_true, if_false, if_pos htyp,
    skipTo, if_pos hskip, hdata, if_neg hncontig]

theorem scan_step_mdat_skipfail {src : Source} {fuel pos : Nat} {st : ScanState}
    {hdr : BoxHeader} {p : Nat}
    (hpos : pos < src.len) (hread : readHeader src pos = .ok (hdr, p))
    (htyp : hdr.typ = MDAT) (hftyp : st.ftyp.isSome = true)
    (hskip : ¬p + bodySizeOf src hdr p ≤ U64MAX) :
    scan src (fuel + 1) pos st = .error (.io .seekPastU64Max) := by
  have hfree : ¬hdr.typ = FREE := by rw [htyp]; decide
  have hft : ¬hdr.typ = FTYP := by rw [htyp]; decide
  simp only [scan, if_pos hpos, hread, exbind_ok, if_neg hfree, if_neg hft,
    isNone_false_of_isSome hftyp, Bool.false_eq_true, if_false, if_pos htyp,
    skipTo, if_neg hskip, exbind_error]

theorem scan_step_moov {src : Source} {fuel pos : Nat} {st : ScanState}
    {hdr : BoxHeader} {p p' : Nat} {body : List Nat} {cs : List Child}
    (hpos : pos < src.len) (hread : readHeader src pos = .ok (hdr, p))
    (htyp : hdr.typ = MOOV) (hftyp : st.ftyp.isSome = true)
    (hrd : readData src hdr p = .ok (body, p')) (hpm : parseMoov body = .ok cs) :
    scan src (fuel + 1) pos st = scan src fuel p' { st with moov := some cs } := by
  have hfree : ¬hdr.typ = FREE := by rw [htyp]; decide
  have hft : ¬hdr.typ = FTYP := by rw [htyp]; decide
  have hmd : ¬hdr.typ = MDAT := by rw [htyp]; decide
  simp only [scan, if_pos hpos, hread, exbind_ok, if_neg hfree, if_neg hft,
    isNone_false_of_isSome hftyp, Bool.false_eq_true, if_false, if_neg hmd, if_pos htyp,
    hrd, hpm]

theorem scan_step_other {src : Source} {fuel pos : Nat} {st : ScanState}
    {hdr : BoxHeader} {p : Nat}
    (hpos : pos < src.len) (hread : readHeader src pos = .ok (hdr, p))
    (hfree : ¬hdr.typ = FREE) (hft : ¬hdr.typ = FTYP) (hmd : ¬hdr.typ = MDAT)
    (hmv : ¬hdr.typ = MOOV) (hftyp : st.ftyp.isSome = true)
    (hskip : p + bodySizeOf src hdr p ≤ U64MAX) :
    scan src (fuel + 1) pos st = .error (.parse (.unsupportedBox hdr.typ) .noMsg) := by
  simp only [scan, if_pos hpos, hread, exbind_ok, if_neg hfree, if_neg hft,
    isNone_false_of_isSome hftyp, Bool.false_eq_true, if_false, if_neg hmd, if_neg hmv,
    skipTo, if_pos hskip]

/-- C5: when the scanner meets an `mdat` box and a payload span has already
been accumulated, it requires `payload.offset + payload.len` to equal the
box's start position; unequal positions fail with `UnsupportedBoxLayout`
(discontiguous mdat boxes), equal positions extend the span's length by the
box's total size, header plus body (src/mp4san/src/lib.rs lines 150-165). -/
theorem scan_mdat_requires_contiguity {src : Source} {fuel pos : Nat} {st : ScanState}
    {hdr : BoxHeader} {p : Nat} {d : InputSpan}
    (hpos : pos < src.len) (hread : readHeader src pos = .ok (hdr, p))
    (htyp : hdr.typ = MDAT) (hftyp : st.ftyp.isSome = true) (hdata : st.data = some d)
    (hskip : p + bodySizeOf src hdr p ≤ U64MAX) :
    scan src (fuel + 1) pos st =
      if d.offset + d.len = pos then
        scan src fuel (p + bodySizeOf src hdr p)
          { st with data := some ⟨d.offset, d.len + (bodySizeOf src hdr p + hdr.encLen)⟩ }
      else .error (.parse .unsupportedBoxLayout .discontiguousMdat) := by
  by_cases hc : d.offset + d.len = pos
  · rw [if_pos hc, scan_step_mdat_ext hpos hread htyp hftyp hdata hc hskip]
  · rw [if_neg hc, scan_step_mdat_disc hpos hread htyp hftyp hdata hc hskip]

/-- C6: after the scan loop, the checks run in order: missing `ftyp`, then
`ftyp.compatible_brands` must contain `isom` (else `UnsupportedFormat` with
the major brand), then missing `moov`, then missing `mdat`
(src/mp4san/src/lib.rs lines 180-192). -/
theorem finalize_check_order (st : ScanState) :
    (st.ftyp = none → finalize st = .error (.parse (.missingRequiredBox FTYP) .noMsg)) ∧
    (∀ F, st.ftyp = some F → hasIsom F = false →
      finalize st = .error (.parse (.unsupportedFormat (dec32 F.major)) .noMsg)) ∧
    (∀ F, st.ftyp = some F → hasIsom F = true → st.moov = none →
      finalize st = .error (.parse (.missingRequiredBox MOOV) .noMsg)) ∧
    (∀ F cs, st.ftyp = some F → hasIsom F = true → st.moov = some cs → st.data = none →
      finalize st = .error (.parse (.missingRequiredBox MDAT) .noMsg)) := by
  refine ⟨fun h => by simp [finalize, h], fun F hF hiso => by simp [finalize, hF, hiso],
    fun F hF hiso hm => by simp [finalize, hF, hiso, hm],
    fun F cs hF hiso hm hd => by simp [finalize, hF, hiso, hm, hd]⟩

/-- Witness for `scan_mdat_requires_contiguity` on a concrete stream: an
`mdat` at position 0 of an 8-byte stream with an accumulated span ending at
0 extends the span. -/
theorem scan_mdat_requires_contiguity_witness :
    scan mdatW 1 0 ⟨some ftypW, none, some ⟨0, 0⟩⟩ =
      if (0 : Nat) + 0 = 0 then
        scan mdatW 0 (8 + bodySizeOf mdatW ⟨.u32 8, MDAT⟩ 8)
          ⟨some ftypW, none,
            some ⟨0, 0 + (bodySizeOf mdatW ⟨.u32 8, MDAT⟩ 8 + BoxHeader.encLen ⟨.u32 8, MDAT⟩)⟩⟩
      else .error (.parse .unsupportedBoxLayout .discontiguousMdat) :=
  @scan_mdat_requires_contiguity mdatW 0 0 ⟨some ftypW, none, some ⟨0, 0⟩⟩
    ⟨.u32 8, MDAT⟩ 8 ⟨0, 0⟩ (by decide) (by decide) (by decide) (by decide)
    (by decide) (by decide)

/-- Witness for `finalize_check_order`: the empty scan state is missing its
`ftyp`. -/
theorem finalize_check_order_witness :
    finalize ⟨none, none, none⟩ = .error (.parse (.missingRequiredBox FTYP) .noMsg) :=
  (finalize_check_order ⟨none, none, none⟩).1 rfl

--
-- source reading lemmas
--

theorem grab_length (src : Source) (pos n : Nat) : (grab src pos n).length = n := by
  simp [grab]

theorem take_of_len_append {l r : List Nat} {n : Nat} (h : l.length = n) :
    (l ++ r).take n = l := by
  rw [← h]
  exact List.take_left l r

theorem drop_of_len_append {l r : List Nat} {n : Nat} (h : l.length = n) :
    (l ++ r).drop n = r := by
  rw [← h]
  exact List.drop_left l r


theorem grab_getElem {src : Source} {pos n i : Nat} (h : i < (grab src pos n).length) :
    (grab src pos n)[i] = src.byte (pos + i) := by
  simp [grab] at h ⊢

theorem listSource_grab {bytes : List Nat} {pos n : Nat} (h : pos + n ≤ bytes.length) :
    grab (listSource bytes) pos n = (bytes.drop pos).take n := by
  apply List.ext_getElem
  · simp [grab]
    omega
  · intro i h1 h2
    rw [grab_getElem h1, List.getElem_take, List.getElem_drop]
    simp only [listSource]
    rw [List.getD_eq_getElem bytes 0 (by simp [grab] at h1; omega)]

theorem grab_append (src : Source) (pos m n : Nat) :
    grab src pos (m + n) = grab src pos m ++ grab src (pos + m) n := by
  apply List.ext_getElem
  · simp [grab]
  · intro i h1 h2
    rw [grab_getElem h1]
    rcases Nat.lt_or_ge i m with him | him
    · rw [List.getElem_append_left (by simp [grab]; omega), grab_getElem]
    · rw [List.getElem_append_right (by simp [grab]; omega), grab_getElem]
      congr 1
      simp [grab]
      omega

theorem grab_eq_of_fn {src : Source} {pos n : Nat} {l : List Nat} (hlen : l.length = n)
    (h : ∀ k, k < n → src.byte (pos + k) = l.getD k 0) : grab src pos n = l := by
  apply List.ext_getElem
  · simp [grab, hlen]
  · intro i h1 h2
    rw [grab_getElem h1, h i (by simp [grab] at h1; omega),
      List.getD_eq_getElem l 0 (by omega)]

theorem getD_take_drop {l : List Nat} {a n k : Nat} (hk : k < n) (hl : a + n ≤ l.length) :
    ((l.drop a).take n).getD k 0 = l.getD (a + k) 0 := by
  rw [List.getD_eq_getElem _ _ (by simp; omega), List.getD_eq_getElem _ _ (by omega),
    List.getElem_take, List.getElem_drop]

theorem readHeader_of_decode {src : Source} {pos : Nat} {hdr : BoxHeader} {c : Nat}
    (h : decodeHdr (grab src pos (min 16 (src.len - pos))) = .ok (hdr, c)) :
    readHeader src pos = .ok (hdr, pos + c) := by
  simp [readHeader, h, Except.map]

theorem length_u32Box (t : Nat) (body : List Nat) :
    (u32Box t body).length = 8 + body.length := by
  simp [u32Box, enc32]
  omega

theorem decodeHdr_u32 {n t : Nat} (r : List Nat) (h8 : 8 ≤ n) (hn : n < 4294967296)
    (ht : t < 4294967296) :
    decodeHdr (enc32 n ++ (enc32 t ++ r)) = .ok (⟨.u32 n, t⟩, 8) := by
  have hlen : (enc32 n ++ (enc32 t ++ r)).length = 8 + r.length := by
    simp [enc32]
    omega
  unfold decodeHdr
  rw [if_neg (by omega), take4_enc32_append, drop4_enc32_append, take4_enc32_append,
    dec32_enc32 hn, dec32_enc32 ht, if_neg (by omega), if_neg (by omega), if_neg (by omega)]

theorem decodeHdr_eof {t : Nat} (r : List Nat) (ht : t < 4294967296) :
    decodeHdr (enc32 0 ++ (enc32 t ++ r)) = .ok (⟨.untilEof, t⟩, 8) := by
  have hlen : (enc32 0 ++ (enc32 t ++ r)).length = 8 + r.length := by
    simp [enc32]
    omega
  unfold decodeHdr
  rw [if_neg (by omega), take4_enc32_append, drop4_enc32_append, take4_enc32_append,
    dec32_enc32 (by omega), dec32_enc32 ht, if_neg (by omega), if_pos rfl]

theorem decodeHdr_ext {n t : Nat} (r : List Nat) (h16 : 16 ≤ n)
    (hn : n < 18446744073709551616) (ht : t < 4294967296) :
    decodeHdr (enc32 1 ++ (enc32 t ++ (enc64 n ++ r))) = .ok (⟨.ext n, t⟩, 16) := by
  have hlen : (enc32 1 ++ (enc32 t ++ (enc64 n ++ r))).length = 16 + r.length := by
    simp [enc32, enc64]
    omega
  have hdrop8 : (enc32 1 ++ (enc32 t ++ (enc64 n ++ r))).drop 8 = enc64 n ++ r := by
    rw [show enc32 1 ++ (enc32 t ++ (enc64 n ++ r)) =
      (enc32 1 ++ enc32 t) ++ (enc64 n ++ r) by simp [List.append_assoc]]
    exact drop_of_len_append (by simp [enc32])
  have htake8 : (enc64 n ++ r).take 8 = enc64 n := take_of_len_append (enc64_length n)
  unfold decodeHdr
  rw [if_neg (by omega), take4_enc32_append, drop4_enc32_append, take4_enc32_append,
    dec32_enc32 (by omega), dec32_enc32 ht, if_pos rfl, if_neg (by omega),
    hdrop8, htake8, dec64_enc64 hn, if_neg (by omega)]

theorem decodeHdr_ext_nil {n t : Nat} (h16 : 16 ≤ n)
    (hn : n < 18446744073709551616) (ht : t < 4294967296) :
    decodeHdr (enc32 1 ++ (enc32 t ++ enc64 n)) = .ok (⟨.ext n, t⟩, 16) := by
  have h := @decodeHdr_ext n t [] h16 hn ht
  simpa using h

theorem decodeHdr_consumed {l : List Nat} {hdr : BoxHeader} {c : Nat}
    (h : decodeHdr l = .ok (hdr, c)) : c = 8 ∨ c = 16 := by
  unfold decodeHdr at h
  split at h
  · exact absurd h (by simp)
  · split at h
    · split at h
      · exact absurd h (by simp)
      · split at h
        · exact absurd h (by simp)
        · simp only [Except.ok.injEq, Prod.mk.injEq] at h
          exact Or.inr h.2.symm
    · split at h
      · simp only [Except.ok.injEq, Prod.mk.injEq] at h
        exact Or.inl h.2.symm
      · split at h
        · exact absurd h (by simp)
        · simp only [Except.ok.injEq, Prod.mk.injEq] at h
          exact Or.inl h.2.symm

theorem readHeader_ge {src : Source} {pos : Nat} {hdr : BoxHeader} {p : Nat}
    (h : readHeader src pos = .ok (hdr, p)) : pos + 8 ≤ p := by
  cases hd : decodeHdr (grab src pos (min 16 (src.len - pos))) with
  | error e =>
    unfold readHeader at h
    rw [hd] at h
    exact absurd h (by simp [Except.map])
  | ok v =>
    unfold readHeader at h
    rw [hd] at h
    obtain ⟨hdr', c⟩ := v
    simp only [Except.map, Except.ok.injEq, Prod.mk.injEq] at h
    rcases decodeHdr_consumed hd with rfl | rfl <;> omega

theorem readData_ok {src : Source} {hdr : BoxHeader} {p : Nat} {body : List Nat} {p' : Nat}
    (h : readData src hdr p = .ok (body, p')) :
    body = grab src p (bodySizeOf src hdr p) ∧ p' = p + bodySizeOf src hdr p ∧
    bodySizeOf src hdr p ≤ MAXREAD ∧ p + bodySizeOf src hdr p ≤ src.len := by
  unfold readData readBytes at h
  split at h
  · exact absurd h (by simp)
  next hcap =>
    split at h
    next heq => exact absurd h (by simp)
    next bytes heq =>
      simp only [Except.ok.injEq, Prod.mk.injEq] at h
      by_cases hc : p + bodySizeOf src hdr p ≤ src.len
      · rw [if_pos hc] at heq
        injection heq with heq
        exact ⟨h.1.symm.trans heq.symm, h.2.symm, by omega, hc⟩
      · rw [if_neg hc] at heq
        exact absurd heq (by simp)

theorem skipTo_ok {p b q : Nat} (h : skipTo p b = .ok q) : q = p + b ∧ p + b ≤ U64MAX := by
  unfold skipTo at h
  split at h
  · simp only [Except.ok.injEq] at h
    omega
  · exact absurd h (by simp)

--
-- fuel irrelevance
--

theorem scan_fuel_irrel {src : Source} :
    ∀ f1 : Nat, ∀ {f2 pos : Nat} {st : ScanState}, src.len - pos < f1 → src.len - pos < f2 →
      scan src f1 pos st = scan src f2 pos st := by
  intro f1
  induction f1 with
  | zero => intro f2 pos st h1 _; exact absurd h1 (by omega)
  | succ f1 ih =>
    intro f2 pos st h1 h2
    by_cases hpos : pos < src.len
    · obtain ⟨f2', rfl⟩ : ∃ k, f2 = k + 1 := ⟨f2 - 1, by omega⟩
      simp only [scan, if_pos hpos]
      cases hH : readHeader src pos with
      | error e => rfl
      | ok v =>
        obtain ⟨hdr, p⟩ := v
        simp only [exbind_ok]
        have hp8 : pos + 8 ≤ p := readHeader_ge hH
        by_cases hfree : hdr.typ = FREE
        · simp only [if_pos hfree]
          by_cases hskip : p + bodySizeOf src hdr p ≤ U64MAX
          · simp only [skipTo, if_pos hskip, exbind_ok]
            exact ih (by omega) (by omega)
          · simp only [skipTo, if_neg hskip]
            rfl
        · simp only [if_neg hfree]
          by_cases hft : hdr.typ = FTYP
          · simp only [if_pos hft]
            by_cases hsome : st.ftyp.isSome = true
            · simp only [hsome]
              rfl
            · simp only [hsome]
              cases hrd : readData src hdr p with
              | error e => rfl
              | ok v =>
                obtain ⟨body, p'⟩ := v
                simp only [exbind_ok]
                cases hpf : parseFtyp body with
                | error e => rfl
                | ok F =>
                  simp only [exbind_ok]
                  have hpp : p ≤ p' := by
                    have := (readData_ok hrd).2.1
                    omega
                  exact ih (by omega) (by omega)
          · simp only [if_neg hft]
            by_cases hnone : st.ftyp.isNone = true
            · simp only [hnone]
              rfl
            · simp only [hnone]
              by_cases hmd : hdr.typ = MDAT
              · simp only [if_pos hmd]
                by_cases hskip : p + bodySizeOf src hdr p ≤ U64MAX
                · simp only [skipTo, if_pos hskip, exbind_ok]
                  cases hd : st.data with
                  | none => exact ih (by omega) (by omega)
                  | some d =>
                    by_cases hc : d.offset + d.len = pos
                    · simp only [if_pos hc]
                      exact ih (by omega) (by omega)
                    · simp only [if_neg hc]
                · simp only [skipTo, if_neg hskip]
                  rfl
              · simp only [if_neg hmd]
                by_cases hmv : hdr.typ = MOOV
                · simp only [if_pos hmv]
                  cases hrd : readData src hdr p with
                  | error e => rfl
                  | ok v =>
                    obtain ⟨body, p'⟩ := v
                    simp only [exbind_ok]
                    cases hpm : parseMoov body with
                    | error e => rfl
                    | ok cs =>
                      simp only [exbind_ok]
                      have hpp : p ≤ p' := by
                        have := (readData_ok hrd).2.1
                        omega
                      exact ih (by omega) (by omega)
                · simp only [if_neg hmv]
    · rw [scan_exit hpos, scan_exit hpos]

--
-- listSource helpers
--

theorem listSource_len (bytes : List Nat) : (listSource bytes).len = bytes.length := rfl

theorem readHeader_listSource_pre {pre tail : List Nat} {pos : Nat} {hdr : BoxHeader}
    {c : Nat} (hp : pos + 16 ≤ pre.length)
    (hd : decodeHdr ((pre.drop pos).take 16) = .ok (hdr, c)) :
    readHeader (listSource (pre ++ tail)) pos = .ok (hdr, pos + c) := by
  apply readHeader_of_decode
  have hmin : min 16 ((listSource (pre ++ tail)).len - pos) = 16 := by
    rw [listSource_len]
    simp only [List.length_append]
    omega
  rw [hmin, listSource_grab (by simp only [List.length_append]; omega),
    List.drop_append_of_le_length (by omega),
    List.take_append_of_le_length (by simp only [List.length_drop]; omega)]
  exact hd

theorem readData_listSource_pre {pre tail : List Nat} {hdr : BoxHeader} {p b : Nat}
    (hb : bodySizeOf (listSource (pre ++ tail)) hdr p = b)
    (hcap : b ≤ MAXREAD) (hfit : p + b ≤ pre.length) :
    readData (listSource (pre ++ tail)) hdr p = .ok ((pre.drop p).take b, p + b) := by
  unfold readData readBytes
  rw [hb, if_neg (by omega),
    if_pos (by rw [listSource_len]; simp only [List.length_append]; omega),
    listSource_grab (by simp only [List.length_append]; omega),
    List.drop_append_of_le_length (by omega),
    List.take_append_of_le_length (by simp only [List.length_drop]; omega)]

--
-- plan unfolding lemmas
--

theorem metadataLenOf_eq (F : FtypData) (cs : List Child) :
    boxEncLen (fbodyOf F).length + boxEncLen (encChildren cs).length = metadataLenOf F cs := rfl

theorem plan_eq_zero {F : FtypData} {cs : List Child} {span : InputSpan}
    (h : span.offset = metadataLenOf F cs) :
    plan F cs span = .ok ⟨mkBox FTYP (fbodyOf F) ++ mkBox MOOV (encChildren cs), span⟩ := by
  unfold plan
  simp only [metadataLenOf_eq]
  rw [if_pos (le_of_eq h.symm), if_pos (by omega)]

theorem plan_eq_pad {F : FtypData} {cs : List Child} {span : InputSpan}
    (hle : metadataLenOf F cs ≤ span.offset)
    (h8 : 8 ≤ span.offset - metadataLenOf F cs)
    (hmax : span.offset - metadataLenOf F cs ≤ MAXPAD) :
    plan F cs span = .ok ⟨mkBox FTYP (fbodyOf F) ++ mkBox MOOV (encChildren cs) ++
      padBytes (span.offset - metadataLenOf F cs), span⟩ := by
  have hmax' : span.offset - metadataLenOf F cs ≤ U32MAX - 8 := hmax
  unfold plan
  simp only [metadataLenOf_eq]
  rw [if_pos hle, if_neg (by omega), if_pos ⟨h8, hmax⟩]

theorem plan_eq_back {F : FtypData} {cs : List Child} {span : InputSpan}
    (hle : metadataLenOf F cs ≤ span.offset)
    (hnz : span.offset - metadataLenOf F cs ≠ 0)
    (hnp : ¬(8 ≤ span.offset - metadataLenOf F cs ∧ span.offset - metadataLenOf F cs ≤ MAXPAD)) :
    plan F cs span =
      (if span.offset - metadataLenOf F cs ≤ 2147483647 then
        (rewriteMoov (-((span.offset - metadataLenOf F cs : Nat) : Int)) cs).bind fun cs' =>
          .ok ⟨mkBox FTYP (fbodyOf F) ++ boxHdrBytes MOOV (encChildren cs).length ++
            encChildren cs', span⟩
      else .error (.parse .unsupportedBoxLayout .mdatDisplacedTooFar)) := by
  unfold plan
  simp only [metadataLenOf_eq]
  rw [if_pos hle, if_neg hnz, if_neg hnp]
  split
  · rfl
  · rfl

theorem plan_eq_fwd {F : FtypData} {cs : List Child} {span : InputSpan}
    (hlt : span.offset < metadataLenOf F cs) :
    plan F cs span =
      (if metadataLenOf F cs - span.offset ≤ 2147483647 then
        (rewriteMoov ((metadataLenOf F cs - span.offset : Nat) : Int) cs).bind fun cs' =>
          .ok ⟨mkBox FTYP (fbodyOf F) ++ boxHdrBytes MOOV (encChildren cs).length ++
            encChildren cs', span⟩
      else .error (.parse .unsupportedBoxLayout .mdatDisplacedTooFar)) := by
  unfold plan
  simp only [metadataLenOf_eq]
  rw [if_neg (by omega)]
  split
  · rfl
  · rfl

/-- C3: the layout planner's decision is exactly three-way on the relation
between `payload.offset` and `metadata_len`: equal means no padding and no
chunk-offset change; a difference in `[PAD_HEADER_SIZE, MAX_PAD_SIZE]` means
a `free` padding box of exactly that size with chunk offsets unchanged; in
every other case the signed displacement `metadata_len - payload.offset`
is applied to chunk offsets, and when it does not fit in a signed 32-bit
integer the planner fails with `UnsupportedBoxLayout`
(`mdat displaced too far`) (src/mp4san/src/lib.rs lines 201-246). -/
theorem plan_three_way_decision (F : FtypData) (cs : List Child) (span : InputSpan) :
    (span.offset = metadataLenOf F cs →
      plan F cs span = .ok ⟨mkBox FTYP (fbodyOf F) ++ mkBox MOOV (encChildren cs), span⟩) ∧
    (metadataLenOf F cs ≤ span.offset →
      8 ≤ span.offset - metadataLenOf F cs →
      span.offset - metadataLenOf F cs ≤ MAXPAD →
      plan F cs span = .ok ⟨mkBox FTYP (fbodyOf F) ++ mkBox MOOV (encChildren cs) ++
        padBytes (span.offset - metadataLenOf F cs), span⟩) ∧
    (span.offset ≠ metadataLenOf F cs →
      ¬(metadataLenOf F cs ≤ span.offset ∧ 8 ≤ span.offset - metadataLenOf F cs ∧
        span.offset - metadataLenOf F cs ≤ MAXPAD) →
      ((-(2147483648 : Int) ≤ (metadataLenOf F cs : Int) - (span.offset : Int) ∧
        (metadataLenOf F cs : Int) - (span.offset : Int) ≤ 2147483647 →
        plan F cs span =
          (rewriteMoov ((metadataLenOf F cs : Int) - (span.offset : Int)) cs).bind fun cs' =>
            .ok ⟨mkBox FTYP (fbodyOf F) ++ boxHdrBytes MOOV (encChildren cs).length ++
              encChildren cs', span⟩) ∧
      (¬(-(2147483648 : Int) ≤ (metadataLenOf F cs : Int) - (span.offset : Int) ∧
        (metadataLenOf F cs : Int) - (span.offset : Int) ≤ 2147483647) →
        plan F cs span = .error (.parse .unsupportedBoxLayout .mdatDisplacedTooFar)))) := by
  refine ⟨fun h => plan_eq_zero h, fun hle h8 hmax => plan_eq_pad hle h8 hmax, ?_⟩
  intro hne hnp
  rcases le_or_lt (metadataLenOf F cs) span.offset with hle | hlt
  · have hnz : span.offset - metadataLenOf F cs ≠ 0 := by omega
    have hnp' : ¬(8 ≤ span.offset - metadataLenOf F cs ∧
        span.offset - metadataLenOf F cs ≤ MAXPAD) := fun hc => hnp ⟨hle, hc⟩
    have hMAX : MAXPAD = 4294967287 := rfl
    have hcast : (metadataLenOf F cs : Int) - (span.offset : Int) =
        -((span.offset - metadataLenOf F cs : Nat) : Int) := by omega
    constructor
    · intro hfit
      rw [plan_eq_back hle hnz hnp', if_pos (by omega), hcast]
    · intro hnfit
      rw [plan_eq_back hle hnz hnp', if_neg (by omega)]
  · have hcast : (metadataLenOf F cs : Int) - (span.offset : Int) =
        ((metadataLenOf F cs - span.offset : Nat) : Int) := by omega
    constructor
    · intro hfit
      rw [plan_eq_fwd hlt, if_pos (by omega), hcast]
    · intro hnfit
      rw [plan_eq_fwd hlt, if_neg (by omega)]

/-- Witness for `plan_three_way_decision` at a concrete planner input: an
empty `ftyp`/`moov` pair with the payload exactly at `metadata_len` takes
the no-padding branch. -/
theorem plan_three_way_decision_witness :
    plan ⟨[105, 115, 111, 109], [0, 0, 0, 0], [105, 115, 111, 109]⟩ [] ⟨28, 8⟩ =
      .ok ⟨mkBox FTYP (fbodyOf ⟨[105, 115, 111, 109], [0, 0, 0, 0], [105, 115, 111, 109]⟩) ++
        mkBox MOOV (encChildren []), ⟨28, 8⟩⟩ :=
  (plan_three_way_decision ⟨[105, 115, 111, 109], [0, 0, 0, 0], [105, 115, 111, 109]⟩
    [] ⟨28, 8⟩).1 (by decide)

/-- C10: in the no-padding and padding branches (zero displacement) the moov
body bytes, chunk-offset entries included, are emitted unchanged from their
parsed form, the returned data span is exactly the accumulated input span,
and the metadata byte length equals `data.offset`
(src/mp4san/src/lib.rs lines 205-212 and 248-257). -/
theorem plan_zero_displacement_frame (F : FtypData) (cs : List Child) (span : InputSpan)
    (hle : metadataLenOf F cs ≤ span.offset)
    (hcase : span.offset - metadataLenOf F cs = 0 ∨
      (8 ≤ span.offset - metadataLenOf F cs ∧ span.offset - metadataLenOf F cs ≤ MAXPAD)) :
    ∃ pad, plan F cs span =
        .ok ⟨mkBox FTYP (fbodyOf F) ++ mkBox MOOV (encChildren cs) ++ pad, span⟩ ∧
      (mkBox FTYP (fbodyOf F) ++ mkBox MOOV (encChildren cs) ++ pad).length = span.offset := by
  have hlen : (mkBox FTYP (fbodyOf F) ++ mkBox MOOV (encChildren cs)).length =
      metadataLenOf F cs := by
    simp [List.length_append, mkBox_length, metadataLenOf]
  rcases hcase with h0 | ⟨h8, hmax⟩
  · refine ⟨[], ?_, ?_⟩
    · rw [List.append_nil, plan_eq_zero (by omega)]
    · simp only [List.append_nil, hlen]
      omega
  · refine ⟨padBytes (span.offset - metadataLenOf F cs), plan_eq_pad hle h8 hmax, ?_⟩
    rw [List.length_append, hlen, padBytes_length h8]
    omega

/-- Witness for `plan_zero_displacement_frame`: the same concrete planner
input with a payload gap of 8 takes the padding branch. -/
theorem plan_zero_displacement_frame_witness :
    ∃ pad, plan ⟨[105, 115, 111, 109], [0, 0, 0, 0], [105, 115, 111, 109]⟩ [] ⟨36, 8⟩ =
        .ok ⟨mkBox FTYP (fbodyOf ⟨[105, 115, 111, 109], [0, 0, 0, 0], [105, 115, 111, 109]⟩) ++
          mkBox MOOV (encChildren []) ++ pad, ⟨36, 8⟩⟩ ∧
      (mkBox FTYP (fbodyOf ⟨[105, 115, 111, 109], [0, 0, 0, 0], [105, 115, 111, 109]⟩) ++
        mkBox MOOV (encChildren []) ++ pad).length = 36 :=
  plan_zero_displacement_frame ⟨[105, 115, 111, 109], [0, 0, 0, 0], [105, 115, 111, 109]⟩
    [] ⟨36, 8⟩ (by decide) (by decide)

--
-- free-led source reading lemmas
--

theorem tail84_length : tail84.length = 84 := by decide

theorem freeLed_len (f : Nat) : (freeLedSrc f).len = f + 84 := rfl

theorem freeLed_grab {f : Nat} (hf : 8 ≤ f) (a n : Nat) (han : a + n ≤ 84) :
    grab (freeLedSrc f) (f + a) n = (tail84.drop a).take n := by
  apply grab_eq_of_fn
  · simp only [List.length_take, List.length_drop, tail84_length]
    omega
  · intro k hk
    show (freeLedSrc f).byte (f + a + k) = _
    simp only [freeLedSrc]
    rw [if_neg (by omega), if_neg (by omega), show f + a + k - f = a + k by omega,
      getD_take_drop hk (by rw [tail84_length]; omega)]

theorem freeLed_readData {f : Nat} (hf : 8 ≤ f) {hdr : BoxHeader} (a b : Nat)
    (hb : bodySizeOf (freeLedSrc f) hdr (f + a) = b) (hcap : b ≤ MAXREAD)
    (hfit : a + b ≤ 84) :
    readData (freeLedSrc f) hdr (f + a) = .ok ((tail84.drop a).take b, f + a + b) := by
  unfold readData readBytes
  rw [hb, if_neg (by omega),
    if_pos (show f + a + b ≤ (freeLedSrc f).len from by rw [freeLed_len]; omega),
    freeLed_grab hf a b hfit]

theorem freeLed_readHeader {f : Nat} (hf : 8 ≤ f) {a : Nat} {hdr : BoxHeader} {c : Nat}
    (ha : a + 16 ≤ 84)
    (hd : decodeHdr ((tail84.drop a).take 16) = .ok (hdr, c)) :
    readHeader (freeLedSrc f) (f + a) = .ok (hdr, f + a + c) := by
  apply readHeader_of_decode
  have hmin : min 16 ((freeLedSrc f).len - (f + a)) = 16 := by
    rw [freeLed_len]
    omega
  rw [hmin, freeLed_grab hf a 16 (by omega)]
  exact hd

--
-- C7: the u64::MAX boundary
--

/-- C7: for an `mdat` with an explicit (extended) size, `sanitize` succeeds
whenever `data.offset + data.len` is at most `u64::MAX` (the success branch
covers `data.offset + data.len = u64::MAX` exactly, see the witness), and
fails with an error rather than wrapping when the total would pass
`u64::MAX` (the skip position check of the `Skip` impl,
src/mp4san/src/lib.rs lines 264-280 and 362-371, surfaces as an io error).
The stream is `ftyp`, `moov`, then an `mdat` header with extended size
`16 + L`: the payload span is `{offset 76, len 16 + L}` and its end is
`92 + L`. -/
theorem sanitize_u64_boundary (L : Nat) (hL : 16 + L < 18446744073709551616) :
    (92 + L ≤ U64MAX → sanitize (c7src L) = .ok ⟨preW [], ⟨76, L + 16⟩⟩) ∧
    (¬92 + L ≤ U64MAX → sanitize (c7src L) = .error (.io .seekPastU64Max)) := by
  have hpre : (preW []).length = 76 := by decide
  have hsrc : c7src L = listSource (preW [] ++ (enc32 1 ++ (enc32 MDAT ++ enc64 (16 + L)))) :=
    rfl
  have hslen : (c7src L).len = 92 := by
    rw [hsrc, listSource_len]
    simp only [List.length_append, hpre, enc32_length, enc64_length]
  have r0 : readHeader (c7src L) 0 = .ok (⟨.u32 20, FTYP⟩, 8) := by
    rw [hsrc]
    have h := @readHeader_listSource_pre (preW [])
      (enc32 1 ++ (enc32 MDAT ++ enc64 (16 + L))) 0 ⟨.u32 20, FTYP⟩ 8
      (by decide) (by decide)
    simpa using h
  have rd0 : readData (c7src L) ⟨.u32 20, FTYP⟩ 8 = .ok (((preW []).drop 8).take 12, 20) := by
    rw [hsrc]
    have h := @readData_listSource_pre (preW [])
      (enc32 1 ++ (enc32 MDAT ++ enc64 (16 + L))) ⟨.u32 20, FTYP⟩ 8 12
      rfl (by decide) (by decide)
    simpa using h
  have pf0 : parseFtyp (((preW []).drop 8).take 12) = .ok ftypW := by decide
  have r1 : readHeader (c7src L) 20 = .ok (⟨.u32 56, MOOV⟩, 28) := by
    rw [hsrc]
    have h := @readHeader_listSource_pre (preW [])
      (enc32 1 ++ (enc32 MDAT ++ enc64 (16 + L))) 20 ⟨.u32 56, MOOV⟩ 8
      (by decide) (by decide)
    simpa using h
  have rd1 : readData (c7src L) ⟨.u32 56, MOOV⟩ 28 =
      .ok (((preW []).drop 28).take 48, 76) := by
    rw [hsrc]
    have h := @readData_listSource_pre (preW [])
      (enc32 1 ++ (enc32 MDAT ++ enc64 (16 + L))) ⟨.u32 56, MOOV⟩ 28 48
      rfl (by decide) (by decide)
    simpa using h
  have pm1 : parseMoov (((preW []).drop 28).take 48) = .ok c7cs := by decide
  have hdrop76 : (preW []).drop 76 = ([] : List Nat) := by
    rw [← hpre]
    exact List.drop_length _
  have r2 : readHeader (c7src L) 76 = .ok (⟨.ext (16 + L), MDAT⟩, 92) := by
    have hd : decodeHdr (grab (c7src L) 76 (min 16 ((c7src L).len - 76))) =
        .ok (⟨.ext (16 + L), MDAT⟩, 16) := by
      have hmin : min 16 ((c7src L).len - 76) = 16 := by rw [hslen]; decide
      have hg : 76 + 16 ≤ (preW [] ++ (enc32 1 ++ (enc32 MDAT ++ enc64 (16 + L)))).length := by
        simp only [List.length_append, hpre, enc32_length, enc64_length]
        omega
      have htk : (enc32 1 ++ (enc32 MDAT ++ enc64 (16 + L))).length ≤ 16 := by
        simp only [List.length_append, enc32_length, enc64_length]
        omega
      rw [hmin, hsrc, listSource_grab hg, List.drop_append_of_le_length (by omega),
        hdrop76, List.nil_append, List.take_of_length_le htk]
      exact decodeHdr_ext_nil (by omega) (by omega) (by decide)
    have h := readHeader_of_decode hd
    simpa using h
  have hb2 : bodySizeOf (c7src L) ⟨.ext (16 + L), MDAT⟩ 92 = L := by
    simp [bodySizeOf]
  have henc2 : BoxHeader.encLen ⟨.ext (16 + L), MDAT⟩ = 16 := rfl
  have hfin : finalize ⟨some ftypW, some c7cs, some ⟨76, L + 16⟩⟩ =
      .ok ⟨preW [], ⟨76, L + 16⟩⟩ := by
    simp only [finalize]
    rw [if_neg (by decide),
      plan_eq_zero (show (76 : Nat) = metadataLenOf ftypW c7cs by decide),
      show mkBox FTYP (fbodyOf ftypW) ++ mkBox MOOV (encChildren c7cs) = preW [] by decide]
  constructor
  · intro hok
    unfold sanitize
    rw [hslen,
      scan_step_ftyp (by rw [hslen]; omega) r0 rfl rfl rd0 pf0,
      show (92 : Nat) = 91 + 1 from rfl,
      @scan_step_moov (c7src L) 91 20 ⟨some ftypW, none, none⟩ ⟨.u32 56, MOOV⟩ 28 76
        (((preW []).drop 28).take 48) c7cs (by rw [hslen]; omega) r1 rfl rfl rd1 pm1,
      show (91 : Nat) = 90 + 1 from rfl,
      @scan_step_mdat_new (c7src L) 90 76 ⟨some ftypW, some c7cs, none⟩
        ⟨.ext (16 + L), MDAT⟩ 92 (by rw [hslen]; omega) r2 rfl rfl rfl
        (by rw [hb2]; exact hok),
      hb2, henc2,
      @scan_exit (c7src L) 90 (92 + L) ⟨some ftypW, some c7cs, some ⟨76, L + 16⟩⟩
        (by rw [hslen]; omega),
      exbind_ok]
    exact hfin
  · intro hbad
    unfold sanitize
    rw [hslen,
      scan_step_ftyp (by rw [hslen]; omega) r0 rfl rfl rd0 pf0,
      show (92 : Nat) = 91 + 1 from rfl,
      @scan_step_moov (c7src L) 91 20 ⟨some ftypW, none, none⟩ ⟨.u32 56, MOOV⟩ 28 76
        (((preW []).drop 28).take 48) c7cs (by rw [hslen]; omega) r1 rfl rfl rd1 pm1,
      show (91 : Nat) = 90 + 1 from rfl,
      @scan_step_mdat_skipfail (c7src L) 90 76 ⟨some ftypW, some c7cs, none⟩
        ⟨.ext (16 + L), MDAT⟩ 92 (by rw [hslen]; omega) r2 rfl rfl
        (by rw [hb2]; exact hbad)]
    rfl

/-- Witness for `sanitize_u64_boundary` at the boundary itself: with
`L = u64::MAX - 92` the payload span ends exactly at `u64::MAX` and
`sanitize` succeeds; with `L` one larger it fails. -/
theorem sanitize_u64_boundary_witness :
    (sanitize (c7src (U64MAX - 92)) = .ok ⟨preW [], ⟨76, (U64MAX - 92) + 16⟩⟩ ∧
      76 + ((U64MAX - 92) + 16) = U64MAX) ∧
    sanitize (c7src (U64MAX - 91)) = .error (.io .seekPastU64Max) :=
  ⟨⟨(sanitize_u64_boundary (U64MAX - 92) (by decide)).1 (by decide), by decide⟩,
    (sanitize_u64_boundary (U64MAX - 91) (by decide)).2 (by decide)⟩

--
-- C9: leading free box
--

/-- C9 counterexample: the tail `ftyp`/`moov`/`mdat` stream alone sanitizes
successfully, yet the same stream preceded by a `free` box of total size
`2^32 - 8` fails: the gap exceeds `MAX_PAD_SIZE`, so the planner computes a
backward displacement of `2^32 - 8`, which does not fit in `i32`
(src/mp4san/src/lib.rs lines 205-221). -/
theorem free_box_leading_counterexample :
    sanitize (listSource tail84) = .ok ⟨preW [], ⟨76, 8⟩⟩ ∧
    sanitize (freeLedSrc 4294967288) =
      .error (.parse .unsupportedBoxLayout .mdatDisplacedTooFar) := by
  constructor
  · decide
  · decide

/-- C9 amended: a `free` box before any `ftyp` is skipped without error, and
for every leading free box of total size `f` with `8 ≤ f ≤ MAX_PAD_SIZE`
followed by a valid `ftyp`, `moov` and `mdat`, `sanitize` succeeds (with a
padding box of size `f`); a leading free box larger than `MAX_PAD_SIZE`
makes `sanitize` fail (see the counterexample).  An `mdat` or `moov` in the
same leading position instead fails with `InvalidBoxLayout`
(`ftyp is not the first significant box`)
(src/mp4san/src/lib.rs lines 117-128 and 146-148). -/
theorem free_box_leading (f : Nat) (h8 : 8 ≤ f) (hmax : f ≤ MAXPAD) :
    sanitize (freeLedSrc f) = .ok ⟨preW [] ++ padBytes f, ⟨f + 76, 8⟩⟩ ∧
    sanitize (listSource (enc32 8 ++ (enc32 MDAT ++ tail84))) =
      .error (.parse .invalidBoxLayout .ftypNotFirst) ∧
    sanitize (listSource (u32Box MOOV (moovBodyW []) ++ tail84)) =
      .error (.parse .invalidBoxLayout .ftypNotFirst) := by
  have hMAXPAD : MAXPAD = 4294967287 := rfl
  have hU : U64MAX = 18446744073709551615 := rfl
  have hf32 : f ≤ 4294967287 := hMAXPAD ▸ hmax
  refine ⟨?_, by decide, by decide⟩
  have hml : metadataLenOf ftypW c7cs = 76 := by decide
  have r0pre : readHeader (freeLedSrc f) 0 = .ok (⟨.u32 f, FREE⟩, 0 + 8) := by
    apply readHeader_of_decode
    have hmin : min 16 ((freeLedSrc f).len - 0) = 16 := by
      rw [freeLed_len]
      omega
    have hg8 : grab (freeLedSrc f) 0 8 = enc32 f ++ enc32 FREE := by
      apply grab_eq_of_fn
      · simp [enc32]
      · intro k hk
        show (freeLedSrc f).byte (0 + k) = _
        simp only [freeLedSrc]
        rw [if_pos (by omega), show (0 : Nat) + k = k by omega]
    rw [hmin, show (16 : Nat) = 8 + 8 from rfl, grab_append, hg8, List.append_assoc]
    exact decodeHdr_u32 (grab (freeLedSrc f) (0 + 8) 8) h8 (by omega) (by decide)
  have r0 : readHeader (freeLedSrc f) 0 = .ok (⟨.u32 f, FREE⟩, 8) := by
    simpa using r0pre
  have rf : readHeader (freeLedSrc f) (f + 0) = .ok (⟨.u32 20, FTYP⟩, f + 0 + 8) :=
    freeLed_readHeader h8 (by omega) (by decide)
  have rdf : readData (freeLedSrc f) ⟨.u32 20, FTYP⟩ (f + 8) =
      .ok ((tail84.drop 8).take 12, f + 8 + 12) :=
    freeLed_readData h8 8 12 rfl (by decide) (by omega)
  have pff : parseFtyp ((tail84.drop 8).take 12) = .ok ftypW := by decide
  have rm : readHeader (freeLedSrc f) (f + 20) = .ok (⟨.u32 56, MOOV⟩, f + 20 + 8) :=
    freeLed_readHeader h8 (by omega) (by decide)
  have rdm : readData (freeLedSrc f) ⟨.u32 56, MOOV⟩ (f + 28) =
      .ok ((tail84.drop 28).take 48, f + 28 + 48) :=
    freeLed_readData h8 28 48 rfl (by decide) (by omega)
  have pmm : parseMoov ((tail84.drop 28).take 48) = .ok c7cs := by decide
  have rmd : readHeader (freeLedSrc f) (f + 76) = .ok (⟨.u32 8, MDAT⟩, f + 76 + 8) := by
    apply readHeader_of_decode
    have hmin : min 16 ((freeLedSrc f).len - (f + 76)) = 8 := by
      rw [freeLed_len]
      omega
    rw [hmin, freeLed_grab h8 76 8 (by omega)]
    decide
  have hb0 : bodySizeOf (freeLedSrc f) ⟨.u32 f, FREE⟩ 8 = f - 8 := rfl
  unfold sanitize
  rw [freeLed_len,
    @scan_step_free_none (freeLedSrc f) (f + 84) 0 ⟨none, none, none⟩ ⟨.u32 f, FREE⟩ 8
      (by rw [freeLed_len]; omega) r0 rfl rfl
      (by rw [hb0]; show 8 + (f - 8) ≤ U64MAX; rw [hU]; omega),
    hb0, show 8 + (f - 8) = f + 0 by omega,
    show f + 84 = f + 83 + 1 by omega,
    @scan_step_ftyp (freeLedSrc f) (f + 83) (f + 0) ⟨none, none, none⟩ ⟨.u32 20, FTYP⟩
      (f + 0 + 8) (f + 8 + 12) ((tail84.drop 8).take 12) ftypW
      (by rw [freeLed_len]; omega) rf rfl rfl
      (show readData (freeLedSrc f) ⟨.u32 20, FTYP⟩ (f + 0 + 8) = _ from by
        rw [show f + 0 + 8 = f + 8 by omega]; exact rdf) pff,
    show f + 8 + 12 = f + 20 by omega,
    show f + 83 = f + 82 + 1 by omega,
    @scan_step_moov (freeLedSrc f) (f + 82) (f + 20) ⟨some ftypW, none, none⟩
      ⟨.u32 56, MOOV⟩ (f + 20 + 8) (f + 28 + 48) ((tail84.drop 28).take 48) c7cs
      (by rw [freeLed_len]; omega) rm rfl rfl
      (show readData (freeLedSrc f) ⟨.u32 56, MOOV⟩ (f + 20 + 8) = _ from by
        rw [show f + 20 + 8 = f + 28 by omega]; exact rdm) pmm,
    show f + 28 + 48 = f + 76 by omega,
    show f + 82 = f + 81 + 1 by omega,
    @scan_step_mdat_new (freeLedSrc f) (f + 81) (f + 76) ⟨some ftypW, some c7cs, none⟩
      ⟨.u32 8, MDAT⟩ (f + 76 + 8)
      (by rw [freeLed_len]; omega) rmd rfl rfl rfl
      (show f + 76 + 8 + bodySizeOf (freeLedSrc f) ⟨.u32 8, MDAT⟩ (f + 76 + 8) ≤ U64MAX
        from by show f + 76 + 8 + (8 - 8) ≤ U64MAX; rw [hU]; omega),
    show bodySizeOf (freeLedSrc f) ⟨.u32 8, MDAT⟩ (f + 76 + 8) = 0 from rfl,
    show f + 76 + 8 + 0 = f + 84 by omega,
    show (0 : Nat) + BoxHeader.encLen ⟨.u32 8, MDAT⟩ = 8 from rfl,
    @scan_exit (freeLedSrc f) (f + 81) (f + 84) ⟨some ftypW, some c7cs, some ⟨f + 76, 8⟩⟩
      (by rw [freeLed_len]; omega),
    exbind_ok]
  simp only [finalize]
  rw [if_neg (by decide),
    plan_eq_pad (show metadataLenOf ftypW c7cs ≤ (⟨f + 76, 8⟩ : InputSpan).offset from by
        rw [hml]; show 76 ≤ f + 76; omega)
      (show 8 ≤ (⟨f + 76, 8⟩ : InputSpan).offset - metadataLenOf ftypW c7cs from by
        rw [hml]; show 8 ≤ f + 76 - 76; omega)
      (show (⟨f + 76, 8⟩ : InputSpan).offset - metadataLenOf ftypW c7cs ≤ MAXPAD from by
        rw [hml]; show f + 76 - 76 ≤ MAXPAD; omega),
    show (⟨f + 76, 8⟩ : InputSpan).offset - metadataLenOf ftypW c7cs = f from by
      rw [hml]; show f + 76 - 76 = f; omega,
    show mkBox FTYP (fbodyOf ftypW) ++ mkBox MOOV (encChildren c7cs) = preW [] from by decide]

/-- Witness for `free_box_leading` at `f = 16`. -/
theorem free_box_leading_witness :
    sanitize (freeLedSrc 16) = .ok ⟨preW [] ++ padBytes 16, ⟨16 + 76, 8⟩⟩ ∧
    sanitize (listSource (enc32 8 ++ (enc32 MDAT ++ tail84))) =
      .error (.parse .invalidBoxLayout .ftypNotFirst) ∧
    sanitize (listSource (u32Box MOOV (moovBodyW []) ++ tail84)) =
      .error (.parse .invalidBoxLayout .ftypNotFirst) :=
  free_box_leading 16 (by decide) (by decide)

--
-- chunk-offset rewriter characterization (C4)
--

theorem checkedAddSigned_some {e bound : Nat} {d : Int}
    (h0 : 0 ≤ (e : Int) + d) (h1 : (e : Int) + d < (bound : Int)) :
    checkedAddSigned e d bound = some ((e : Int) + d).toNat := by
  unfold checkedAddSigned
  rw [if_pos ⟨h0, h1⟩]

theorem checkedAddSigned_none {e bound : Nat} {d : Int}
    (h : ¬(0 ≤ (e : Int) + d ∧ (e : Int) + d < (bound : Int))) :
    checkedAddSigned e d bound = none := if_neg h

/-- C4: with a non-zero displacement `d`, every chunk-offset entry is
replaced in place by `entry + d` computed with checked arithmetic; a
negative result or overflow of the entry width fails with `InvalidInput`
(`chunk offset not within mdat`).  For a 32-bit `stco` table the bound is
`2 ^ 32`; for a 64-bit `co64` table the displacement is widened and the
bound is `2 ^ 64`.  All other bytes (version/flags, count, trailing bytes)
are preserved and the new values are written back through the entry setter
(src/mp4san/src/lib.rs lines 225-244, src/mp4san/src/parse/array.rs lines
153-161). -/
theorem stco_co64_checked_rewrite (d : Int) :
    (∀ vf cntB eb rest : List Nat, vf.length = 4 → cntB.length = 4 →
      eb.length = 4 * dec32 cntB → 4 * dec32 cntB ≤ U32MAX →
      ((∀ c ∈ chunks4 eb, 0 ≤ (dec32 c : Int) + d ∧ (dec32 c : Int) + d < 4294967296) →
        rewriteStcoBody d (vf ++ (cntB ++ (eb ++ rest))) =
          .ok (vf ++ cntB ++
            (((chunks4 eb).map fun c => enc32 (((dec32 c : Int) + d).toNat)).flatten) ++ rest)) ∧
      ((∃ c ∈ chunks4 eb, ¬(0 ≤ (dec32 c : Int) + d ∧ (dec32 c : Int) + d < 4294967296)) →
        rewriteStcoBody d (vf ++ (cntB ++ (eb ++ rest))) =
          .error (.parse .invalidInput .chunkOffsetNotInMdat))) ∧
    (∀ vf cntB eb rest : List Nat, vf.length = 4 → cntB.length = 4 →
      eb.length = 8 * dec32 cntB → 8 * dec32 cntB ≤ U32MAX →
      ((∀ c ∈ chunks8 eb, 0 ≤ (dec64 c : Int) + d ∧
          (dec64 c : Int) + d < 18446744073709551616) →
        rewriteCo64Body d (vf ++ (cntB ++ (eb ++ rest))) =
          .ok (vf ++ cntB ++
            (((chunks8 eb).map fun c => enc64 (((dec64 c : Int) + d).toNat)).flatten) ++ rest)) ∧
      ((∃ c ∈ chunks8 eb, ¬(0 ≤ (dec64 c : Int) + d ∧
          (dec64 c : Int) + d < 18446744073709551616)) →
        rewriteCo64Body d (vf ++ (cntB ++ (eb ++ rest))) =
          .error (.parse .invalidInput .chunkOffsetNotInMdat))) := by
  constructor
  · intro vf cntB eb rest hvf hcnt heb hbound
    have hlen : (vf ++ (cntB ++ (eb ++ rest))).length = 8 + eb.length + rest.length := by
      simp [List.length_append]
      omega
    have h1 : (vf ++ (cntB ++ (eb ++ rest))).take 4 = vf := take_of_len_append hvf
    have h2 : (vf ++ (cntB ++ (eb ++ rest))).drop 4 = cntB ++ (eb ++ rest) :=
      drop_of_len_append hvf
    have hr1len : (cntB ++ (eb ++ rest)).length = 4 + eb.length + rest.length := by
      simp [List.length_append]
      omega
    have h3 : (cntB ++ (eb ++ rest)).take 4 = cntB := take_of_len_append hcnt
    have h4 : (cntB ++ (eb ++ rest)).drop 4 = eb ++ rest := drop_of_len_append hcnt
    have h5 : (eb ++ rest).take (4 * dec32 cntB) = eb := take_of_len_append heb
    have h6 : (eb ++ rest).drop (4 * dec32 cntB) = rest := drop_of_len_append heb
    have hr2len : (eb ++ rest).length = eb.length + rest.length := List.length_append _ _
    unfold rewriteStcoBody
    rw [if_neg (by omega), h1, h2, if_neg (by omega), h3, h4, if_neg (by omega),
      if_neg (by omega), h5, h6]
    constructor
    · intro hall
      rw [exMapM_ok (g := fun c => enc32 (((dec32 c : Int) + d).toNat))
        (fun c hc => by
          simp only [checkedAddSigned_some (hall c hc).1 (by exact_mod_cast (hall c hc).2)])]
      rfl
    · intro hex
      obtain ⟨c, hc, hnc⟩ := hex
      rw [exMapM_error (g := fun c => enc32 (((dec32 c : Int) + d).toNat))
        (e := Err.parse ParseErr.invalidInput ErrMsg.chunkOffsetNotInMdat)
        (fun x _ => by
          by_cases hx : 0 ≤ (dec32 x : Int) + d ∧ (dec32 x : Int) + d < 4294967296
          · exact Or.inl (by
              simp only [checkedAddSigned_some hx.1 (by exact_mod_cast hx.2)])
          · exact Or.inr (by
              simp only [checkedAddSigned_none (by exact_mod_cast hx)]))
        ⟨c, hc, by simp only [checkedAddSigned_none (by exact_mod_cast hnc)]⟩]
      rfl
  · intro vf cntB eb rest hvf hcnt heb hbound
    have hlen : (vf ++ (cntB ++ (eb ++ rest))).length = 8 + eb.length + rest.length := by
      simp [List.length_append]
      omega
    have h1 : (vf ++ (cntB ++ (eb ++ rest))).take 4 = vf := take_of_len_append hvf
    have h2 : (vf ++ (cntB ++ (eb ++ rest))).drop 4 = cntB ++ (eb ++ rest) :=
      drop_of_len_append hvf
    have hr1len : (cntB ++ (eb ++ rest)).length = 4 + eb.length + rest.length := by
      simp [List.length_append]
      omega
    have h3 : (cntB ++ (eb ++ rest)).take 4 = cntB := take_of_len_append hcnt
    have h4 : (cntB ++ (eb ++ rest)).drop 4 = eb ++ rest := drop_of_len_append hcnt
    have h5 : (eb ++ rest).take (8 * dec32 cntB) = eb := take_of_len_append heb
    have h6 : (eb ++ rest).drop (8 * dec32 cntB) = rest := drop_of_len_append heb
    have hr2len : (eb ++ rest).length = eb.length + rest.length := List.length_append _ _
    unfold rewriteCo64Body
    rw [if_neg (by omega), h1, h2, if_neg (by omega), h3, h4, if_neg (by omega),
      if_neg (by omega), h5, h6]
    constructor
    · intro hall
      rw [exMapM_ok (g := fun c => enc64 (((dec64 c : Int) + d).toNat))
        (fun c hc => by
          simp only [checkedAddSigned_some (hall c hc).1 (by exact_mod_cast (hall c hc).2)])]
      rfl
    · intro hex
      obtain ⟨c, hc, hnc⟩ := hex
      rw [exMapM_error (g := fun c => enc64 (((dec64 c : Int) + d).toNat))
        (e := Err.parse ParseErr.invalidInput ErrMsg.chunkOffsetNotInMdat)
        (fun x _ => by
          by_cases hx : 0 ≤ (dec64 x : Int) + d ∧ (dec64 x : Int) + d < 18446744073709551616
          · exact Or.inl (by
              simp only [checkedAddSigned_some hx.1 (by exact_mod_cast hx.2)])
          · exact Or.inr (by
              simp only [checkedAddSigned_none (by exact_mod_cast hx)]))
        ⟨c, hc, by simp only [checkedAddSigned_none (by exact_mod_cast hnc)]⟩]
      rfl

/-- Witness for `stco_co64_checked_rewrite`: a one-entry `stco` body with
entry 10, displaced by 5, becomes entry 15 with all other bytes kept. -/
theorem stco_co64_checked_rewrite_witness :
    rewriteStcoBody 5 ([0, 0, 0, 0] ++ ([0, 0, 0, 1] ++ ([0, 0, 0, 10] ++ [7]))) =
      .ok ([0, 0, 0, 0] ++ [0, 0, 0, 1] ++
        (((chunks4 [0, 0, 0, 10]).map fun c => enc32 (((dec32 c : Int) + 5).toNat)).flatten)
        ++ [7]) :=
  (((stco_co64_checked_rewrite 5).1 [0, 0, 0, 0] [0, 0, 0, 1] [0, 0, 0, 10] [7]
    rfl rfl (by decide) (by decide)).1 (by decide))

--
-- unbounded array codec (C8)
--

theorem chunksExact_length (w : Nat) (l : List Nat) :
    (chunksExact w l).length = l.length / w := by
  simp [chunksExact]

theorem chunksExact_mem_length {w : Nat} (hw : 0 < w) {l c : List Nat}
    (hc : c ∈ chunksExact w l) : c.length = w := by
  simp only [chunksExact, List.mem_map, List.mem_range] at hc
  obtain ⟨i, hi, rfl⟩ := hc
  have h1 : w * (i + 1) ≤ w * (l.length / w) := Nat.mul_le_mul_left w hi
  have h2 : w * (l.length / w) ≤ l.length := Nat.mul_div_le l.length w
  have h3 : w * (i + 1) = w * i + w := by ring
  simp only [List.length_take, List.length_drop]
  omega

/-- C8 counterexample: the claim says parsing an unbounded typed array fails
with `InvalidInput` when the remaining byte count is not a multiple of the
entry size, but `UnboundedArray::parse` (src/mp4san/src/parse/array.rs lines
114-118) performs no such check: over a 5-byte buffer with 4-byte entries it
succeeds, taking all five bytes. -/
theorem unbounded_array_parse_counterexample :
    unboundedArrayParse [0, 0, 0, 0, 7] = .ok ([0, 0, 0, 0, 7], []) ∧ 5 % 4 ≠ 0 :=
  ⟨rfl, by decide⟩

/-- C8 amended: parsing an unbounded typed array consumes all remaining
bytes of the buffer and always succeeds; no multiple-of-`sizeof(T)` check is
made.  A trailing partial entry is kept in the backing bytes (and re-emitted
by `put_buf`) but is not exposed by the entry iterator: the `chunks_exact`
view has exactly `len / sizeof(T)` entries, each of the full entry width
(src/mp4san/src/parse/array.rs lines 97-127). -/
theorem unbounded_array_parse_behavior (w : Nat) (buf : List Nat) (hw : 0 < w) :
    unboundedArrayParse buf = .ok (buf, []) ∧
    (chunksExact w buf).length = buf.length / w ∧
    (∀ c ∈ chunksExact w buf, c.length = w) :=
  ⟨rfl, chunksExact_length w buf, fun _ hc => chunksExact_mem_length hw hc⟩

/-- Witness for `unbounded_array_parse_behavior` at entry width 4 over a
5-byte buffer: one full entry, remainder kept. -/
theorem unbounded_array_parse_behavior_witness :
    unboundedArrayParse [0, 0, 0, 0, 7] = .ok ([0, 0, 0, 0, 7], []) ∧
    (chunksExact 4 [0, 0, 0, 0, 7]).length = 5 / 4 ∧
    (∀ c ∈ chunksExact 4 [0, 0, 0, 0, 7], c.length = 4) :=
  unbounded_array_parse_behavior 4 [0, 0, 0, 0, 7] (by decide)

--
-- parse soundness and completeness
--

theorem parseBoxes_nil (fuel : Nat) : parseBoxes fuel [] = .ok [] := by
  cases fuel <;> rfl

theorem take_of_take_append {l r : List Nat} {c m : Nat} (hm : m ≤ c) (hc : c ≤ l.length) :
    (l.take c ++ r).take m = l.take m := by
  rw [List.take_append_of_le_length (by simp [List.length_take]; omega),
    List.take_take, min_eq_left hm]

theorem drop_take_of_take_append {l r : List Nat} {c n m : Nat} (h : n + m ≤ c)
    (hc : c ≤ l.length) :
    ((l.take c ++ r).drop n).take m = (l.drop n).take m := by
  rw [List.drop_append_of_le_length (by simp [List.length_take]; omega),
    List.take_append_of_le_length (by simp [List.length_take, List.length_drop]; omega),
    List.drop_take, List.take_take, min_eq_left (by omega)]

theorem decodeHdr_stable {l : List Nat} {hdr : BoxHeader} {c : Nat}
    (h : decodeHdr l = .ok (hdr, c)) :
    c = hdr.encLen ∧ c ≤ l.length ∧ c ≤ 16 ∧
      ∀ r, decodeHdr (l.take c ++ r) = .ok (hdr, c) := by
  have h8 : ¬l.length < 8 := by
    by_contra hc
    rw [decodeHdr, if_pos hc] at h
    exact absurd h (by simp)
  rw [decodeHdr, if_neg h8] at h
  by_cases h1 : dec32 (l.take 4) = 1
  · rw [if_pos h1] at h
    by_cases h16 : l.length < 16
    · rw [if_pos h16] at h
      exact absurd h (by simp)
    · rw [if_neg h16] at h
      by_cases hx : dec64 ((l.drop 8).take 8) < 16
      · rw [if_pos hx] at h
        exact absurd h (by simp)
      · rw [if_neg hx] at h
        simp only [Except.ok.injEq, Prod.mk.injEq] at h
        obtain ⟨hhdr, hc⟩ := h
        subst hhdr
        subst hc
        refine ⟨rfl, by omega, by omega, fun r => ?_⟩
        have e1 : (l.take 16 ++ r).take 4 = l.take 4 :=
          take_of_take_append (by omega) (by omega)
        have e2 : ((l.take 16 ++ r).drop 4).take 4 = (l.drop 4).take 4 :=
          drop_take_of_take_append (by omega) (by omega)
        have e3 : ((l.take 16 ++ r).drop 8).take 8 = (l.drop 8).take 8 :=
          drop_take_of_take_append (by omega) (by omega)
        have hlen : (l.take 16 ++ r).length = 16 + r.length := by
          simp [List.length_take]
          omega
        rw [decodeHdr, if_neg (by rw [hlen]; omega), e1, if_pos h1,
          if_neg (by rw [hlen]; omega), e3, if_neg hx, e2]
  · rw [if_neg h1] at h
    by_cases h0 : dec32 (l.take 4) = 0
    · rw [if_pos h0] at h
      simp only [Except.ok.injEq, Prod.mk.injEq] at h
      obtain ⟨hhdr, hc⟩ := h
      subst hhdr
      subst hc
      refine ⟨rfl, by omega, by omega, fun r => ?_⟩
      have e1 : (l.take 8 ++ r).take 4 = l.take 4 :=
        take_of_take_append (by omega) (by omega)
      have e2 : ((l.take 8 ++ r).drop 4).take 4 = (l.drop 4).take 4 :=
        drop_take_of_take_append (by omega) (by omega)
      have hlen : (l.take 8 ++ r).length = 8 + r.length := by
        simp [List.length_take]
        omega
      rw [decodeHdr, if_neg (by rw [hlen]; omega), e1, if_neg h1, if_pos h0, e2]
    · rw [if_neg h0] at h
      by_cases hlt : dec32 (l.take 4) < 8
      · rw [if_pos hlt] at h
        exact absurd h (by simp)
      · rw [if_neg hlt] at h
        simp only [Except.ok.injEq, Prod.mk.injEq] at h
        obtain ⟨hhdr, hc⟩ := h
        subst hhdr
        subst hc
        refine ⟨rfl, by omega, by omega, fun r => ?_⟩
        have e1 : (l.take 8 ++ r).take 4 = l.take 4 :=
          take_of_take_append (by omega) (by omega)
        have e2 : ((l.take 8 ++ r).drop 4).take 4 = (l.drop 4).take 4 :=
          drop_take_of_take_append (by omega) (by omega)
        have hlen : (l.take 8 ++ r).length = 8 + r.length := by
          simp [List.length_take]
          omega
        rw [decodeHdr, if_neg (by rw [hlen]; omega), e1, if_neg h1, if_neg h0,
          if_neg hlt, e2]

theorem childBodyLen_ok {hdr : BoxHeader} {rl b : Nat} (h : childBodyLen hdr rl = .ok b) :
    b ≤ rl ∧ (hdr.sz = .untilEof → b = rl) ∧ (∀ n, hdr.sz = .u32 n → b = n - 8) ∧
      (∀ n, hdr.sz = .ext n → b = n - 16) := by
  rw [childBodyLen] at h
  split at h
  next n hsz =>
    split at h
    next hle =>
      simp only [Except.ok.injEq] at h
      subst h
      refine ⟨hle, fun hq => ?_, fun m hm => ?_, fun m hm => ?_⟩
      · rw [hsz] at hq
        cases hq
      · rw [hsz] at hm
        injection hm with e
        omega
      · rw [hsz] at hm
        cases hm
    next hle =>
      exact absurd h (by simp)
  next n hsz =>
    split at h
    next hle =>
      simp only [Except.ok.injEq] at h
      subst h
      refine ⟨hle, fun hq => ?_, fun m hm => ?_, fun m hm => ?_⟩
      · rw [hsz] at hq
        cases hq
      · rw [hsz] at hm
        cases hm
      · rw [hsz] at hm
        injection hm with e
        omega
    next hle =>
      exact absurd h (by simp)
  next hsz =>
    simp only [Except.ok.injEq] at h
    subst h
    refine ⟨le_refl _, fun _ => rfl, fun m hm => ?_, fun m hm => ?_⟩
    · rw [hsz] at hm
      cases hm
    · rw [hsz] at hm
      cases hm

theorem exMapM_ok_forall₂ {α β : Type} {f : α → Except Err β} :
    ∀ {l : List α} {ys : List β}, exMapM f l = .ok ys →
      List.Forall₂ (fun x y => f x = .ok y) l ys := by
  intro l
  induction l with
  | nil =>
    intro ys h
    simp only [exMapM, Except.ok.injEq] at h
    subst h
    exact List.Forall₂.nil
  | cons x xs ih =>
    intro ys h
    simp only [exMapM] at h
    cases hf : f x with
    | error e =>
      rw [hf, exbind_error] at h
      exact absurd h (by simp)
    | ok y =>
      rw [hf, exbind_ok] at h
      cases hm : exMapM f xs with
      | error e =>
        rw [hm, exbind_error] at h
        exact absurd h (by simp)
      | ok zs =>
        rw [hm, exbind_ok] at h
        simp only [Except.ok.injEq] at h
        subst h
        exact List.Forall₂.cons hf (ih hm)

theorem encChildren_nil : encChildren [] = [] := rfl

theorem encChildren_cons (c : Child) (cs : List Child) :
    encChildren (c :: cs) = (c.hdrBytes ++ c.body) ++ encChildren cs := by
  simp [encChildren, encChild]

theorem mem_dropLast_cons {x c : Child} {cs : List Child} (hx : x ∈ cs.dropLast) :
    x ∈ (c :: cs).dropLast := by
  cases cs with
  | nil => simp at hx
  | cons y ys => simpa using Or.inr (by simpa using hx)

theorem parseBoxes_sound : ∀ {fuel : Nat} {l : List Nat} {cs : List Child},
    parseBoxes fuel l = .ok cs → encChildren cs = l ∧ ChildrenWF cs := by
  intro fuel
  induction fuel with
  | zero =>
    intro l cs h
    simp only [parseBoxes] at h
    by_cases hemp : l.isEmpty
    · rw [if_pos hemp] at h
      simp only [Except.ok.injEq] at h
      subst h
      refine ⟨?_, fun c hc => absurd hc (List.not_mem_nil c), fun c hc => by simp at hc⟩
      rw [encChildren_nil, (List.isEmpty_iff.mp hemp).symm]
    · rw [if_neg hemp] at h
      exact absurd h (by simp)
  | succ fuel ih =>
    intro l cs h
    simp only [parseBoxes] at h
    by_cases hemp : l.isEmpty
    · rw [if_pos hemp] at h
      simp only [Except.ok.injEq] at h
      subst h
      refine ⟨?_, fun c hc => absurd hc (List.not_mem_nil c), fun c hc => by simp at hc⟩
      rw [encChildren_nil, (List.isEmpty_iff.mp hemp).symm]
    · rw [if_neg hemp] at h
      cases hd : decodeHdr l with
      | error e =>
        rw [hd, exbind_error] at h
        exact absurd h (by simp)
      | ok v =>
        obtain ⟨hdr, c⟩ := v
        rw [hd, exbind_ok] at h
        cases hb : childBodyLen hdr (l.drop c).length with
        | error e =>
          rw [hb, exbind_error] at h
          exact absurd h (by simp)
        | ok b =>
          rw [hb, exbind_ok] at h
          cases hp : parseBoxes fuel ((l.drop c).drop b) with
          | error e =>
            rw [hp, exbind_error] at h
            exact absurd h (by simp)
          | ok rest =>
            rw [hp, exbind_ok] at h
            simp only [Except.ok.injEq] at h
            subst h
            obtain ⟨henc, hwf, hlast⟩ := ih hp
            obtain ⟨hceq, hcle, _, hstable⟩ := decodeHdr_stable hd
            obtain ⟨hble, hbeof, hbu32, hbext⟩ := childBodyLen_ok hb
            have htlen : (l.take c).length = c := by
              rw [List.length_take]
              exact min_eq_left hcle
            have hbtlen : ((l.drop c).take b).length = b := by
              rw [List.length_take]
              exact min_eq_left hble
            refine ⟨?_, ⟨fun x hx => ?_, fun x hx => ?_⟩⟩
            · rw [encChildren_cons]
              show l.take c ++ (l.drop c).take b ++ encChildren rest = l
              rw [List.append_assoc, henc, List.take_append_drop, List.take_append_drop]
            · rcases List.mem_cons.mp hx with rfl | hxr
              · refine ⟨fun r => ?_, by rw [htlen, hceq], ?_⟩
                · show decodeHdr (l.take c ++ r) = .ok (hdr, (l.take c).length)
                  rw [htlen]
                  exact hstable r
                · show (match hdr.sz with
                    | BoxSz.u32 n => ((l.drop c).take b).length = n - 8
                    | BoxSz.ext n => ((l.drop c).take b).length = n - 16
                    | BoxSz.untilEof => True)
                  cases hsz : hdr.sz with
                  | u32 n => rw [hbtlen]; exact hbu32 n hsz
                  | ext n => rw [hbtlen]; exact hbext n hsz
                  | untilEof => trivial
              · exact hwf x hxr
            · cases rest with
              | nil => simp at hx
              | cons y ys =>
                rcases List.mem_cons.mp (by simpa using hx) with rfl | hxr
                · intro hq
                  have hbrl : b = (l.drop c).length := hbeof hq
                  have hdone : (l.drop c).drop b = [] := by
                    rw [hbrl]
                    exact List.drop_length (l.drop c)
                  rw [hdone, parseBoxes_nil] at hp
                  simp at hp
                · exact hlast x hxr

theorem childWF_encLen_ge {c : Child} (h : ChildWF c) : 8 ≤ c.hdrBytes.length := by
  obtain ⟨_, hlen, _⟩ := h
  rw [hlen]
  cases hsz : c.hdr.sz <;> simp [BoxHeader.encLen, hsz]

theorem parseBoxes_complete : ∀ (cs : List Child), ChildrenWF cs → ∀ fuel, cs.length < fuel →
    parseBoxes fuel (encChildren cs) = .ok cs := by
  intro cs
  induction cs with
  | nil =>
    intro _ fuel _
    rw [encChildren_nil]
    exact parseBoxes_nil fuel
  | cons c cs ih =>
    intro hwf fuel hf
    obtain ⟨fuel, rfl⟩ : ∃ k, fuel = k + 1 := ⟨fuel - 1, by omega⟩
    obtain ⟨hall, hlast⟩ := hwf
    obtain ⟨hdec, hlen, hbody⟩ := hall c (by simp)
    have h8 : 8 ≤ c.hdrBytes.length := childWF_encLen_ge (hall c (by simp))
    have hne : ¬((c.hdrBytes ++ c.body) ++ encChildren cs).isEmpty = true := by
      intro hq
      have h0 := List.isEmpty_iff.mp hq
      have h1 := congrArg List.length h0
      simp only [List.length_append, List.length_nil] at h1
      omega
    rw [encChildren_cons]
    unfold parseBoxes
    rw [if_neg hne, List.append_assoc, hdec (c.body ++ encChildren cs)]
    simp only [exbind_ok]
    rw [drop_of_len_append rfl, take_of_len_append rfl]
    cases hsz : c.hdr.sz with
    | u32 n =>
      have hbl : c.body.length = n - 8 := by
        have := hbody
        rw [hsz] at this
        exact this
      have hcb : childBodyLen c.hdr (c.body ++ encChildren cs).length = .ok (n - 8) := by
        simp only [childBodyLen, hsz]
        rw [if_pos (by simp [List.length_append]; omega)]
      rw [hcb]
      simp only [exbind_ok]
      rw [← hbl, take_of_len_append rfl, drop_of_len_append rfl]
      have hcs : parseBoxes fuel (encChildren cs) = .ok cs := by
        refine ih ⟨fun x hx => hall x (by simp [hx]), fun x hx => hlast x (mem_dropLast_cons hx)⟩ fuel ?_
        simp only [List.length_cons] at hf
        omega
      rw [hcs]
      simp only [exbind_ok]
    | ext n =>
      have hbl : c.body.length = n - 16 := by
        have := hbody
        rw [hsz] at this
        exact this
      have hcb : childBodyLen c.hdr (c.body ++ encChildren cs).length = .ok (n - 16) := by
        simp only [childBodyLen, hsz]
        rw [if_pos (by simp [List.length_append]; omega)]
      rw [hcb]
      simp only [exbind_ok]
      rw [← hbl, take_of_len_append rfl, drop_of_len_append rfl]
      have hcs : parseBoxes fuel (encChildren cs) = .ok cs := by
        refine ih ⟨fun x hx => hall x (by simp [hx]), fun x hx => hlast x (mem_dropLast_cons hx)⟩ fuel ?_
        simp only [List.length_cons] at hf
        omega
      rw [hcs]
      simp only [exbind_ok]
    | untilEof =>
      have hcs0 : cs = [] := by
        by_contra hne2
        have hmem : c ∈ (c :: cs).dropLast := by
          cases cs with
          | nil => exact absurd rfl hne2
          | cons y ys => simp
        exact absurd hsz (hlast c hmem)
      subst hcs0
      rw [encChildren_nil, List.append_nil]
      have hcb : childBodyLen c.hdr c.body.length = .ok c.body.length := by
        simp [childBodyLen, hsz]
      rw [hcb]
      simp only [exbind_ok]
      rw [List.take_length, List.drop_length, parseBoxes_nil]
      simp only [exbind_ok]

--
-- shape and length preservation of the chunk-offset rewriter
--

theorem flatten_length_const {w : Nat} : ∀ {ys : List (List Nat)},
    (∀ y ∈ ys, y.length = w) → ys.flatten.length = w * ys.length := by
  intro ys
  induction ys with
  | nil => intro _; rfl
  | cons y t ih =>
    intro h
    simp only [List.flatten_cons, List.length_append, List.length_cons]
    rw [h y (by simp), ih fun x hx => h x (by simp [hx])]
    ring

theorem forall₂_mem_right {α β : Type} {R : α → β → Prop} :
    ∀ {l : List α} {l' : List β}, List.Forall₂ R l l' → ∀ y ∈ l', ∃ x ∈ l, R x y := by
  intro l l' h
  induction h with
  | nil => intro y hy; exact absurd hy (List.not_mem_nil y)
  | cons hr ht ih =>
    intro y hy
    rcases List.mem_cons.mp hy with rfl | hy2
    · exact ⟨_, by simp, hr⟩
    · obtain ⟨x, hx, hxr⟩ := ih y hy2
      exact ⟨x, by simp [hx], hxr⟩

theorem forall₂_mem_left {α β : Type} {R : α → β → Prop} :
    ∀ {l : List α} {l' : List β}, List.Forall₂ R l l' → ∀ x ∈ l, ∃ y ∈ l', R x y := by
  intro l l' h
  induction h with
  | nil => intro x hx; exact absurd hx (List.not_mem_nil x)
  | cons hr ht ih =>
    intro x hx
    rcases List.mem_cons.mp hx with rfl | hx2
    · exact ⟨_, by simp, hr⟩
    · obtain ⟨y, hy, hyr⟩ := ih x hx2
      exact ⟨y, by simp [hy], hyr⟩

theorem forall₂_dropLast {α β : Type} {R : α → β → Prop} {l : List α} {l' : List β}
    (h : List.Forall₂ R l l') : List.Forall₂ R l.dropLast l'.dropLast := by
  rw [List.dropLast_eq_take, List.dropLast_eq_take, h.length_eq]
  exact List.forall₂_take _ h

theorem sameShape_refl (cs : List Child) : List.Forall₂ SameShape cs cs :=
  List.forall₂_same.mpr fun _ _ => ⟨rfl, rfl, rfl⟩

theorem childWF_of_shape {a b : Child} (hs : SameShape a b) (h : ChildWF a) : ChildWF b := by
  obtain ⟨h1, h2, h3⟩ := hs
  obtain ⟨w1, w2, w3⟩ := h
  refine ⟨fun r => ?_, ?_, ?_⟩
  · rw [← h1, ← h2]
    exact w1 r
  · rw [← h1, ← h2]
    exact w2
  · rw [← h1, ← h3]
    exact w3

theorem childrenWF_of_shape {cs cs' : List Child} (h : List.Forall₂ SameShape cs cs')
    (hwf : ChildrenWF cs) : ChildrenWF cs' := by
  obtain ⟨hall, hlast⟩ := hwf
  constructor
  · intro c' hc'
    obtain ⟨c, hc, hs⟩ := forall₂_mem_right h c' hc'
    exact childWF_of_shape hs (hall c hc)
  · intro c' hc'
    obtain ⟨c, hc, hs⟩ := forall₂_mem_right (forall₂_dropLast h) c' hc'
    rw [← hs.1]
    exact hlast c hc

theorem encChildren_length_of_shape {cs cs' : List Child}
    (h : List.Forall₂ SameShape cs cs') :
    (encChildren cs').length = (encChildren cs).length := by
  induction h with
  | nil => rfl
  | cons hr ht ih =>
    rw [encChildren_cons, encChildren_cons]
    simp only [List.length_append]
    rw [ih, hr.2.1, hr.2.2]

theorem countP_typ_of_shape (p : Nat) {cs cs' : List Child}
    (h : List.Forall₂ SameShape cs cs') :
    (cs'.countP fun c => c.hdr.typ = p) = (cs.countP fun c => c.hdr.typ = p) := by
  induction h with
  | nil => rfl
  | cons hr ht ih =>
    rw [List.countP_cons, List.countP_cons, ih, hr.1]

theorem any_typ_of_shape (p : Nat) {cs cs' : List Child}
    (h : List.Forall₂ SameShape cs cs') :
    (cs'.any fun c => c.hdr.typ = p) = (cs.any fun c => c.hdr.typ = p) := by
  induction h with
  | nil => rfl
  | cons hr ht ih =>
    rw [List.any_cons, List.any_cons, ih, hr.1]

theorem replaceFirst_shape {typ : Nat} {f : List Nat → Except Err (List Nat)}
    (hf : ∀ x y, f x = .ok y → y.length = x.length) :
    ∀ {cs cs' : List Child}, replaceFirst typ f cs = .ok cs' →
      List.Forall₂ SameShape cs cs' := by
  intro cs
  induction cs with
  | nil => intro cs' h; exact absurd h (by simp [replaceFirst])
  | cons c rest ih =>
    intro cs' h
    simp only [replaceFirst] at h
    by_cases ht : c.hdr.typ = typ
    · rw [if_pos ht] at h
      cases hfc : f c.body with
      | error e =>
        rw [hfc, exbind_error] at h
        exact absurd h (by simp)
      | ok b' =>
        rw [hfc, exbind_ok] at h
        simp only [Except.ok.injEq] at h
        subst h
        exact List.Forall₂.cons ⟨rfl, rfl, (hf _ _ hfc).symm⟩ (sameShape_refl rest)
    · rw [if_neg ht] at h
      cases hr : replaceFirst typ f rest with
      | error e =>
        rw [hr, exbind_error] at h
        exact absurd h (by simp)
      | ok rest' =>
        rw [hr, exbind_ok] at h
        simp only [Except.ok.injEq] at h
        subst h
        exact List.Forall₂.cons ⟨rfl, rfl, rfl⟩ (ih hr)

theorem rewriteStcoBody_ok {d : Int} {body b' : List Nat}
    (h : rewriteStcoBody d body = .ok b') :
    8 ≤ body.length ∧
      4 * dec32 ((body.drop 4).take 4) ≤ ((body.drop 4).drop 4).length ∧
      ∃ es',
        exMapM (fun eb =>
            match checkedAddSigned (dec32 eb) d 4294967296 with
            | some v => Except.ok (enc32 v)
            | none => Except.error (Err.parse ParseErr.invalidInput ErrMsg.chunkOffsetNotInMdat))
          (chunks4 (((body.drop 4).drop 4).take (4 * dec32 ((body.drop 4).take 4)))) =
            .ok es' ∧
        b' = body.take 4 ++ (body.drop 4).take 4 ++ es'.flatten ++
          ((body.drop 4).drop 4).drop (4 * dec32 ((body.drop 4).take 4)) := by
  simp only [rewriteStcoBody] at h
  split at h
  next h1 => exact absurd h (by simp)
  next h1 =>
    split at h
    next h2 => exact absurd h (by simp)
    next h2 =>
      split at h
      next h3 => exact absurd h (by simp)
      next h3 =>
        split at h
        next h4 => exact absurd h (by simp)
        next h4 =>
          cases hm : exMapM (fun eb =>
              match checkedAddSigned (dec32 eb) d 4294967296 with
              | some v => Except.ok (enc32 v)
              | none => Except.error (Err.parse ParseErr.invalidInput ErrMsg.chunkOffsetNotInMdat))
            (chunks4 (((body.drop 4).drop 4).take (4 * dec32 ((body.drop 4).take 4)))) with
          | error e =>
            rw [hm, exbind_error] at h
            exact absurd h (by simp)
          | ok es' =>
            rw [hm, exbind_ok] at h
            simp only [Except.ok.injEq] at h
            refine ⟨?_, by omega, es', rfl, h.symm⟩
            have hd4 : (body.drop 4).length = body.length - 4 := List.length_drop 4 body
            omega

theorem rewriteCo64Body_ok {d : Int} {body b' : List Nat}
    (h : rewriteCo64Body d body = .ok b') :
    8 ≤ body.length ∧
      8 * dec32 ((body.drop 4).take 4) ≤ ((body.drop 4).drop 4).length ∧
      ∃ es',
        exMapM (fun eb =>
            match checkedAddSigned (dec64 eb) d 18446744073709551616 with
            | some v => Except.ok (enc64 v)
            | none => Except.error (Err.parse ParseErr.invalidInput ErrMsg.chunkOffsetNotInMdat))
          (chunks8 (((body.drop 4).drop 4).take (8 * dec32 ((body.drop 4).take 4)))) =
            .ok es' ∧
        b' = body.take 4 ++ (body.drop 4).take 4 ++ es'.flatten ++
          ((body.drop 4).drop 4).drop (8 * dec32 ((body.drop 4).take 4)) := by
  simp only [rewriteCo64Body] at h
  split at h
  next h1 => exact absurd h (by simp)
  next h1 =>
    split at h
    next h2 => exact absurd h (by simp)
    next h2 =>
      split at h
      next h3 => exact absurd h (by simp)
      next h3 =>
        split at h
        next h4 => exact absurd h (by simp)
        next h4 =>
          cases hm : exMapM (fun eb =>
              match checkedAddSigned (dec64 eb) d 18446744073709551616 with
              | some v => Except.ok (enc64 v)
              | none => Except.error (Err.parse ParseErr.invalidInput ErrMsg.chunkOffsetNotInMdat))
            (chunks8 (((body.drop 4).drop 4).take (8 * dec32 ((body.drop 4).take 4)))) with
          | error e =>
            rw [hm, exbind_error] at h
            exact absurd h (by simp)
          | ok es' =>
            rw [hm, exbind_ok] at h
            simp only [Except.ok.injEq] at h
            refine ⟨?_, by omega, es', rfl, h.symm⟩
            have hd4 : (body.drop 4).length = body.length - 4 := List.length_drop 4 body
            omega

theorem rewriteStcoBody_len {d : Int} {body b' : List Nat}
    (h : rewriteStcoBody d body = .ok b') : b'.length = body.length := by
  obtain ⟨h8, hcnt, es', hmap, rfl⟩ := rewriteStcoBody_ok h
  have hlens : ∀ y ∈ es', y.length = 4 := by
    intro y hy
    obtain ⟨x, hx, hr⟩ := forall₂_mem_right (exMapM_ok_forall₂ hmap) y hy
    cases hca : checkedAddSigned (dec32 x) d 4294967296 with
    | some v =>
      rw [hca] at hr
      simp only [Except.ok.injEq] at hr
      rw [← hr]
      rfl
    | none =>
      rw [hca] at hr
      exact absurd hr (by simp)
  have hflat : es'.flatten.length = 4 * es'.length := flatten_length_const hlens
  have hXlen : ((((body.drop 4).drop 4)).take
      (4 * dec32 ((body.drop 4).take 4))).length = 4 * dec32 ((body.drop 4).take 4) := by
    rw [List.length_take]
    exact min_eq_left hcnt
  have hes : es'.length = dec32 ((body.drop 4).take 4) := by
    have h1 := (exMapM_ok_forall₂ hmap).length_eq
    simp only [chunks4] at h1
    rw [chunksExact_length, hXlen] at h1
    omega
  have hdd : ((body.drop 4).drop 4).length = body.length - 8 := by
    rw [List.length_drop, List.length_drop]
    omega
  rw [hdd] at hcnt
  simp only [List.length_append, hflat, hes, List.length_take, List.length_drop, hdd]
  omega

theorem rewriteCo64Body_len {d : Int} {body b' : List Nat}
    (h : rewriteCo64Body d body = .ok b') : b'.length = body.length := by
  obtain ⟨h8, hcnt, es', hmap, rfl⟩ := rewriteCo64Body_ok h
  have hlens : ∀ y ∈ es', y.length = 8 := by
    intro y hy
    obtain ⟨x, hx, hr⟩ := forall₂_mem_right (exMapM_ok_forall₂ hmap) y hy
    cases hca : checkedAddSigned (dec64 x) d 18446744073709551616 with
    | some v =>
      rw [hca] at hr
      simp only [Except.ok.injEq] at hr
      rw [← hr]
      rfl
    | none =>
      rw [hca] at hr
      exact absurd hr (by simp)
  have hflat : es'.flatten.length = 8 * es'.length := flatten_length_const hlens
  have hXlen : ((((body.drop 4).drop 4)).take
      (8 * dec32 ((body.drop 4).take 4))).length = 8 * dec32 ((body.drop 4).take 4) := by
    rw [List.length_take]
    exact min_eq_left hcnt
  have hes : es'.length = dec32 ((body.drop 4).take 4) := by
    have h1 := (exMapM_ok_forall₂ hmap).length_eq
    simp only [chunks8] at h1
    rw [chunksExact_length, hXlen] at h1
    omega
  have hdd : ((body.drop 4).drop 4).length = body.length - 8 := by
    rw [List.length_drop, List.length_drop]
    omega
  rw [hdd] at hcnt
  simp only [List.length_append, hflat, hes, List.length_take, List.length_drop, hdd]
  omega

theorem rewriteCo_shape {d : Int} {cs cs' : List Child} (h : rewriteCo d cs = .ok cs') :
    List.Forall₂ SameShape cs cs' := by
  simp only [rewriteCo] at h
  split at h
  next h1 =>
    split at h
    next h2 => exact replaceFirst_shape (fun x y hxy => rewriteStcoBody_len hxy) h
    next h2 => exact replaceFirst_shape (fun x y hxy => rewriteCo64Body_len hxy) h
  next h1 => exact absurd h (by simp)

theorem rewriteStbl_len {d : Int} {body b' : List Nat} (h : rewriteStbl d body = .ok b') :
    b'.length = body.length := by
  simp only [rewriteStbl] at h
  cases hp : parseBoxes (body.length + 1) body with
  | error e =>
    rw [hp, exbind_error] at h
    exact absurd h (by simp)
  | ok cs =>
    rw [hp, exbind_ok] at h
    cases hc : rewriteCo d cs with
    | error e =>
      rw [hc, exbind_error] at h
      exact absurd h (by simp)
    | ok cs' =>
      rw [hc, exbind_ok] at h
      simp only [Except.ok.injEq] at h
      subst h
      rw [encChildren_length_of_shape (rewriteCo_shape hc), (parseBoxes_sound hp).1]

theorem descendRewrite_len {typ : Nat} {g : List Nat → Except Err (List Nat)}
    (hg : ∀ x y, g x = .ok y → y.length = x.length) {body b' : List Nat}
    (h : (do
        let cs ← parseBoxes (body.length + 1) body
        let cs' ← replaceFirst typ g cs
        Except.ok (encChildren cs')) = .ok b') :
    b'.length = body.length := by
  cases hp : parseBoxes (body.length + 1) body with
  | error e =>
    rw [hp, exbind_error] at h
    exact absurd h (by simp)
  | ok cs =>
    rw [hp, exbind_ok] at h
    cases hr : replaceFirst typ g cs with
    | error e =>
      rw [hr, exbind_error] at h
      exact absurd h (by simp)
    | ok cs' =>
      rw [hr, exbind_ok] at h
      simp only [Except.ok.injEq] at h
      subst h
      rw [encChildren_length_of_shape (replaceFirst_shape hg hr), (parseBoxes_sound hp).1]

theorem rewriteMinf_len {d : Int} {body b' : List Nat} (h : rewriteMinf d body = .ok b') :
    b'.length = body.length :=
  descendRewrite_len (fun x y hxy => rewriteStbl_len hxy) h

theorem rewriteMdia_len {d : Int} {body b' : List Nat} (h : rewriteMdia d body = .ok b') :
    b'.length = body.length :=
  descendRewrite_len (fun x y hxy => rewriteMinf_len hxy) h

theorem rewriteTrak_len {d : Int} {body b' : List Nat} (h : rewriteTrak d body = .ok b') :
    b'.length = body.length :=
  descendRewrite_len (fun x y hxy => rewriteMdia_len hxy) h

theorem rewriteMoov_shape {d : Int} {cs cs' : List Child} (h : rewriteMoov d cs = .ok cs') :
    List.Forall₂ SameShape cs cs' := by
  have hF := exMapM_ok_forall₂ h
  refine hF.imp ?_
  intro a b hab
  by_cases ht : a.hdr.typ = TRAK
  · rw [if_pos ht] at hab
    cases hrt : rewriteTrak d a.body with
    | error e =>
      rw [hrt, exbind_error] at hab
      exact absurd hab (by simp)
    | ok b2 =>
      rw [hrt, exbind_ok] at hab
      simp only [Except.ok.injEq] at hab
      subst hab
      exact ⟨rfl, rfl, (rewriteTrak_len hrt).symm⟩
  · rw [if_neg ht] at hab
    simp only [Except.ok.injEq] at hab
    subst hab
    exact ⟨rfl, rfl, rfl⟩

theorem parseMoov_sound {B : List Nat} {cs : List Child} (h : parseMoov B = .ok cs) :
    encChildren cs = B ∧ ChildrenWF cs ∧ (cs.any fun c => c.hdr.typ = TRAK) = true := by
  simp only [parseMoov] at h
  cases hp : parseBoxes (B.length + 1) B with
  | error e =>
    rw [hp, exbind_error] at h
    exact absurd h (by simp)
  | ok cs0 =>
    rw [hp, exbind_ok] at h
    by_cases ha : (cs0.any fun c => c.hdr.typ = TRAK) = true
    · rw [if_pos ha] at h
      simp only [Except.ok.injEq] at h
      subst h
      exact ⟨(parseBoxes_sound hp).1, (parseBoxes_sound hp).2, ha⟩
    · rw [if_neg ha] at h
      exact absurd h (by simp)

theorem length_le_encChildren : ∀ {cs : List Child}, ChildrenWF cs →
    cs.length ≤ (encChildren cs).length := by
  intro cs
  induction cs with
  | nil => intro _; simp [encChildren_nil]
  | cons c rest ih =>
    intro hwf
    obtain ⟨hall, hlast⟩ := hwf
    have h8 := childWF_encLen_ge (hall c (by simp))
    have ihr := ih ⟨fun x hx => hall x (by simp [hx]), fun x hx => hlast x (mem_dropLast_cons hx)⟩
    rw [encChildren_cons]
    simp only [List.length_cons, List.length_append]
    omega

theorem parseMoov_complete {cs : List Child} (hwf : ChildrenWF cs)
    (ht : (cs.any fun c => c.hdr.typ = TRAK) = true) :
    parseMoov (encChildren cs) = .ok cs := by
  simp only [parseMoov]
  rw [parseBoxes_complete cs hwf _ (by have := length_le_encChildren hwf; omega), exbind_ok,
    if_pos ht]

--
-- chunk-offset entry mapping under the rewriter
--

theorem chunksExact_flatten {w : Nat} (hw : 0 < w) : ∀ {ys : List (List Nat)},
    (∀ y ∈ ys, y.length = w) → chunksExact w ys.flatten = ys := by
  intro ys
  induction ys with
  | nil =>
    intro _
    simp [chunksExact]
  | cons y t ih =>
    intro h
    have hy : y.length = w := h y (by simp)
    have hlen : (y ++ t.flatten).length = w + t.flatten.length := by simp [hy]
    have hdiv : (y ++ t.flatten).length / w = t.flatten.length / w + 1 := by
      rw [hlen, Nat.add_comm, Nat.add_div_right _ hw]
    simp only [List.flatten_cons]
    show (List.range ((y ++ t.flatten).length / w)).map
        (fun i => (((y ++ t.flatten).drop (w * i)).take w)) = y :: t
    rw [hdiv, List.range_succ_eq_map, List.map_cons, List.map_map]
    refine congrArg₂ List.cons ?_ ?_
    · show ((y ++ t.flatten).drop (w * 0)).take w = y
      rw [Nat.mul_zero, List.drop_zero, ← hy, take_of_len_append rfl]
    · have hstep : ∀ i, ((y ++ t.flatten).drop (w * (i + 1))).take w =
          ((t.flatten).drop (w * i)).take w := by
        intro i
        have hmul : w * (i + 1) = y.length + w * i := by rw [hy]; ring
        rw [hmul, ← List.drop_drop, drop_of_len_append rfl]
      have h2 : List.map ((fun i => ((y ++ t.flatten).drop (w * i)).take w) ∘ Nat.succ)
          (List.range (t.flatten.length / w)) =
          List.map (fun i => ((t.flatten).drop (w * i)).take w)
            (List.range (t.flatten.length / w)) :=
        List.map_congr_left fun i _ => hstep i
      rw [h2]
      exact ih fun x hx => h x (by simp [hx])

theorem map_eq_of_forall₂ {α β γ : Type} {R : α → β → Prop} {g : β → γ} {h2 : α → γ} :
    ∀ {l : List α} {ys : List β}, List.Forall₂ R l ys → (∀ x y, R x y → g y = h2 x) →
      ys.map g = l.map h2 := by
  intro l ys h
  induction h with
  | nil => intro _; rfl
  | cons hr ht ih =>
    intro hgh
    rw [List.map_cons, List.map_cons, hgh _ _ hr, ih hgh]

theorem stcoEntryMap {d : Int} {x y : List Nat}
    (h : (match checkedAddSigned (dec32 x) d 4294967296 with
          | some v => Except.ok (enc32 v)
          | none => Except.error
              (Err.parse ParseErr.invalidInput ErrMsg.chunkOffsetNotInMdat)) =
        (.ok y : Except Err (List Nat))) :
    dec32 y = ((dec32 x : Int) + d).toNat ∧ 0 ≤ (dec32 x : Int) + d ∧
      (dec32 x : Int) + d < 4294967296 := by
  cases hca : checkedAddSigned (dec32 x) d 4294967296 with
  | none =>
    rw [hca] at h
    exact absurd h (by simp)
  | some v =>
    rw [hca] at h
    simp only [Except.ok.injEq] at h
    subst h
    rw [checkedAddSigned] at hca
    split at hca
    next hcond =>
      simp only [Option.some.injEq] at hca
      subst hca
      refine ⟨dec32_enc32 (by omega), hcond.1, hcond.2⟩
    next hcond => exact absurd hca (by simp)

theorem co64EntryMap {d : Int} {x y : List Nat}
    (h : (match checkedAddSigned (dec64 x) d 18446744073709551616 with
          | some v => Except.ok (enc64 v)
          | none => Except.error
              (Err.parse ParseErr.invalidInput ErrMsg.chunkOffsetNotInMdat)) =
        (.ok y : Except Err (List Nat))) :
    dec64 y = ((dec64 x : Int) + d).toNat ∧ 0 ≤ (dec64 x : Int) + d ∧
      (dec64 x : Int) + d < 18446744073709551616 := by
  cases hca : checkedAddSigned (dec64 x) d 18446744073709551616 with
  | none =>
    rw [hca] at h
    exact absurd h (by simp)
  | some v =>
    rw [hca] at h
    simp only [Except.ok.injEq] at h
    subst h
    rw [checkedAddSigned] at hca
    split at hca
    next hcond =>
      simp only [Option.some.injEq] at hca
      subst hca
      refine ⟨dec64_enc64 (by omega), hcond.1, hcond.2⟩
    next hcond => exact absurd hca (by simp)

theorem rewriteStcoBody_map {d : Int} {body b2 : List Nat}
    (h : rewriteStcoBody d body = .ok b2) :
    (chunks4 ((b2.drop 8).take (4 * dec32 ((b2.drop 4).take 4)))).map dec32 =
      ((chunks4 ((body.drop 8).take (4 * dec32 ((body.drop 4).take 4)))).map dec32).map
        (shiftEntry d) ∧
      ∀ e ∈ (chunks4 ((body.drop 8).take (4 * dec32 ((body.drop 4).take 4)))).map dec32,
        0 ≤ (e : Int) + d ∧ (e : Int) + d < 4294967296 := by
  obtain ⟨h8, hcnt, es', hmap, hb⟩ := rewriteStcoBody_ok h
  have hF := exMapM_ok_forall₂ hmap
  have hlens : ∀ y ∈ es', y.length = 4 := by
    intro y hy
    obtain ⟨x, hx, hr⟩ := forall₂_mem_right hF y hy
    cases hca : checkedAddSigned (dec32 x) d 4294967296 with
    | some v =>
      rw [hca] at hr
      simp only [Except.ok.injEq] at hr
      rw [← hr]
      rfl
    | none =>
      rw [hca] at hr
      exact absurd hr (by simp)
  have hd88 : body.drop 8 = (body.drop 4).drop 4 := by
    rw [List.drop_drop]
  have hflat : es'.flatten.length = 4 * dec32 ((body.drop 4).take 4) := by
    rw [flatten_length_const hlens, hF.length_eq.symm]
    simp only [chunks4]
    rw [chunksExact_length, List.length_take, min_eq_left hcnt]
    omega
  have ht4 : (body.take 4).length = 4 := by
    rw [List.length_take]
    exact min_eq_left (by omega)
  have hc4 : ((body.drop 4).take 4).length = 4 := by
    rw [List.length_take]
    have hd : (body.drop 4).length = body.length - 4 := List.length_drop 4 body
    omega
  have hb2 : b2 = body.take 4 ++ (((body.drop 4).take 4) ++ (es'.flatten ++
      ((body.drop 4).drop 4).drop (4 * dec32 ((body.drop 4).take 4)))) := by
    rw [hb]
    simp [List.append_assoc]
  have hd4 : b2.drop 4 = ((body.drop 4).take 4) ++ (es'.flatten ++
      ((body.drop 4).drop 4).drop (4 * dec32 ((body.drop 4).take 4))) := by
    rw [hb2, drop_of_len_append ht4]
  have hcntB : (b2.drop 4).take 4 = (body.drop 4).take 4 := by
    rw [hd4, take_of_len_append hc4]
  have hd8 : b2.drop 8 = es'.flatten ++
      ((body.drop 4).drop 4).drop (4 * dec32 ((body.drop 4).take 4)) := by
    have h448 : (4 : Nat) + 4 = 8 := rfl
    rw [← h448, ← List.drop_drop, hd4, drop_of_len_append hc4]
  have hents : (b2.drop 8).take (4 * dec32 ((b2.drop 4).take 4)) = es'.flatten := by
    rw [hd8, hcntB, take_of_len_append hflat]
  have hchunks : chunks4 ((b2.drop 8).take (4 * dec32 ((b2.drop 4).take 4))) = es' := by
    rw [hents]
    show chunksExact 4 es'.flatten = es'
    exact chunksExact_flatten (by omega) hlens
  constructor
  · rw [hchunks, hd88, List.map_map]
    exact map_eq_of_forall₂ hF fun x y hxy => (stcoEntryMap hxy).1
  · intro e he
    rw [hd88] at he
    simp only [List.mem_map] at he
    obtain ⟨x, hx, rfl⟩ := he
    obtain ⟨y, hy, hr⟩ := forall₂_mem_left hF x hx
    exact ⟨(stcoEntryMap hr).2.1, (stcoEntryMap hr).2.2⟩

theorem rewriteCo64Body_map {d : Int} {body b2 : List Nat}
    (h : rewriteCo64Body d body = .ok b2) :
    (chunks8 ((b2.drop 8).take (8 * dec32 ((b2.drop 4).take 4)))).map dec64 =
      ((chunks8 ((body.drop 8).take (8 * dec32 ((body.drop 4).take 4)))).map dec64).map
        (shiftEntry d) ∧
      ∀ e ∈ (chunks8 ((body.drop 8).take (8 * dec32 ((body.drop 4).take 4)))).map dec64,
        0 ≤ (e : Int) + d ∧ (e : Int) + d < 18446744073709551616 := by
  obtain ⟨h8, hcnt, es', hmap, hb⟩ := rewriteCo64Body_ok h
  have hF := exMapM_ok_forall₂ hmap
  have hlens : ∀ y ∈ es', y.length = 8 := by
    intro y hy
    obtain ⟨x, hx, hr⟩ := forall₂_mem_right hF y hy
    cases hca : checkedAddSigned (dec64 x) d 18446744073709551616 with
    | some v =>
      rw [hca] at hr
      simp only [Except.ok.injEq] at hr
      rw [← hr]
      rfl
    | none =>
      rw [hca] at hr
      exact absurd hr (by simp)
  have hd88 : body.drop 8 = (body.drop 4).drop 4 := by
    rw [List.drop_drop]
  have hflat : es'.flatten.length = 8 * dec32 ((body.drop 4).take 4) := by
    rw [flatten_length_const hlens, hF.length_eq.symm]
    simp only [chunks8]
    rw [chunksExact_length, List.length_take, min_eq_left hcnt]
    omega
  have ht4 : (body.take 4).length = 4 := by
    rw [List.length_take]
    exact min_eq_left (by omega)
  have hc4 : ((body.drop 4).take 4).length = 4 := by
    rw [List.length_take]
    have hd : (body.drop 4).length = body.length - 4 := List.length_drop 4 body
    omega
  have hb2 : b2 = body.take 4 ++ (((body.drop 4).take 4) ++ (es'.flatten ++
      ((body.drop 4).drop 4).drop (8 * dec32 ((body.drop 4).take 4)))) := by
    rw [hb]
    simp [List.append_assoc]
  have hd4 : b2.drop 4 = ((body.drop 4).take 4) ++ (es'.flatten ++
      ((body.drop 4).drop 4).drop (8 * dec32 ((body.drop 4).take 4))) := by
    rw [hb2, drop_of_len_append ht4]
  have hcntB : (b2.drop 4).take 4 = (body.drop 4).take 4 := by
    rw [hd4, take_of_len_append hc4]
  have hd8 : b2.drop 8 = es'.flatten ++
      ((body.drop 4).drop 4).drop (8 * dec32 ((body.drop 4).take 4)) := by
    have h448 : (4 : Nat) + 4 = 8 := rfl
    rw [← h448, ← List.drop_drop, hd4, drop_of_len_append hc4]
  have hents : (b2.drop 8).take (8 * dec32 ((b2.drop 4).take 4)) = es'.flatten := by
    rw [hd8, hcntB, take_of_len_append hflat]
  have hchunks : chunks8 ((b2.drop 8).take (8 * dec32 ((b2.drop 4).take 4))) = es' := by
    rw [hents]
    show chunksExact 8 es'.flatten = es'
    exact chunksExact_flatten (by omega) hlens
  constructor
  · rw [hchunks, hd88, List.map_map]
    exact map_eq_of_forall₂ hF fun x y hxy => (co64EntryMap hxy).1
  · intro e he
    rw [hd88] at he
    simp only [List.mem_map] at he
    obtain ⟨x, hx, rfl⟩ := he
    obtain ⟨y, hy, hr⟩ := forall₂_mem_left hF x hx
    exact ⟨(co64EntryMap hr).2.1, (co64EntryMap hr).2.2⟩

--
-- collector-level offset mapping
--

theorem replaceFirst_find {typ : Nat} {f : List Nat → Except Err (List Nat)} :
    ∀ {cs cs' : List Child}, replaceFirst typ f cs = .ok cs' →
      ∃ c b2, (cs.find? fun x => x.hdr.typ = typ) = some c ∧ f c.body = .ok b2 ∧
        (cs'.find? fun x => x.hdr.typ = typ) = some { c with body := b2 } := by
  intro cs
  induction cs with
  | nil => intro cs' h; exact absurd h (by simp [replaceFirst])
  | cons c rest ih =>
    intro cs' h
    simp only [replaceFirst] at h
    by_cases ht : c.hdr.typ = typ
    · rw [if_pos ht] at h
      cases hfc : f c.body with
      | error e =>
        rw [hfc, exbind_error] at h
        exact absurd h (by simp)
      | ok b2 =>
        rw [hfc, exbind_ok] at h
        simp only [Except.ok.injEq] at h
        subst h
        refine ⟨c, b2, ?_, hfc, ?_⟩
        · rw [List.find?_cons_of_pos _ (by simp [ht])]
        · rw [List.find?_cons_of_pos _ (by simp [ht])]
    · rw [if_neg ht] at h
      cases hr : replaceFirst typ f rest with
      | error e =>
        rw [hr, exbind_error] at h
        exact absurd h (by simp)
      | ok rest' =>
        rw [hr, exbind_ok] at h
        simp only [Except.ok.injEq] at h
        subst h
        obtain ⟨c2, b2, hf1, hf2, hf3⟩ := ih hr
        refine ⟨c2, b2, ?_, hf2, ?_⟩
        · rw [List.find?_cons_of_neg _ (by simp [ht]), hf1]
        · rw [List.find?_cons_of_neg _ (by simp [ht]), hf3]

theorem stblOffsets_rewrite {d : Int} {body b' : List Nat}
    (h : rewriteStbl d body = .ok b') :
    stblOffsets b' = (stblOffsets body).map (shiftEntry d) ∧
      ∀ e ∈ stblOffsets body, 0 ≤ (e : Int) + d := by
  simp only [rewriteStbl] at h
  cases hp : parseBoxes (body.length + 1) body with
  | error e =>
    rw [hp, exbind_error] at h
    exact absurd h (by simp)
  | ok cs =>
    rw [hp, exbind_ok] at h
    cases hc : rewriteCo d cs with
    | error e =>
      rw [hc, exbind_error] at h
      exact absurd h (by simp)
    | ok cs' =>
      rw [hc, exbind_ok] at h
      simp only [Except.ok.injEq] at h
      subst h
      obtain ⟨henc, hwf⟩ := parseBoxes_sound hp
      have hshape := rewriteCo_shape hc
      have hwf' := childrenWF_of_shape hshape hwf
      have hp' : parseBoxes ((encChildren cs').length + 1) (encChildren cs') = .ok cs' :=
        parseBoxes_complete cs' hwf' _ (by have := length_le_encChildren hwf'; omega)
      simp only [stblOffsets, hp, hp']
      rw [countP_typ_of_shape STCO hshape, countP_typ_of_shape CO64 hshape,
        any_typ_of_shape STCO hshape]
      simp only [rewriteCo] at hc
      split at hc
      next hcond =>
        rw [if_pos hcond, if_pos hcond]
        split at hc
        next hany =>
          rw [if_pos hany, if_pos hany]
          obtain ⟨c, b2, hf1, hfb, hf3⟩ := replaceFirst_find hc
          simp only [hf1, hf3]
          have hm := rewriteStcoBody_map hfb
          exact ⟨hm.1, fun e he => (hm.2 e he).1⟩
        next hany =>
          rw [if_neg hany, if_neg hany]
          obtain ⟨c, b2, hf1, hfb, hf3⟩ := replaceFirst_find hc
          simp only [hf1, hf3]
          have hm := rewriteCo64Body_map hfb
          exact ⟨hm.1, fun e he => (hm.2 e he).1⟩
      next hcond => exact absurd hc (by simp)

theorem descendRewrite_offsets {typ : Nat} {g : List Nat → Except Err (List Nat)}
    {k : List Nat → List Nat} {d : Int} {P : Nat → Prop}
    (hg : ∀ x y, g x = .ok y → k y = (k x).map (shiftEntry d) ∧ ∀ e ∈ k x, P e)
    (hglen : ∀ x y, g x = .ok y → y.length = x.length) {body b' : List Nat}
    (h : (do
        let cs ← parseBoxes (body.length + 1) body
        let cs' ← replaceFirst typ g cs
        Except.ok (encChildren cs')) = .ok b') :
    descend typ k b' = (descend typ k body).map (shiftEntry d) ∧
      ∀ e ∈ descend typ k body, P e := by
  cases hp : parseBoxes (body.length + 1) body with
  | error e =>
    rw [hp, exbind_error] at h
    exact absurd h (by simp)
  | ok cs =>
    rw [hp, exbind_ok] at h
    cases hr : replaceFirst typ g cs with
    | error e =>
      rw [hr, exbind_error] at h
      exact absurd h (by simp)
    | ok cs' =>
      rw [hr, exbind_ok] at h
      simp only [Except.ok.injEq] at h
      subst h
      obtain ⟨henc, hwf⟩ := parseBoxes_sound hp
      have hshape := replaceFirst_shape hglen hr
      have hwf' := childrenWF_of_shape hshape hwf
      have hp' : parseBoxes ((encChildren cs').length + 1) (encChildren cs') = .ok cs' :=
        parseBoxes_complete cs' hwf' _ (by have := length_le_encChildren hwf'; omega)
      obtain ⟨c, b2, hf1, hgb, hf3⟩ := replaceFirst_find hr
      simp only [descend, hp, hp', hf1, hf3]
      exact hg _ _ hgb

theorem rewriteMinf_offsets {d : Int} {body b' : List Nat}
    (h : rewriteMinf d body = .ok b') :
    descend STBL stblOffsets b' = (descend STBL stblOffsets body).map (shiftEntry d) ∧
      ∀ e ∈ descend STBL stblOffsets body, 0 ≤ (e : Int) + d :=
  descendRewrite_offsets (fun _ _ hxy => stblOffsets_rewrite hxy)
    (fun _ _ hxy => rewriteStbl_len hxy) h

theorem rewriteMdia_offsets {d : Int} {body b' : List Nat}
    (h : rewriteMdia d body = .ok b') :
    descend MINF (descend STBL stblOffsets) b' =
      (descend MINF (descend STBL stblOffsets) body).map (shiftEntry d) ∧
      ∀ e ∈ descend MINF (descend STBL stblOffsets) body, 0 ≤ (e : Int) + d :=
  descendRewrite_offsets (fun _ _ hxy => rewriteMinf_offsets hxy)
    (fun _ _ hxy => rewriteMinf_len hxy) h

theorem rewriteTrak_offsets {d : Int} {body b' : List Nat}
    (h : rewriteTrak d body = .ok b') :
    trakOffsets b' = (trakOffsets body).map (shiftEntry d) ∧
      ∀ e ∈ trakOffsets body, 0 ≤ (e : Int) + d :=
  descendRewrite_offsets (fun _ _ hxy => rewriteMdia_offsets hxy)
    (fun _ _ hxy => rewriteMdia_len hxy) h

theorem moovOffsets_cons (c : Child) (l : List Child) :
    moovOffsets (c :: l) =
      (if c.hdr.typ = TRAK then trakOffsets c.body else []) ++ moovOffsets l := by
  by_cases h : c.hdr.typ = TRAK <;> simp [moovOffsets, List.filter_cons, h]

theorem rewriteMoov_offsets {d : Int} : ∀ {cs cs' : List Child},
    rewriteMoov d cs = .ok cs' →
    moovOffsets cs' = (moovOffsets cs).map (shiftEntry d) ∧
      ∀ e ∈ moovOffsets cs, 0 ≤ (e : Int) + d := by
  intro cs cs' h
  have hF := exMapM_ok_forall₂ h
  clear h
  induction hF with
  | nil => exact ⟨rfl, fun e he => absurd he (List.not_mem_nil e)⟩
  | @cons a b l l' hr ht ih =>
    by_cases htyp : a.hdr.typ = TRAK
    · rw [if_pos htyp] at hr
      cases hrt : rewriteTrak d a.body with
      | error e =>
        rw [hrt, exbind_error] at hr
        exact absurd hr (by simp)
      | ok b2 =>
        rw [hrt, exbind_ok] at hr
        simp only [Except.ok.injEq] at hr
        subst hr
        have hto := rewriteTrak_offsets hrt
        obtain ⟨ih1, ih2⟩ := ih
        constructor
        · rw [moovOffsets_cons, moovOffsets_cons, if_pos htyp, List.map_append, hto.1, ih1,
            if_pos htyp]
        · intro e he
          rw [moovOffsets_cons, if_pos htyp] at he
          rcases List.mem_append.mp he with h1 | h2
          · exact hto.2 e h1
          · exact ih2 e h2
    · rw [if_neg htyp] at hr
      simp only [Except.ok.injEq] at hr
      subst hr
      obtain ⟨ih1, ih2⟩ := ih
      constructor
      · rw [moovOffsets_cons, moovOffsets_cons, if_neg htyp, List.nil_append,
          List.nil_append, ih1]
      · intro e he
        rw [moovOffsets_cons, if_neg htyp, List.nil_append] at he
        exact ih2 e he

--
-- offsets of emitted metadata
--

theorem u32Child_wf {t : Nat} {body : List Nat} (h8 : body.length + 8 ≤ U32MAX)
    (ht : t < 4294967296) : ChildWF (u32Child t body) := by
  have hU : U32MAX = 4294967295 := rfl
  refine ⟨fun r => ?_, rfl, ?_⟩
  · show decodeHdr ((enc32 (body.length + 8) ++ enc32 t) ++ r) =
      .ok (⟨.u32 (body.length + 8), t⟩, 8)
    rw [List.append_assoc]
    exact decodeHdr_u32 r (by omega) (by omega) ht
  · show body.length = (body.length + 8) - 8
    omega

theorem padChild_wf {s : Nat} (h8 : 8 ≤ s) (hs : s ≤ U32MAX) : ChildWF (padChild s) := by
  have hU : U32MAX = 4294967295 := rfl
  have hF : FREE < 4294967296 := by decide
  refine ⟨fun r => ?_, rfl, ?_⟩
  · show decodeHdr ((enc32 s ++ enc32 FREE) ++ r) = .ok (⟨.u32 s, FREE⟩, 8)
    rw [List.append_assoc]
    exact decodeHdr_u32 r h8 (by omega) hF
  · show (List.replicate (s - 8) 0).length = s - 8
    exact List.length_replicate (s - 8) 0

theorem offsetsIn_of_top {tcs : List Child} (hwf : ChildrenWF tcs) :
    offsetsIn (encChildren tcs) =
      ((tcs.filter fun c => c.hdr.typ = MOOV).map fun c =>
        match parseBoxes (c.body.length + 1) c.body with
        | .ok ms => moovOffsets ms
        | .error _ => []).flatten := by
  have hp := parseBoxes_complete tcs hwf ((encChildren tcs).length + 1)
    (by have := length_le_encChildren hwf; omega)
  simp only [offsetsIn, hp]

theorem offsetsIn_mkBoxes {fb MB : List Nat} (hf : fb.length + 8 ≤ U32MAX)
    (hm : MB.length + 8 ≤ U32MAX) {ms : List Child}
    (hparse : parseBoxes (MB.length + 1) MB = .ok ms) :
    offsetsIn (mkBox FTYP fb ++ mkBox MOOV MB) = moovOffsets ms := by
  have hwf : ChildrenWF [u32Child FTYP fb, u32Child MOOV MB] := by
    constructor
    · intro c hc
      simp only [List.mem_cons, List.not_mem_nil, or_false] at hc
      rcases hc with rfl | rfl
      · exact u32Child_wf hf (by decide)
      · exact u32Child_wf hm (by decide)
    · intro c hc
      simp only [List.dropLast] at hc
      simp only [List.mem_cons, List.not_mem_nil, or_false] at hc
      subst hc
      simp [u32Child]
  have henc : encChildren [u32Child FTYP fb, u32Child MOOV MB] =
      mkBox FTYP fb ++ mkBox MOOV MB := by
    rw [encChildren_cons, encChildren_cons, encChildren_nil, List.append_nil]
    rw [mkBox, mkBox, boxHdrBytes, boxHdrBytes, if_pos hf, if_pos hm]
    simp [u32Child, List.append_assoc]
  rw [← henc, offsetsIn_of_top hwf]
  simp [List.filter_cons, u32Child, show FTYP ≠ MOOV from by decide, hparse]

theorem offsetsIn_mkBoxes_pad {fb MB : List Nat} {s : Nat} (hf : fb.length + 8 ≤ U32MAX)
    (hm : MB.length + 8 ≤ U32MAX) (h8 : 8 ≤ s) (hs : s ≤ U32MAX) {ms : List Child}
    (hparse : parseBoxes (MB.length + 1) MB = .ok ms) :
    offsetsIn (mkBox FTYP fb ++ mkBox MOOV MB ++ padBytes s) = moovOffsets ms := by
  have hwf : ChildrenWF [u32Child FTYP fb, u32Child MOOV MB, padChild s] := by
    constructor
    · intro c hc
      simp only [List.mem_cons, List.not_mem_nil, or_false] at hc
      rcases hc with rfl | rfl | rfl
      · exact u32Child_wf hf (by decide)
      · exact u32Child_wf hm (by decide)
      · exact padChild_wf h8 hs
    · intro c hc
      simp only [List.dropLast] at hc
      simp only [List.mem_cons, List.not_mem_nil, or_false] at hc
      rcases hc with rfl | rfl
      · simp [u32Child]
      · simp [u32Child]
  have henc : encChildren [u32Child FTYP fb, u32Child MOOV MB, padChild s] =
      mkBox FTYP fb ++ mkBox MOOV MB ++ padBytes s := by
    rw [encChildren_cons, encChildren_cons, encChildren_cons, encChildren_nil,
      List.append_nil]
    rw [mkBox, mkBox, boxHdrBytes, boxHdrBytes, if_pos hf, if_pos hm, padBytes]
    simp [u32Child, padChild, List.append_assoc]
  rw [← henc, offsetsIn_of_top hwf]
  simp [List.filter_cons, u32Child, padChild, show FTYP ≠ MOOV from by decide,
    show FREE ≠ MOOV from by decide, hparse]

--
-- C2: chunk-offset validity
--

theorem disp_branch_offsets {F : FtypData} {cs cs' : List Child} {d : Int}
    (hwf : ChildrenWF cs)
    (hf' : (fbodyOf F).length + 8 ≤ U32MAX) (hm' : (encChildren cs).length + 8 ≤ U32MAX)
    (hrw : rewriteMoov d cs = .ok cs') :
    offsetsIn (mkBox FTYP (fbodyOf F) ++ boxHdrBytes MOOV (encChildren cs).length ++
        encChildren cs') = (moovOffsets cs).map (shiftEntry d) ∧
      ∀ e ∈ moovOffsets cs, 0 ≤ (e : Int) + d := by
  have hshape := rewriteMoov_shape hrw
  have hwf' := childrenWF_of_shape hshape hwf
  have hL : (encChildren cs').length = (encChildren cs).length :=
    encChildren_length_of_shape hshape
  have hp' : parseBoxes ((encChildren cs').length + 1) (encChildren cs') = .ok cs' :=
    parseBoxes_complete cs' hwf' _ (by have := length_le_encChildren hwf'; omega)
  have hmeta : mkBox FTYP (fbodyOf F) ++ boxHdrBytes MOOV (encChildren cs).length ++
      encChildren cs' = mkBox FTYP (fbodyOf F) ++ mkBox MOOV (encChildren cs') := by
    show _ = mkBox FTYP (fbodyOf F) ++
      (boxHdrBytes MOOV (encChildren cs').length ++ encChildren cs')
    rw [hL, List.append_assoc]
  rw [hmeta, offsetsIn_mkBoxes hf' (by omega) hp']
  exact rewriteMoov_offsets hrw

theorem disp_branch_length {F : FtypData} {cs cs' : List Child} {d : Int}
    (hf' : (fbodyOf F).length + 8 ≤ U32MAX) (hm' : (encChildren cs).length + 8 ≤ U32MAX)
    (hrw : rewriteMoov d cs = .ok cs') :
    (mkBox FTYP (fbodyOf F) ++ boxHdrBytes MOOV (encChildren cs).length ++
      encChildren cs').length = metadataLenOf F cs := by
  have hL : (encChildren cs').length = (encChildren cs).length :=
    encChildren_length_of_shape (rewriteMoov_shape hrw)
  have hbh : (boxHdrBytes MOOV (encChildren cs).length).length = 8 := by
    rw [boxHdrBytes, if_pos hm']
    rfl
  have hbe1 : boxEncLen (fbodyOf F).length = 8 + (fbodyOf F).length := by
    rw [boxEncLen, if_pos hf']
  have hbe2 : boxEncLen (encChildren cs).length = 8 + (encChildren cs).length := by
    rw [boxEncLen, if_pos hm']
  have hmlo := metadataLenOf_eq F cs
  rw [List.length_append, List.length_append, mkBox_length, hbh, hL]
  omega

/-- C2 (amended): the sanitizer never validates that input chunk offsets lie
within the mdat payload, so the claimed invariant holds only conditionally:
when the planner succeeds on well-formed moov children whose chunk-offset
entries all lie within the input payload span, every entry of every stco or
co64 table in the returned metadata lies within the payload's position in
the output file, namely in `[metadata.length, metadata.length + span.len)`
(entries are unchanged in the no-pad and pad branches where
`metadata.length = span.offset`, and shifted by exactly the displacement in
the rewrite branches, src/mp4san/src/lib.rs lines 201-246). -/
theorem chunk_offsets_in_output (F : FtypData) (cs : List Child) (span : InputSpan)
    (r : SanitizedMetadata) (hok : plan F cs span = .ok r) (hwf : ChildrenWF cs)
    (hfb : (fbodyOf F).length ≤ MAXREAD) (hmb : (encChildren cs).length ≤ MAXREAD)
    (hin : ∀ e ∈ moovOffsets cs, span.offset ≤ e ∧ e < span.offset + span.len) :
    ∀ e ∈ offsetsIn r.metadata, r.metadata.length ≤ e ∧ e < r.metadata.length + span.len := by
  have hMR : MAXREAD = 209715200 := rfl
  have hU : U32MAX = 4294967295 := rfl
  have hMP : MAXPAD = 4294967287 := rfl
  have hf' : (fbodyOf F).length + 8 ≤ U32MAX := by omega
  have hm' : (encChildren cs).length + 8 ≤ U32MAX := by omega
  have hparse : parseBoxes ((encChildren cs).length + 1) (encChildren cs) = .ok cs :=
    parseBoxes_complete cs hwf _ (by have := length_le_encChildren hwf; omega)
  have hbe1 : boxEncLen (fbodyOf F).length = 8 + (fbodyOf F).length := by
    rw [boxEncLen, if_pos hf']
  have hbe2 : boxEncLen (encChildren cs).length = 8 + (encChildren cs).length := by
    rw [boxEncLen, if_pos hm']
  have hmlo := metadataLenOf_eq F cs
  by_cases hle : metadataLenOf F cs ≤ span.offset
  · by_cases hz : span.offset - metadataLenOf F cs = 0
    · have hsp : span.offset = metadataLenOf F cs := by omega
      rw [plan_eq_zero hsp] at hok
      simp only [Except.ok.injEq] at hok
      subst hok
      intro e he
      have he2 : e ∈ offsetsIn (mkBox FTYP (fbodyOf F) ++ mkBox MOOV (encChildren cs)) := he
      rw [offsetsIn_mkBoxes hf' hm' hparse] at he2
      obtain ⟨h1, h2⟩ := hin e he2
      have hlen : (mkBox FTYP (fbodyOf F) ++ mkBox MOOV (encChildren cs)).length =
          metadataLenOf F cs := by
        rw [List.length_append, mkBox_length, mkBox_length, hmlo]
      show (mkBox FTYP (fbodyOf F) ++ mkBox MOOV (encChildren cs)).length ≤ e ∧
        e < (mkBox FTYP (fbodyOf F) ++ mkBox MOOV (encChildren cs)).length + span.len
      rw [hlen]
      omega
    · by_cases hpd : 8 ≤ span.offset - metadataLenOf F cs ∧
          span.offset - metadataLenOf F cs ≤ MAXPAD
      · rw [plan_eq_pad hle hpd.1 hpd.2] at hok
        simp only [Except.ok.injEq] at hok
        subst hok
        intro e he
        have he2 : e ∈ offsetsIn (mkBox FTYP (fbodyOf F) ++ mkBox MOOV (encChildren cs) ++
            padBytes (span.offset - metadataLenOf F cs)) := he
        rw [offsetsIn_mkBoxes_pad hf' hm' hpd.1 (by omega) hparse] at he2
        obtain ⟨h1, h2⟩ := hin e he2
        have hlen : (mkBox FTYP (fbodyOf F) ++ mkBox MOOV (encChildren cs) ++
            padBytes (span.offset - metadataLenOf F cs)).length = span.offset := by
          rw [List.length_append, List.length_append, mkBox_length, mkBox_length,
            padBytes_length hpd.1, hmlo]
          omega
        show (mkBox FTYP (fbodyOf F) ++ mkBox MOOV (encChildren cs) ++
            padBytes (span.offset - metadataLenOf F cs)).length ≤ e ∧
          e < (mkBox FTYP (fbodyOf F) ++ mkBox MOOV (encChildren cs) ++
            padBytes (span.offset - metadataLenOf F cs)).length + span.len
        rw [hlen]
        omega
      · rw [plan_eq_back hle hz hpd] at hok
        by_cases hfit : span.offset - metadataLenOf F cs ≤ 2147483647
        · rw [if_pos hfit] at hok
          cases hrw : rewriteMoov (-((span.offset - metadataLenOf F cs : Nat) : Int)) cs with
          | error e0 =>
            rw [hrw] at hok
            exact absurd hok (by simp [Except.bind])
          | ok cs' =>
            rw [hrw] at hok
            have hok2 : (.ok ⟨mkBox FTYP (fbodyOf F) ++
                boxHdrBytes MOOV (encChildren cs).length ++ encChildren cs', span⟩ :
                Except Err SanitizedMetadata) = .ok r := hok
            simp only [Except.ok.injEq] at hok2
            subst hok2
            intro e he
            obtain ⟨hmap, hnn⟩ := disp_branch_offsets hwf hf' hm' hrw
            have he2 : e ∈ (moovOffsets cs).map
                (shiftEntry (-((span.offset - metadataLenOf F cs : Nat) : Int))) := by
              rw [← hmap]
              exact he
            simp only [List.mem_map] at he2
            obtain ⟨e0, he0, rfl⟩ := he2
            obtain ⟨h1, h2⟩ := hin e0 he0
            have hn0 := hnn e0 he0
            have hlen := disp_branch_length hf' hm' hrw
            show (mkBox FTYP (fbodyOf F) ++ boxHdrBytes MOOV (encChildren cs).length ++
                encChildren cs').length ≤ shiftEntry _ e0 ∧ _
            rw [hlen]
            simp only [shiftEntry] at hn0 ⊢
            omega
        · rw [if_neg hfit] at hok
          exact absurd hok (by simp)
  · rw [plan_eq_fwd (by omega)] at hok
    by_cases hfit : metadataLenOf F cs - span.offset ≤ 2147483647
    · rw [if_pos hfit] at hok
      cases hrw : rewriteMoov ((metadataLenOf F cs - span.offset : Nat) : Int) cs with
      | error e0 =>
        rw [hrw] at hok
        exact absurd hok (by simp [Except.bind])
      | ok cs' =>
        rw [hrw] at hok
        have hok2 : (.ok ⟨mkBox FTYP (fbodyOf F) ++
            boxHdrBytes MOOV (encChildren cs).length ++ encChildren cs', span⟩ :
            Except Err SanitizedMetadata) = .ok r := hok
        simp only [Except.ok.injEq] at hok2
        subst hok2
        intro e he
        obtain ⟨hmap, hnn⟩ := disp_branch_offsets hwf hf' hm' hrw
        have he2 : e ∈ (moovOffsets cs).map
            (shiftEntry ((metadataLenOf F cs - span.offset : Nat) : Int)) := by
          rw [← hmap]
          exact he
        simp only [List.mem_map] at he2
        obtain ⟨e0, he0, rfl⟩ := he2
        obtain ⟨h1, h2⟩ := hin e0 he0
        have hn0 := hnn e0 he0
        have hlen := disp_branch_length hf' hm' hrw
        show (mkBox FTYP (fbodyOf F) ++ boxHdrBytes MOOV (encChildren cs).length ++
            encChildren cs').length ≤ shiftEntry _ e0 ∧ _
        rw [hlen]
        simp only [shiftEntry] at hn0 ⊢
        omega
    · rw [if_neg hfit] at hok
      exact absurd hok (by simp)

/-- C2 counterexample: the claim states every stco entry `e` of the output
metadata satisfies `data.offset ≤ e < data.offset + data.len` for the
returned input span, but the sanitizer accepts a file whose single stco
entry is 0 while the returned span starts at offset 80; the entry is
emitted unchanged, violating the claimed lower bound. -/
theorem chunk_offset_validity_counterexample :
    sanitize c2src = .ok ⟨preW [0], ⟨80, 8⟩⟩ ∧ offsetsIn (preW [0]) = [0] ∧
      ¬((80 : Nat) ≤ 0) := by
  refine ⟨by decide, by decide, by decide⟩

theorem chunk_offsets_in_output_witness :
    plan ftypW c2cs ⟨80, 8⟩ =
      .ok ⟨mkBox FTYP (fbodyOf ftypW) ++ mkBox MOOV (encChildren c2cs), ⟨80, 8⟩⟩ ∧
    ∀ e ∈ offsetsIn (mkBox FTYP (fbodyOf ftypW) ++ mkBox MOOV (encChildren c2cs)),
      80 ≤ e ∧ e < 80 + 8 := by
  have hwf : ChildrenWF c2cs := by
    constructor
    · intro c hc
      simp only [c2cs, List.mem_cons, List.not_mem_nil, or_false] at hc
      subst hc
      exact u32Child_wf (by decide) (by decide)
    · intro c hc
      simp only [c2cs, List.dropLast] at hc
      exact absurd hc (List.not_mem_nil c)
  refine ⟨by decide, ?_⟩
  intro e he
  exact chunk_offsets_in_output ftypW c2cs ⟨80, 8⟩
    ⟨mkBox FTYP (fbodyOf ftypW) ++ mkBox MOOV (encChildren c2cs), ⟨80, 8⟩⟩
    (by decide) hwf (by decide) (by decide) (by decide) e he

--
-- scan extraction: helper lemmas
--

theorem encLen_ge_8 (hdr : BoxHeader) : 8 ≤ hdr.encLen := by
  cases h : hdr.sz <;> simp [BoxHeader.encLen, h]

theorem encLen_le_16 (hdr : BoxHeader) : hdr.encLen ≤ 16 := by
  cases h : hdr.sz <;> simp [BoxHeader.encLen, h]

theorem readHeader_encLen {src : Source} {pos : Nat} {hdr : BoxHeader} {p : Nat}
    (h : readHeader src pos = .ok (hdr, p)) :
    p = pos + hdr.encLen ∧ hdr.encLen ≤ min 16 (src.len - pos) ∧
      readHeader src pos = .ok (hdr, pos + hdr.encLen) := by
  cases hd : decodeHdr (grab src pos (min 16 (src.len - pos))) with
  | error e =>
    rw [readHeader, hd] at h
    exact absurd h (by simp [Except.map])
  | ok v =>
    obtain ⟨hdr', c⟩ := v
    rw [readHeader, hd] at h
    simp only [Except.map, Except.ok.injEq, Prod.mk.injEq] at h
    obtain ⟨rfl, rfl⟩ := h
    obtain ⟨hcl, hle, _, _⟩ := decodeHdr_stable hd
    rw [grab_length] at hle
    refine ⟨by rw [hcl], by rw [← hcl]; exact hle, ?_⟩
    rw [readHeader, hd, ← hcl]
    rfl

theorem chain_le {src : Source} : ∀ {p r : Nat}, Chain src p r → p ≤ r := by
  intro p r h
  induction h with
  | nil => exact le_refl _
  | cons hb hc ih =>
    obtain ⟨hdr, _, _, _, hq, _⟩ := hb
    omega

theorem chain_snoc {src : Source} : ∀ {p q r : Nat}, Chain src p q → SpanBox src q r →
    Chain src p r := by
  intro p q r h
  induction h with
  | nil => intro hb; exact Chain.cons hb (Chain.nil _)
  | cons hb2 hc ih => intro hb; exact Chain.cons hb2 (ih hb)

theorem chain_end_le {src : Source} : ∀ {p r : Nat}, Chain src p r → p ≤ U64MAX →
    r ≤ U64MAX := by
  intro p r h
  induction h with
  | nil => exact fun hp => hp
  | cons hb hc ih =>
    intro _
    obtain ⟨hdr, _, _, _, _, hq⟩ := hb
    exact ih hq

theorem mspan_end_le {src : Source} {d : InputSpan} (h : MSpan src d) :
    d.offset + d.len ≤ U64MAX := by
  obtain ⟨q0, ⟨hdr, _, _, _, _, hq⟩, hch⟩ := h
  exact chain_end_le hch hq

theorem parseFtyp_sound {body : List Nat} {F : FtypData} (h : parseFtyp body = .ok F) :
    fbodyOf F = body ∧ F.major.length = 4 ∧ F.minor.length = 4 := by
  rw [parseFtyp] at h
  split at h
  next hlt => exact absurd h (by simp)
  next hge =>
    simp only [Except.ok.injEq] at h
    subst h
    refine ⟨?_, ?_, ?_⟩
    · show body.take 4 ++ (body.drop 4).take 4 ++ body.drop 8 = body
      rw [← List.take_add]
      exact List.take_append_drop 8 body
    · show (body.take 4).length = 4
      rw [List.length_take]
      omega
    · show ((body.drop 4).take 4).length = 4
      rw [List.length_take, List.length_drop]
      omega

theorem scan_step_hdrerr {src : Source} {fuel pos : Nat} {st : ScanState} {e : Err}
    (hpos : pos < src.len) (hread : readHeader src pos = .error e) :
    scan src (fuel + 1) pos st = .error e := by
  simp only [scan, if_pos hpos, hread, exbind_error]

theorem scan_step_free_skipfail {src : Source} {fuel pos : Nat} {st : ScanState}
    {hdr : BoxHeader} {p : Nat}
    (hpos : pos < src.len) (hread : readHeader src pos = .ok (hdr, p))
    (htyp : hdr.typ = FREE) (hskip : ¬p + bodySizeOf src hdr p ≤ U64MAX) :
    scan src (fuel + 1) pos st = .error (.io .seekPastU64Max) := by
  simp only [scan, if_pos hpos, hread, exbind_ok, if_pos htyp, skipTo, if_neg hskip,
    exbind_error]

theorem scan_step_ftyp_dataerr {src : Source} {fuel pos : Nat} {st : ScanState}
    {hdr : BoxHeader} {p : Nat} {e : Err}
    (hpos : pos < src.len) (hread : readHeader src pos = .ok (hdr, p))
    (htyp : hdr.typ = FTYP) (hnone : st.ftyp = none)
    (hrd : readData src hdr p = .error e) :
    scan src (fuel + 1) pos st = .error e := by
  have hfree : ¬hdr.typ = FREE := by rw [htyp]; decide
  simp only [scan, if_pos hpos, hread, exbind_ok, if_neg hfree, if_pos htyp, hnone,
    Option.isSome_none, Bool.false_eq_true, if_false, hrd, exbind_error]

theorem scan_step_ftyp_parseerr {src : Source} {fuel pos : Nat} {st : ScanState}
    {hdr : BoxHeader} {p p' : Nat} {body : List Nat} {e : Err}
    (hpos : pos < src.len) (hread : readHeader src pos = .ok (hdr, p))
    (htyp : hdr.typ = FTYP) (hnone : st.ftyp = none)
    (hrd : readData src hdr p = .ok (body, p')) (hpf : parseFtyp body = .error e) :
    scan src (fuel + 1) pos st = .error e := by
  have hfree : ¬hdr.typ = FREE := by rw [htyp]; decide
  simp only [scan, if_pos hpos, hread, exbind_ok, if_neg hfree, if_pos htyp, hnone,
    Option.isSome_none, Bool.false_eq_true, if_false, hrd, hpf, exbind_error]

theorem scan_step_moov_dataerr {src : Source} {fuel pos : Nat} {st : ScanState}
    {hdr : BoxHeader} {p : Nat} {e : Err}
    (hpos : pos < src.len) (hread : readHeader src pos = .ok (hdr, p))
    (htyp : hdr.typ = MOOV) (hftyp : st.ftyp.isSome = true)
    (hrd : readData src hdr p = .error e) :
    scan src (fuel + 1) pos st = .error e := by
  have hfree : ¬hdr.typ = FREE := by rw [htyp]; decide
  have hft : ¬hdr.typ = FTYP := by rw [htyp]; decide
  have hmd : ¬hdr.typ = MDAT := by rw [htyp]; decide
  simp only [scan, if_pos hpos, hread, exbind_ok, if_neg hfree, if_neg hft,
    isNone_false_of_isSome hftyp, Bool.false_eq_true, if_false, if_neg hmd, if_pos htyp,
    hrd, exbind_error]

theorem scan_step_moov_parseerr {src : Source} {fuel pos : Nat} {st : ScanState}
    {hdr : BoxHeader} {p p' : Nat} {body : List Nat} {e : Err}
    (hpos : pos < src.len) (hread : readHeader src pos = .ok (hdr, p))
    (htyp : hdr.typ = MOOV) (hftyp : st.ftyp.isSome = true)
    (hrd : readData src hdr p = .ok (body, p')) (hpm : parseMoov body = .error e) :
    scan src (fuel + 1) pos st = .error e := by
  have hfree : ¬hdr.typ = FREE := by rw [htyp]; decide
  have hft : ¬hdr.typ = FTYP := by rw [htyp]; decide
  have hmd : ¬hdr.typ = MDAT := by rw [htyp]; decide
  simp only [scan, if_pos hpos, hread, exbind_ok, if_neg hfree, if_neg hft,
    isNone_false_of_isSome hftyp, Bool.false_eq_true, if_false, if_neg hmd, if_pos htyp,
    hrd, hpm, exbind_error]

theorem scan_step_other_skipfail {src : Source} {fuel pos : Nat} {st : ScanState}
    {hdr : BoxHeader} {p : Nat}
    (hpos : pos < src.len) (hread : readHeader src pos = .ok (hdr, p))
    (hfree : ¬hdr.typ = FREE) (hft : ¬hdr.typ = FTYP) (hmd : ¬hdr.typ = MDAT)
    (hmv : ¬hdr.typ = MOOV) (hftyp : st.ftyp.isSome = true)
    (hskip : ¬p + bodySizeOf src hdr p ≤ U64MAX) :
    scan src (fuel + 1) pos st = .error (.io .seekPastU64Max) := by
  simp only [scan, if_pos hpos, hread, exbind_ok, if_neg hfree, if_neg hft,
    isNone_false_of_isSome hftyp, Bool.false_eq_true, if_false, if_neg hmd, if_neg hmv,
    skipTo, if_neg hskip, exbind_error]

--
-- scan extraction
--

theorem scan_extract {src : Source} (hsrc : src.len ≤ U64MAX) :
    ∀ fuel {pos : Nat} {st st' : ScanState},
      scan src fuel pos st = .ok st' →
      stCost st ≤ pos → pos ≤ U64MAX →
      FtypInv st.ftyp → MoovInv st.moov → DataInv src st.data →
      stCost st' ≤ U64MAX ∧ FtypInv st'.ftyp ∧ MoovInv st'.moov ∧ DataInv src st'.data := by
  intro fuel
  induction fuel with
  | zero =>
    intro pos st st' h hc hp hf hm hd
    simp only [scan] at h
    split at h
    · exact absurd h (by simp)
    · simp only [Except.ok.injEq] at h
      subst h
      exact ⟨by omega, hf, hm, hd⟩
  | succ fuel ih =>
    intro pos st st' h hc hp hf hm hd
    by_cases hpos : pos < src.len
    case neg =>
      rw [scan_exit hpos] at h
      simp only [Except.ok.injEq] at h
      subst h
      exact ⟨by omega, hf, hm, hd⟩
    case pos =>
      cases hread0 : readHeader src pos with
      | error e =>
        rw [scan_step_hdrerr hpos hread0] at h
        exact absurd h (by simp)
      | ok v =>
        obtain ⟨hdr, p⟩ := v
        obtain ⟨hpeq, hcle, hread⟩ := readHeader_encLen hread0
        subst hpeq
        have h8 : 8 ≤ hdr.encLen := encLen_ge_8 hdr
        have h16 : hdr.encLen ≤ 16 := encLen_le_16 hdr
        by_cases htFREE : hdr.typ = FREE
        · by_cases hskip : (pos + hdr.encLen) +
              bodySizeOf src hdr (pos + hdr.encLen) ≤ U64MAX
          case neg =>
            rw [scan_step_free_skipfail hpos hread htFREE hskip] at h
            exact absurd h (by simp)
          case pos =>
            cases hdata : st.data with
            | none =>
              rw [scan_step_free_none hpos hread htFREE hdata hskip] at h
              exact ih h (by omega) (by omega) hf hm hd
            | some d =>
              by_cases hcont : d.offset + d.len = pos
              · rw [scan_step_free_absorb hpos hread htFREE hdata hcont hskip] at h
                refine ih h ?_ (by omega) hf hm ?_
                · show stCost _ ≤ _
                  simp only [stCost, dcost]
                  have hcst : stCost st = fcost st.ftyp + mcost st.moov + d.len := by
                    simp only [stCost, hdata, dcost]
                  omega
                · show DataInv src (some ⟨d.offset, d.len +
                    (bodySizeOf src hdr (pos + hdr.encLen) + hdr.encLen)⟩)
                  rw [hdata] at hd
                  obtain ⟨q0, hq0, hch⟩ := hd
                  refine ⟨q0, hq0, ?_⟩
                  show Chain src q0 (d.offset + (d.len +
                    (bodySizeOf src hdr (pos + hdr.encLen) + hdr.encLen)))
                  have hend : d.offset + (d.len +
                      (bodySizeOf src hdr (pos + hdr.encLen) + hdr.encLen)) =
                      pos + hdr.encLen + bodySizeOf src hdr (pos + hdr.encLen) := by omega
                  rw [hend]
                  exact chain_snoc (hcont ▸ hch)
                    ⟨hdr, hread, Or.inr htFREE, hpos, rfl, by omega⟩
              · rw [scan_step_free_skip hpos hread htFREE hdata hcont hskip] at h
                exact ih h (by omega) (by omega) hf hm hd
        · by_cases htFTYP : hdr.typ = FTYP
          · cases hft : st.ftyp with
            | some F0 =>
              rw [scan_step_ftyp_dup hpos hread htFTYP (by rw [hft]; rfl)] at h
              exact absurd h (by simp)
            | none =>
              cases hrd : readData src hdr (pos + hdr.encLen) with
              | error e =>
                rw [scan_step_ftyp_dataerr hpos hread htFTYP hft hrd] at h
                exact absurd h (by simp)
              | ok bv =>
                obtain ⟨body, p'⟩ := bv
                cases hpf : parseFtyp body with
                | error e =>
                  rw [scan_step_ftyp_parseerr hpos hread htFTYP hft hrd hpf] at h
                  exact absurd h (by simp)
                | ok F =>
                  rw [scan_step_ftyp hpos hread htFTYP hft hrd hpf] at h
                  obtain ⟨hbody, hp', hble, hplen⟩ := readData_ok hrd
                  obtain ⟨hfb, hmj, hmn⟩ := parseFtyp_sound hpf
                  have hblen : body.length = bodySizeOf src hdr (pos + hdr.encLen) := by
                    rw [hbody, grab_length]
                  have hMR : MAXREAD = 209715200 := rfl
                  have hU32 : U32MAX = 4294967295 := rfl
                  refine ih h ?_ (by omega) ?_ hm hd
                  · show stCost _ ≤ p'
                    simp only [stCost, fcost]
                    have hbe : boxEncLen (fbodyOf F).length = 8 + (fbodyOf F).length := by
                      rw [boxEncLen, if_pos (by rw [hfb]; omega)]
                    have hcst : stCost st = 0 + mcost st.moov + dcost st.data := by
                      simp only [stCost, hft, fcost]
                    have hfblen : (fbodyOf F).length = bodySizeOf src hdr (pos + hdr.encLen) := by
                      rw [hfb, hblen]
                    omega
                  · show FtypInv (some F)
                    refine ⟨hmj, hmn, ?_⟩
                    rw [hfb, hblen]
                    exact hble
          · cases hft : st.ftyp with
            | none =>
              rw [scan_step_early hpos hread htFREE htFTYP hft] at h
              exact absurd h (by simp)
            | some F0 =>
              have hfs : st.ftyp.isSome = true := by rw [hft]; rfl
              by_cases htMDAT : hdr.typ = MDAT
              · by_cases hskip : (pos + hdr.encLen) +
                    bodySizeOf src hdr (pos + hdr.encLen) ≤ U64MAX
                case neg =>
                  rw [scan_step_mdat_skipfail hpos hread htMDAT hfs hskip] at h
                  exact absurd h (by simp)
                case pos =>
                  cases hdata : st.data with
                  | none =>
                    rw [scan_step_mdat_new hpos hread htMDAT hfs hdata hskip] at h
                    refine ih h ?_ (by omega) hf hm ?_
                    · show stCost _ ≤ _
                      simp only [stCost, dcost]
                      have hcst : stCost st = fcost st.ftyp + mcost st.moov + 0 := by
                        simp only [stCost, hdata, dcost]
                      omega
                    · show DataInv src (some ⟨pos,
                        bodySizeOf src hdr (pos + hdr.encLen) + hdr.encLen⟩)
                      refine ⟨pos + hdr.encLen + bodySizeOf src hdr (pos + hdr.encLen),
                        ⟨hdr, hread, htMDAT, hpos, rfl, by omega⟩, ?_⟩
                      show Chain src _ (pos + (bodySizeOf src hdr (pos + hdr.encLen) +
                        hdr.encLen))
                      have hend : pos + (bodySizeOf src hdr (pos + hdr.encLen) +
                          hdr.encLen) =
                          pos + hdr.encLen + bodySizeOf src hdr (pos + hdr.encLen) := by
                        omega
                      rw [hend]
                      exact Chain.nil _
                  | some d =>
                    by_cases hcont : d.offset + d.len = pos
                    · rw [scan_step_mdat_ext hpos hread htMDAT hfs hdata hcont hskip] at h
                      refine ih h ?_ (by omega) hf hm ?_
                      · show stCost _ ≤ _
                        simp only [stCost, dcost]
                        have hcst : stCost st = fcost st.ftyp + mcost st.moov + d.len := by
                          simp only [stCost, hdata, dcost]
                        omega
                      · show DataInv src (some ⟨d.offset, d.len +
                          (bodySizeOf src hdr (pos + hdr.encLen) + hdr.encLen)⟩)
                        rw [hdata] at hd
                        obtain ⟨q0, hq0, hch⟩ := hd
                        refine ⟨q0, hq0, ?_⟩
                        show Chain src q0 (d.offset + (d.len +
                          (bodySizeOf src hdr (pos + hdr.encLen) + hdr.encLen)))
                        have hend : d.offset + (d.len +
                            (bodySizeOf src hdr (pos + hdr.encLen) + hdr.encLen)) =
                            pos + hdr.encLen + bodySizeOf src hdr (pos + hdr.encLen) := by
                          omega
                        rw [hend]
                        exact chain_snoc (hcont ▸ hch)
                          ⟨hdr, hread, Or.inl htMDAT, hpos, rfl, by omega⟩
                    · rw [scan_step_mdat_disc hpos hread htMDAT hfs hdata hcont hskip] at h
                      exact absurd h (by simp)
              · by_cases htMOOV : hdr.typ = MOOV
                · cases hrd : readData src hdr (pos + hdr.encLen) with
                  | error e =>
                    rw [scan_step_moov_dataerr hpos hread htMOOV hfs hrd] at h
                    exact absurd h (by simp)
                  | ok bv =>
                    obtain ⟨body, p'⟩ := bv
                    cases hpm : parseMoov body with
                    | error e =>
                      rw [scan_step_moov_parseerr hpos hread htMOOV hfs hrd hpm] at h
                      exact absurd h (by simp)
                    | ok cs =>
                      rw [scan_step_moov hpos hread htMOOV hfs hrd hpm] at h
                      obtain ⟨hbody, hp', hble, hplen⟩ := readData_ok hrd
                      obtain ⟨henc, hwfcs, htrak⟩ := parseMoov_sound hpm
                      have hblen : body.length = bodySizeOf src hdr (pos + hdr.encLen) := by
                        rw [hbody, grab_length]
                      have hMR : MAXREAD = 209715200 := rfl
                      have hU32 : U32MAX = 4294967295 := rfl
                      have henclen : (encChildren cs).length = body.length := by rw [henc]
                      refine ih h ?_ (by omega) hf ?_ hd
                      · show stCost _ ≤ p'
                        simp only [stCost, mcost]
                        have hbe : boxEncLen (encChildren cs).length =
                            8 + (encChildren cs).length := by
                          rw [boxEncLen, if_pos (by omega)]
                        have hcst : fcost st.ftyp + dcost st.data ≤ stCost st := by
                          simp only [stCost]
                          omega
                        omega
                      · show MoovInv (some cs)
                        refine ⟨hwfcs, htrak, by omega⟩
                · by_cases hskip : (pos + hdr.encLen) +
                      bodySizeOf src hdr (pos + hdr.encLen) ≤ U64MAX
                  · rw [scan_step_other hpos hread htFREE htFTYP htMDAT htMOOV hfs hskip] at h
                    exact absurd h (by simp)
                  · rw [scan_step_other_skipfail hpos hread htFREE htFTYP htMDAT htMOOV
                      hfs hskip] at h
                    exact absurd h (by simp)

--
-- byte transport for the reconstruction
--

theorem grab_take (src : Source) (pos n m : Nat) :
    (grab src pos n).take m = grab src pos (min m n) := by
  apply List.ext_getElem
  · simp [grab]
  · intro i h1 h2
    rw [List.getElem_take, grab_getElem, grab_getElem]

theorem grab_drop (src : Source) (pos n k : Nat) :
    (grab src pos n).drop k = grab src (pos + k) (n - k) := by
  apply List.ext_getElem
  · simp [grab]
  · intro i h1 h2
    rw [List.getElem_drop, grab_getElem, grab_getElem]
    rw [show pos + k + i = pos + (k + i) from by omega]

theorem decodeHdr_take_of_stable {H rest : List Nat} {hdr : BoxHeader} {m : Nat}
    (hst : ∀ rr, decodeHdr (H ++ rr) = .ok (hdr, H.length)) (hm : H.length ≤ m) :
    decodeHdr ((H ++ rest).take m) = .ok (hdr, H.length) := by
  rw [show m = H.length + (m - H.length) from by omega, List.take_add,
    take_of_len_append rfl, drop_of_len_append rfl]
  exact hst _

theorem readHeader_stable {src : Source} {pos : Nat} {hdr : BoxHeader} {p : Nat}
    (h : readHeader src pos = .ok (hdr, p)) :
    ∀ rr, decodeHdr (grab src pos hdr.encLen ++ rr) = .ok (hdr, hdr.encLen) := by
  intro rr
  cases hd : decodeHdr (grab src pos (min 16 (src.len - pos))) with
  | error e =>
    rw [readHeader, hd] at h
    exact absurd h (by simp [Except.map])
  | ok v =>
    obtain ⟨hdr', c⟩ := v
    rw [readHeader, hd] at h
    simp only [Except.map, Except.ok.injEq, Prod.mk.injEq] at h
    obtain ⟨rfl, rfl⟩ := h
    obtain ⟨hcl, hle, _, hst⟩ := decodeHdr_stable hd
    rw [grab_length] at hle
    have hgr : grab src pos hdr'.encLen =
        (grab src pos (min 16 (src.len - pos))).take c := by
      rw [grab_take, ← hcl, min_eq_left hle]
    rw [hgr, ← hcl]
    exact hst rr

theorem readHeader_at {bytes H rest : List Nat} {hdr : BoxHeader} {pos : Nat}
    (hsplit : bytes.drop pos = H ++ rest)
    (hst : ∀ rr, decodeHdr (H ++ rr) = .ok (hdr, H.length))
    (hfit : pos + H.length ≤ bytes.length) (h16 : H.length ≤ 16) :
    readHeader (listSource bytes) pos = .ok (hdr, pos + H.length) := by
  apply readHeader_of_decode
  have hlen : (listSource bytes).len = bytes.length := rfl
  rw [hlen, listSource_grab (by omega), hsplit]
  exact decodeHdr_take_of_stable hst (by omega)

theorem spanbox_replay {src : Source} {MD T : List Nat} {off L sliceLen p : Nat}
    (hT : T = grab src off sliceLen) (hslice : sliceLen = min L (src.len - off))
    {hdr : BoxHeader}
    (hread1 : readHeader src p = .ok (hdr, p + hdr.encLen))
    (hoff : off ≤ p)
    (hqe : p + hdr.encLen + bodySizeOf src hdr (p + hdr.encLen) ≤ off + L) :
    readHeader (listSource (MD ++ T)) (MD.length + (p - off)) =
      .ok (hdr, MD.length + (p - off) + hdr.encLen) ∧
    bodySizeOf (listSource (MD ++ T)) hdr (MD.length + (p - off) + hdr.encLen) =
      bodySizeOf src hdr (p + hdr.encLen) := by
  obtain ⟨_, hcle, _⟩ := readHeader_encLen hread1
  have h16 : hdr.encLen ≤ 16 := encLen_le_16 hdr
  have h8 : 8 ≤ hdr.encLen := encLen_ge_8 hdr
  have hsl : p + hdr.encLen ≤ src.len := by
    have := min_le_right 16 (src.len - p)
    omega
  have hpe : p + hdr.encLen ≤ off + L := by omega
  have hm0 : hdr.encLen ≤ sliceLen - (p - off) := by omega
  have hTlen : T.length = sliceLen := by rw [hT, grab_length]
  have hsplit : (MD ++ T).drop (MD.length + (p - off)) =
      grab src p hdr.encLen ++ grab src (p + hdr.encLen) (sliceLen - (p - off) - hdr.encLen) := by
    rw [← List.drop_drop, drop_of_len_append rfl, hT, grab_drop,
      show off + (p - off) = p from by omega,
      show sliceLen - (p - off) = hdr.encLen + (sliceLen - (p - off) - hdr.encLen) from by omega,
      grab_append,
      show hdr.encLen + (sliceLen - (p - off) - hdr.encLen) - hdr.encLen =
        sliceLen - (p - off) - hdr.encLen from by omega]
  have hbytes : (MD ++ T).length = MD.length + sliceLen := by
    rw [List.length_append, hTlen]
  have hH : (grab src p hdr.encLen).length = hdr.encLen := grab_length src p hdr.encLen
  constructor
  · have := readHeader_at hsplit
      (by rw [hH]; exact readHeader_stable hread1)
      (by rw [hH, hbytes]; omega) (by rw [hH]; omega)
    rw [hH] at this
    exact this
  · cases hsz : hdr.sz with
    | u32 n => simp [bodySizeOf, hsz]
    | ext n => simp [bodySizeOf, hsz]
    | untilEof =>
      simp only [bodySizeOf, hsz]
      have hlen2 : (listSource (MD ++ T)).len = MD.length + sliceLen := by
        rw [show (listSource (MD ++ T)).len = (MD ++ T).length from rfl, hbytes]
      rw [hlen2]
      have hb1 : bodySizeOf src hdr (p + hdr.encLen) = src.len - (p + hdr.encLen) := by
        simp [bodySizeOf, hsz]
      rw [hb1] at hqe
      omega

--
-- span replay over the reconstruction
--

theorem chain_replay {src : Source} {MD : List Nat} {F : FtypData} {CS₂ : List Child}
    {off L sliceLen : Nat}
    (hslice : sliceLen = min L (src.len - off))
    (hbound : MD.length + L ≤ U64MAX) :
    ∀ {p e : Nat}, Chain src p e → e = off + L → off ≤ p →
      ∀ fuel, MD.length + sliceLen < fuel + (MD.length + (p - off)) →
      scan (listSource (MD ++ grab src off sliceLen)) fuel (MD.length + (p - off))
        ⟨some F, some CS₂, some ⟨MD.length, p - off⟩⟩ =
      .ok ⟨some F, some CS₂, some ⟨MD.length, L⟩⟩ := by
  intro p e hch
  induction hch with
  | nil p0 =>
    intro heq hoff fuel hfuel
    have hple : p0 - off = L := by omega
    rw [hple]
    apply scan_exit
    show ¬MD.length + L < (MD ++ grab src off sliceLen).length
    rw [List.length_append, grab_length]
    omega
  | @cons p1 q e1 hb hc ih =>
    intro heq hoff fuel hfuel
    obtain ⟨hdr, hread1, htyp, hplen, hq, hqle⟩ := hb
    have hqe2 : q ≤ e1 := chain_le hc
    subst heq
    obtain ⟨hrd₂, hbs₂⟩ := spanbox_replay rfl hslice hread1 hoff (by omega)
    have h8 : 8 ≤ hdr.encLen := encLen_ge_8 hdr
    have hppe : p1 < off + L := by omega
    have hpos₂' : p1 - off < sliceLen := by omega
    have hpos₂ : MD.length + (p1 - off) <
        (listSource (MD ++ grab src off sliceLen)).len := by
      show _ < (MD ++ grab src off sliceLen).length
      rw [List.length_append, grab_length]
      omega
    obtain ⟨fuel, rfl⟩ : ∃ k, fuel = k + 1 := ⟨fuel - 1, by omega⟩
    have hskip₂ : (MD.length + (p1 - off) + hdr.encLen) +
        bodySizeOf (listSource (MD ++ grab src off sliceLen)) hdr
          (MD.length + (p1 - off) + hdr.encLen) ≤ U64MAX := by
      rw [hbs₂]
      omega
    have hq1 : MD.length + (p1 - off) + hdr.encLen +
        bodySizeOf src hdr (p1 + hdr.encLen) = MD.length + (q - off) := by omega
    have hq2 : (p1 - off) + (bodySizeOf src hdr (p1 + hdr.encLen) + hdr.encLen) =
        q - off := by omega
    rcases htyp with hmd | hfr
    · rw [@scan_step_mdat_ext (listSource (MD ++ grab src off sliceLen)) fuel
        (MD.length + (p1 - off)) ⟨some F, some CS₂, some ⟨MD.length, p1 - off⟩⟩ hdr
        (MD.length + (p1 - off) + hdr.encLen) ⟨MD.length, p1 - off⟩
        hpos₂ hrd₂ hmd rfl rfl rfl hskip₂, hbs₂, hq1, hq2]
      exact ih rfl (by omega) fuel (by omega)
    · rw [@scan_step_free_absorb (listSource (MD ++ grab src off sliceLen)) fuel
        (MD.length + (p1 - off)) ⟨some F, some CS₂, some ⟨MD.length, p1 - off⟩⟩ hdr
        (MD.length + (p1 - off) + hdr.encLen) ⟨MD.length, p1 - off⟩
        hpos₂ hrd₂ hfr rfl rfl hskip₂, hbs₂, hq1, hq2]
      exact ih rfl (by omega) fuel (by omega)

theorem mspan_replay {src : Source} {MD : List Nat} {F : FtypData} {CS₂ : List Child}
    {sliceLen : Nat} {d : InputSpan}
    (hms : MSpan src d)
    (hslice : sliceLen = min d.len (src.len - d.offset))
    (hbound : MD.length + d.len ≤ U64MAX) :
    ∀ fuel, MD.length + sliceLen < fuel + MD.length →
      scan (listSource (MD ++ grab src d.offset sliceLen)) fuel MD.length
        ⟨some F, some CS₂, none⟩ =
      .ok ⟨some F, some CS₂, some ⟨MD.length, d.len⟩⟩ := by
  intro fuel hfuel
  obtain ⟨q0, ⟨hdr, hread1, hmd, hplen, hq, hqle⟩, hch⟩ := hms
  have hqe : q0 ≤ d.offset + d.len := chain_le hch
  obtain ⟨hrd₂, hbs₂⟩ := spanbox_replay rfl hslice hread1 (le_refl _) (by omega)
  have hz : d.offset - d.offset = 0 := Nat.sub_self _
  rw [hz, Nat.add_zero] at hrd₂ hbs₂
  have h8 : 8 ≤ hdr.encLen := encLen_ge_8 hdr
  obtain ⟨_, hcle, _⟩ := readHeader_encLen hread1
  have hmin16 := min_le_right 16 (src.len - d.offset)
  have hs0 : 0 < sliceLen := by omega
  have hpos₂ : MD.length < (listSource (MD ++ grab src d.offset sliceLen)).len := by
    show _ < (MD ++ grab src d.offset sliceLen).length
    rw [List.length_append, grab_length]
    omega
  obtain ⟨fuel, rfl⟩ : ∃ k, fuel = k + 1 := ⟨fuel - 1, by omega⟩
  have hskip₂ : (MD.length + hdr.encLen) +
      bodySizeOf (listSource (MD ++ grab src d.offset sliceLen)) hdr
        (MD.length + hdr.encLen) ≤ U64MAX := by
    rw [hbs₂]
    omega
  rw [@scan_step_mdat_new (listSource (MD ++ grab src d.offset sliceLen)) fuel
    MD.length ⟨some F, some CS₂, none⟩ hdr (MD.length + hdr.encLen)
    hpos₂ hrd₂ hmd rfl rfl hskip₂, hbs₂]
  have hq1 : MD.length + hdr.encLen + bodySizeOf src hdr (d.offset + hdr.encLen) =
      MD.length + (q0 - d.offset) := by omega
  have hq2 : bodySizeOf src hdr (d.offset + hdr.encLen) + hdr.encLen =
      q0 - d.offset := by omega
  rw [hq1, hq2]
  exact chain_replay hslice hbound hch rfl (by omega) fuel (by omega)

--
-- metadata replay over the reconstruction
--

theorem parseFtyp_complete {F : FtypData} (hmj : F.major.length = 4)
    (hmn : F.minor.length = 4) : parseFtyp (fbodyOf F) = .ok F := by
  have hlen : (fbodyOf F).length = 8 + F.brands.length := by
    show (F.major ++ F.minor ++ F.brands).length = _
    simp [hmj, hmn]
    omega
  rw [parseFtyp, if_neg (by omega)]
  have h1 : (fbodyOf F).take 4 = F.major := by
    show ((F.major ++ F.minor) ++ F.brands).take 4 = F.major
    rw [List.append_assoc, ← hmj, take_of_len_append rfl]
  have hdrop4 : (fbodyOf F).drop 4 = F.minor ++ F.brands := by
    show ((F.major ++ F.minor) ++ F.brands).drop 4 = F.minor ++ F.brands
    rw [List.append_assoc, ← hmj, drop_of_len_append rfl]
  have h2 : ((fbodyOf F).drop 4).take 4 = F.minor := by
    rw [hdrop4, ← hmn, take_of_len_append rfl]
  have h3 : (fbodyOf F).drop 8 = F.brands := by
    show ((F.major ++ F.minor) ++ F.brands).drop 8 = F.brands
    exact drop_of_len_append (by simp [hmj, hmn])
  rw [h1, h2, h3]

theorem metadata_replay {src : Source} {fb MB PAD : List Nat} {F : FtypData}
    {CS₂ : List Child} {sliceLen : Nat} {d : InputSpan}
    (hfb : fbodyOf F = fb) (hmj : F.major.length = 4) (hmn : F.minor.length = 4)
    (hfble : fb.length ≤ MAXREAD) (hmble : MB.length ≤ MAXREAD)
    (hpm : parseMoov MB = .ok CS₂)
    (hpad : PAD = [] ∨ ∃ s, 8 ≤ s ∧ s ≤ MAXPAD ∧ PAD = padBytes s)
    (hms : MSpan src d)
    (hslice : sliceLen = min d.len (src.len - d.offset))
    (hbound : (mkBox FTYP fb ++ mkBox MOOV MB ++ PAD).length + d.len ≤ U64MAX) :
    ∀ fuel, (listSource ((mkBox FTYP fb ++ mkBox MOOV MB ++ PAD) ++
        grab src d.offset sliceLen)).len < fuel →
      scan (listSource ((mkBox FTYP fb ++ mkBox MOOV MB ++ PAD) ++
          grab src d.offset sliceLen)) fuel 0 ⟨none, none, none⟩ =
        .ok ⟨some F, some CS₂,
          some ⟨(mkBox FTYP fb ++ mkBox MOOV MB ++ PAD).length, d.len⟩⟩ := by
  intro fuel hfuel
  have hMR : MAXREAD = 209715200 := rfl
  have hU32 : U32MAX = 4294967295 := rfl
  have hMP : MAXPAD = 4294967287 := rfl
  have hU64 : U64MAX = 18446744073709551615 := rfl
  have hf' : fb.length + 8 ≤ U32MAX := by omega
  have hm' : MB.length + 8 ≤ U32MAX := by omega
  have hpadlen : PAD.length = 0 ∨ (8 ≤ PAD.length ∧ PAD.length ≤ MAXPAD) := by
    rcases hpad with rfl | ⟨s, h8s, hsm, rfl⟩
    · exact Or.inl rfl
    · right
      rw [padBytes_length h8s]
      exact ⟨h8s, hsm⟩
  have hMD : mkBox FTYP fb ++ mkBox MOOV MB ++ PAD =
      (enc32 (fb.length + 8) ++ enc32 FTYP) ++
        (fb ++ ((enc32 (MB.length + 8) ++ enc32 MOOV) ++ (MB ++ PAD))) := by
    rw [mkBox, mkBox, boxHdrBytes, boxHdrBytes, if_pos hf', if_pos hm']
    simp [List.append_assoc]
  have hMDlen : (mkBox FTYP fb ++ mkBox MOOV MB ++ PAD).length =
      8 + fb.length + (8 + (MB.length + PAD.length)) := by
    rw [hMD]
    simp [enc32]
    omega
  have hTlen : (grab src d.offset sliceLen).length = sliceLen := grab_length _ _ _
  have hlen₂ : (listSource ((mkBox FTYP fb ++ mkBox MOOV MB ++ PAD) ++
      grab src d.offset sliceLen)).len =
      (mkBox FTYP fb ++ mkBox MOOV MB ++ PAD).length + sliceLen := by
    show ((mkBox FTYP fb ++ mkBox MOOV MB ++ PAD) ++ grab src d.offset sliceLen).length = _
    rw [List.length_append, hTlen]
  -- span facts
  obtain ⟨q0, ⟨hdr0, hread0, _, hplen0, hq0, hqle0⟩, hch0⟩ := id hms
  obtain ⟨_, hcle0, _⟩ := readHeader_encLen hread0
  have hmin16 := min_le_right 16 (src.len - d.offset)
  have h80 : 8 ≤ hdr0.encLen := encLen_ge_8 hdr0
  have hqe0 : q0 ≤ d.offset + d.len := chain_le hch0
  have hs8 : 8 ≤ sliceLen := by omega
  -- full byte list, right-associated
  have hbytes : (mkBox FTYP fb ++ mkBox MOOV MB ++ PAD) ++ grab src d.offset sliceLen =
      (enc32 (fb.length + 8) ++ enc32 FTYP) ++
        (fb ++ ((enc32 (MB.length + 8) ++ enc32 MOOV) ++
          (MB ++ (PAD ++ grab src d.offset sliceLen)))) := by
    rw [hMD]
    simp [List.append_assoc]
  -- drops
  have hd8 : ((mkBox FTYP fb ++ mkBox MOOV MB ++ PAD) ++
      grab src d.offset sliceLen).drop 8 =
      fb ++ ((enc32 (MB.length + 8) ++ enc32 MOOV) ++
        (MB ++ (PAD ++ grab src d.offset sliceLen))) := by
    rw [hbytes]
    exact drop_of_len_append rfl
  have hdA1 : ((mkBox FTYP fb ++ mkBox MOOV MB ++ PAD) ++
      grab src d.offset sliceLen).drop (8 + fb.length) =
      (enc32 (MB.length + 8) ++ enc32 MOOV) ++
        (MB ++ (PAD ++ grab src d.offset sliceLen)) := by
    rw [← List.drop_drop, hd8]
    exact drop_of_len_append rfl
  -- step 1: ftyp
  have hpos0 : (0 : Nat) < (listSource ((mkBox FTYP fb ++ mkBox MOOV MB ++ PAD) ++
      grab src d.offset sliceLen)).len := by
    rw [hlen₂]
    omega
  have hread1 : readHeader (listSource ((mkBox FTYP fb ++ mkBox MOOV MB ++ PAD) ++
      grab src d.offset sliceLen)) 0 = .ok (⟨.u32 (fb.length + 8), FTYP⟩, 8) := by
    have hsplit0 : ((mkBox FTYP fb ++ mkBox MOOV MB ++ PAD) ++
        grab src d.offset sliceLen).drop 0 =
        (enc32 (fb.length + 8) ++ enc32 FTYP) ++
          (fb ++ ((enc32 (MB.length + 8) ++ enc32 MOOV) ++
            (MB ++ (PAD ++ grab src d.offset sliceLen)))) := by
      rw [List.drop_zero]
      exact hbytes
    have h := readHeader_at hsplit0
      (fun rr => by
        rw [List.append_assoc]
        exact decodeHdr_u32 rr (by omega) (by omega) (by decide))
      (by
        rw [show ((enc32 (fb.length + 8) ++ enc32 FTYP)).length = 8 from rfl,
          List.length_append, hMDlen, hTlen]
        omega)
      (by rw [show ((enc32 (fb.length + 8) ++ enc32 FTYP)).length = 8 from rfl]; omega)
    simpa using h
  have hrd1 : readData (listSource ((mkBox FTYP fb ++ mkBox MOOV MB ++ PAD) ++
      grab src d.offset sliceLen)) ⟨.u32 (fb.length + 8), FTYP⟩ 8 =
      .ok (fb, 8 + fb.length) := by
    have hb : bodySizeOf (listSource ((mkBox FTYP fb ++ mkBox MOOV MB ++ PAD) ++
        grab src d.offset sliceLen)) ⟨.u32 (fb.length + 8), FTYP⟩ 8 = fb.length := by
      show (fb.length + 8) - 8 = fb.length
      omega
    have h := readData_listSource_pre hb (by omega) (by rw [hMDlen]; omega)
    rw [h]
    have hdropA : (mkBox FTYP fb ++ mkBox MOOV MB ++ PAD).drop 8 =
        fb ++ ((enc32 (MB.length + 8) ++ enc32 MOOV) ++ (MB ++ PAD)) := by
      rw [hMD]
      exact drop_of_len_append rfl
    have hdrop : ((mkBox FTYP fb ++ mkBox MOOV MB ++ PAD).drop 8).take fb.length = fb := by
      rw [hdropA, take_of_len_append rfl]
    rw [hdrop]
  have hpf1 : parseFtyp fb = .ok F := by
    rw [← hfb]
    exact parseFtyp_complete hmj hmn
  obtain ⟨fuel, rfl⟩ : ∃ k, fuel = k + 1 := ⟨fuel - 1, by omega⟩
  rw [scan_step_ftyp hpos0 hread1 rfl rfl hrd1 hpf1,
    show ({ (⟨none, none, none⟩ : ScanState) with ftyp := some F } : ScanState) =
      ⟨some F, none, none⟩ from rfl]
  -- step 2: moov
  have hpos1 : 8 + fb.length < (listSource ((mkBox FTYP fb ++ mkBox MOOV MB ++ PAD) ++
      grab src d.offset sliceLen)).len := by
    rw [hlen₂, hMDlen]
    omega
  have hread2 : readHeader (listSource ((mkBox FTYP fb ++ mkBox MOOV MB ++ PAD) ++
      grab src d.offset sliceLen)) (8 + fb.length) =
      .ok (⟨.u32 (MB.length + 8), MOOV⟩, 8 + fb.length + 8) :=
    readHeader_at hdA1
      (fun rr => by
        rw [List.append_assoc]
        exact decodeHdr_u32 rr (by omega) (by omega) (by decide))
      (by
        rw [show ((enc32 (MB.length + 8) ++ enc32 MOOV)).length = 8 from rfl,
          List.length_append, hMDlen, hTlen]
        omega)
      (by rw [show ((enc32 (MB.length + 8) ++ enc32 MOOV)).length = 8 from rfl]; omega)
  have hrd2 : readData (listSource ((mkBox FTYP fb ++ mkBox MOOV MB ++ PAD) ++
      grab src d.offset sliceLen)) ⟨.u32 (MB.length + 8), MOOV⟩ (8 + fb.length + 8) =
      .ok (MB, 8 + fb.length + 8 + MB.length) := by
    have hb : bodySizeOf (listSource ((mkBox FTYP fb ++ mkBox MOOV MB ++ PAD) ++
        grab src d.offset sliceLen)) ⟨.u32 (MB.length + 8), MOOV⟩ (8 + fb.length + 8) =
        MB.length := by
      show (MB.length + 8) - 8 = MB.length
      omega
    have h := readData_listSource_pre hb (by omega) (by rw [hMDlen]; omega)
    rw [h]
    have hdropA : (mkBox FTYP fb ++ mkBox MOOV MB ++ PAD).drop 8 =
        fb ++ ((enc32 (MB.length + 8) ++ enc32 MOOV) ++ (MB ++ PAD)) := by
      rw [hMD]
      exact drop_of_len_append rfl
    have hstep1 : (mkBox FTYP fb ++ mkBox MOOV MB ++ PAD).drop (8 + fb.length) =
        (enc32 (MB.length + 8) ++ enc32 MOOV) ++ (MB ++ PAD) := by
      rw [← List.drop_drop, hdropA]
      exact drop_of_len_append rfl
    have hstep2 : (mkBox FTYP fb ++ mkBox MOOV MB ++ PAD).drop (8 + fb.length + 8) =
        MB ++ PAD := by
      rw [← List.drop_drop, hstep1]
      exact drop_of_len_append rfl
    have hdrop : ((mkBox FTYP fb ++ mkBox MOOV MB ++ PAD).drop (8 + fb.length + 8)).take
        MB.length = MB := by
      rw [hstep2, take_of_len_append rfl]
    rw [hdrop]
  obtain ⟨fuel, rfl⟩ : ∃ k, fuel = k + 1 := ⟨fuel - 1, by rw [hlen₂, hMDlen] at hfuel; omega⟩
  rw [@scan_step_moov (listSource ((mkBox FTYP fb ++ mkBox MOOV MB ++ PAD) ++
      grab src d.offset sliceLen)) fuel (8 + fb.length) ⟨some F, none, none⟩
      ⟨.u32 (MB.length + 8), MOOV⟩ (8 + fb.length + 8) (8 + fb.length + 8 + MB.length)
      MB CS₂ hpos1 hread2 rfl rfl hrd2 hpm,
    show ({ (⟨some F, none, none⟩ : ScanState) with moov := some CS₂ } : ScanState) =
      ⟨some F, some CS₂, none⟩ from rfl]
  -- step 3: optional padding, then the span
  rcases hpad with rfl | ⟨s, h8s, hsm, rfl⟩
  · -- no padding: position is already the metadata length
    have hplen2 : (mkBox FTYP fb ++ mkBox MOOV MB ++ ([] : List Nat)).length =
        8 + fb.length + 8 + MB.length := by
      rw [hMDlen]
      simp only [List.length_nil]
      omega
    have h := @mspan_replay src (mkBox FTYP fb ++ mkBox MOOV MB ++ ([] : List Nat))
      F CS₂ sliceLen d hms hslice (by omega) fuel
      (by
        rw [hlen₂, hMDlen] at hfuel
        simp only [List.length_nil] at hfuel
        rw [hplen2]
        omega)
    rw [hplen2] at h
    rw [hplen2]
    exact h
  · -- padding: one free box is skipped
    have hpos2 : 8 + fb.length + 8 + MB.length <
        (listSource ((mkBox FTYP fb ++ mkBox MOOV MB ++ padBytes s) ++
          grab src d.offset sliceLen)).len := by
      rw [hlen₂, hMDlen, padBytes_length h8s]
      omega
    have hdA2 : ((mkBox FTYP fb ++ mkBox MOOV MB ++ padBytes s) ++
        grab src d.offset sliceLen).drop (8 + fb.length + 8 + MB.length) =
        (enc32 s ++ enc32 FREE) ++
          (List.replicate (s - 8) 0 ++ grab src d.offset sliceLen) := by
      have hstep1 : ((mkBox FTYP fb ++ mkBox MOOV MB ++ padBytes s) ++
          grab src d.offset sliceLen).drop (8 + fb.length + 8) =
          MB ++ (padBytes s ++ grab src d.offset sliceLen) := by
        rw [← List.drop_drop, hdA1]
        exact drop_of_len_append rfl
      rw [← List.drop_drop, hstep1, drop_of_len_append rfl, padBytes, List.append_assoc,
        List.append_assoc]
    have hread3 : readHeader (listSource ((mkBox FTYP fb ++ mkBox MOOV MB ++ padBytes s) ++
        grab src d.offset sliceLen)) (8 + fb.length + 8 + MB.length) =
        .ok (⟨.u32 s, FREE⟩, 8 + fb.length + 8 + MB.length + 8) :=
      readHeader_at hdA2
        (fun rr => by
          rw [List.append_assoc]
          exact decodeHdr_u32 rr h8s (by omega) (by decide))
        (by
          rw [show ((enc32 s ++ enc32 FREE)).length = 8 from rfl,
            List.length_append, hMDlen, hTlen, padBytes_length h8s]
          omega)
        (by rw [show ((enc32 s ++ enc32 FREE)).length = 8 from rfl]; omega)
    have hbs3 : bodySizeOf (listSource ((mkBox FTYP fb ++ mkBox MOOV MB ++ padBytes s) ++
        grab src d.offset sliceLen)) ⟨.u32 s, FREE⟩
        (8 + fb.length + 8 + MB.length + 8) = s - 8 := by
      show s - 8 = s - 8
      rfl
    have hskip3 : 8 + fb.length + 8 + MB.length + 8 +
        bodySizeOf (listSource ((mkBox FTYP fb ++ mkBox MOOV MB ++ padBytes s) ++
          grab src d.offset sliceLen)) ⟨.u32 s, FREE⟩
          (8 + fb.length + 8 + MB.length + 8) ≤ U64MAX := by
      rw [hbs3]
      rw [hMDlen, padBytes_length h8s] at hbound
      omega
    obtain ⟨fuel, rfl⟩ : ∃ k, fuel = k + 1 :=
      ⟨fuel - 1, by rw [hlen₂, hMDlen, padBytes_length h8s] at hfuel; omega⟩
    rw [@scan_step_free_none (listSource ((mkBox FTYP fb ++ mkBox MOOV MB ++ padBytes s) ++
        grab src d.offset sliceLen)) fuel (8 + fb.length + 8 + MB.length)
        ⟨some F, some CS₂, none⟩ ⟨.u32 s, FREE⟩ (8 + fb.length + 8 + MB.length + 8)
        hpos2 hread3 rfl rfl hskip3, hbs3]
    have hplen2 : (mkBox FTYP fb ++ mkBox MOOV MB ++ padBytes s).length =
        8 + fb.length + 8 + MB.length + 8 + (s - 8) := by
      rw [hMDlen, padBytes_length h8s]
      omega
    have h := @mspan_replay src (mkBox FTYP fb ++ mkBox MOOV MB ++ padBytes s)
      F CS₂ sliceLen d hms hslice (by omega) fuel
      (by
        rw [hlen₂, hMDlen, padBytes_length h8s] at hfuel
        rw [hplen2]
        omega)
    rw [hplen2] at h
    rw [hplen2]
    exact h

theorem finalize_some {F : FtypData} {cs : List Child} {d : InputSpan}
    (hiso : hasIsom F = true) :
    finalize ⟨some F, some cs, some d⟩ = plan F cs d := by
  simp only [finalize]
  rw [if_neg (not_not_intro hiso)]

theorem sanitize_extract {src : Source} {r : SanitizedMetadata}
    (hlen : src.len ≤ U64MAX) (h : sanitize src = .ok r) :
    ∃ F cs span, hasIsom F = true ∧
      F.major.length = 4 ∧ F.minor.length = 4 ∧ (fbodyOf F).length ≤ MAXREAD ∧
      ChildrenWF cs ∧ (cs.any fun c => c.hdr.typ = TRAK) = true ∧
      (encChildren cs).length ≤ MAXREAD ∧
      MSpan src span ∧ metadataLenOf F cs + span.len ≤ U64MAX ∧
      plan F cs span = .ok r := by
  unfold sanitize at h
  cases hscan : scan src (src.len + 1) 0 ⟨none, none, none⟩ with
  | error e =>
    rw [hscan, exbind_error] at h
    exact absurd h (by simp)
  | ok st =>
    rw [hscan, exbind_ok] at h
    obtain ⟨hcost, hfi, hmi, hdi⟩ :=
      scan_extract hlen (src.len + 1) hscan (by decide) (Nat.zero_le _)
        trivial trivial trivial
    cases hft : st.ftyp with
    | none =>
      simp only [finalize, hft] at h
      exact absurd h (by simp)
    | some F =>
      simp only [finalize, hft] at h
      by_cases hiso : hasIsom F = true
      · rw [if_neg (not_not_intro hiso)] at h
        cases hmv : st.moov with
        | none =>
          simp only [hmv] at h
          exact absurd h (by simp)
        | some cs =>
          simp only [hmv] at h
          cases hdt : st.data with
          | none =>
            simp only [hdt] at h
            exact absurd h (by simp)
          | some span =>
            simp only [hdt] at h
            rw [hft] at hfi
            rw [hmv] at hmi
            rw [hdt] at hdi
            simp only [FtypInv] at hfi
            simp only [MoovInv] at hmi
            simp only [DataInv] at hdi
            simp only [stCost, hft, hmv, hdt, fcost, mcost, dcost] at hcost
            rw [metadataLenOf_eq] at hcost
            exact ⟨F, cs, span, hiso, hfi.1, hfi.2.1, hfi.2.2, hmi.1, hmi.2.1, hmi.2.2,
              hdi, hcost, h⟩
      · rw [if_pos hiso] at h
        exact absurd h (by simp)

theorem sanitize_of_replay {src : Source} {MD fb MB PAD : List Nat} {F : FtypData}
    {CS₂ : List Child} {d : InputSpan}
    (hMDdef : MD = mkBox FTYP fb ++ mkBox MOOV MB ++ PAD)
    (hfb : fbodyOf F = fb) (hmj : F.major.length = 4) (hmn : F.minor.length = 4)
    (hfble : fb.length ≤ MAXREAD) (hmble : MB.length ≤ MAXREAD)
    (hpm : parseMoov MB = .ok CS₂)
    (hpad : PAD = [] ∨ ∃ s, 8 ≤ s ∧ s ≤ MAXPAD ∧ PAD = padBytes s)
    (hms : MSpan src d)
    (hbound : MD.length + d.len ≤ U64MAX)
    (hiso : hasIsom F = true)
    (hplan₂ : plan F CS₂ ⟨MD.length, d.len⟩ = .ok ⟨MD, ⟨MD.length, d.len⟩⟩) :
    sanitize (reconstruct src ⟨MD, d⟩) = .ok ⟨MD, ⟨MD.length, d.len⟩⟩ := by
  subst hMDdef
  have hrep := metadata_replay hfb hmj hmn hfble hmble hpm hpad hms rfl hbound
  show sanitize (listSource ((mkBox FTYP fb ++ mkBox MOOV MB ++ PAD) ++
    grab src d.offset (min d.len (src.len - d.offset)))) = _
  unfold sanitize
  rw [hrep ((listSource ((mkBox FTYP fb ++ mkBox MOOV MB ++ PAD) ++
      grab src d.offset (min d.len (src.len - d.offset)))).len + 1) (by omega),
    exbind_ok, finalize_some hiso]
  exact hplan₂

/-- C1: round-trip stability of the sanitizer. For every input stream on
which `sanitize` succeeds with result `r` (the stream length being
representable, i.e. at most `u64::MAX`), sanitizing the reconstruction
`concat(r.metadata, input[r.data])` succeeds as well and returns metadata
byte-for-byte equal to `r.metadata`, with the payload span now sitting
immediately after the metadata (src/mp4san/src/lib.rs lines 98-258). -/
theorem sanitize_roundtrip {src : Source} {r : SanitizedMetadata}
    (hlen : src.len ≤ U64MAX) (h : sanitize src = .ok r) :
    sanitize (reconstruct src r) = .ok ⟨r.metadata, ⟨r.metadata.length, r.data.len⟩⟩ := by
  obtain ⟨F, cs, span, hiso, hmj, hmn, hfl, hwf, htrak, hml, hms, hcost, hplan⟩ :=
    sanitize_extract hlen h
  have hAB : (mkBox FTYP (fbodyOf F) ++ mkBox MOOV (encChildren cs)).length =
      metadataLenOf F cs := by
    rw [List.length_append, mkBox_length, mkBox_length, metadataLenOf_eq]
  by_cases hle : metadataLenOf F cs ≤ span.offset
  · by_cases hz : span.offset - metadataLenOf F cs = 0
    · -- no-padding branch: the metadata already ends exactly at the payload
      rw [plan_eq_zero (by omega)] at hplan
      simp only [Except.ok.injEq] at hplan
      subst hplan
      exact sanitize_of_replay (List.append_nil _).symm rfl hmj hmn hfl hml
        (parseMoov_complete hwf htrak) (Or.inl rfl) hms
        (by rw [hAB]; exact hcost) hiso
        (@plan_eq_zero F cs
          ⟨(mkBox FTYP (fbodyOf F) ++ mkBox MOOV (encChildren cs)).length, span.len⟩ hAB)
    · by_cases hpd : 8 ≤ span.offset - metadataLenOf F cs ∧
          span.offset - metadataLenOf F cs ≤ MAXPAD
      · -- padding branch: a free box fills the gap up to the payload offset
        rw [plan_eq_pad hle hpd.1 hpd.2] at hplan
        simp only [Except.ok.injEq] at hplan
        subst hplan
        have hMDlen : (mkBox FTYP (fbodyOf F) ++ mkBox MOOV (encChildren cs) ++
            padBytes (span.offset - metadataLenOf F cs)).length = span.offset := by
          rw [List.length_append, hAB, padBytes_length hpd.1]
          omega
        refine sanitize_of_replay rfl rfl hmj hmn hfl hml
          (parseMoov_complete hwf htrak)
          (Or.inr ⟨span.offset - metadataLenOf F cs, hpd.1, hpd.2, rfl⟩) hms
          (by rw [hMDlen]; exact mspan_end_le hms) hiso ?_
        have hle2 : metadataLenOf F cs ≤ (mkBox FTYP (fbodyOf F) ++
            mkBox MOOV (encChildren cs) ++
            padBytes (span.offset - metadataLenOf F cs)).length := by
          rw [hMDlen]
          exact hle
        have h82 : 8 ≤ (mkBox FTYP (fbodyOf F) ++ mkBox MOOV (encChildren cs) ++
            padBytes (span.offset - metadataLenOf F cs)).length - metadataLenOf F cs := by
          rw [hMDlen]
          exact hpd.1
        have hmx2 : (mkBox FTYP (fbodyOf F) ++ mkBox MOOV (encChildren cs) ++
            padBytes (span.offset - metadataLenOf F cs)).length -
            metadataLenOf F cs ≤ MAXPAD := by
          rw [hMDlen]
          exact hpd.2
        have h2 := @plan_eq_pad F cs
          ⟨(mkBox FTYP (fbodyOf F) ++ mkBox MOOV (encChildren cs) ++
            padBytes (span.offset - metadataLenOf F cs)).length, span.len⟩
          hle2 h82 hmx2
        have harg : (⟨(mkBox FTYP (fbodyOf F) ++ mkBox MOOV (encChildren cs) ++
            padBytes (span.offset - metadataLenOf F cs)).length, span.len⟩ :
            InputSpan).offset - metadataLenOf F cs =
            span.offset - metadataLenOf F cs := by
          show (mkBox FTYP (fbodyOf F) ++ mkBox MOOV (encChildren cs) ++
            padBytes (span.offset - metadataLenOf F cs)).length -
            metadataLenOf F cs = _
          rw [hMDlen]
        rw [harg] at h2
        exact h2
      · -- backward-displacement branch: chunk offsets are rewritten downward
        rw [plan_eq_back hle hz hpd] at hplan
        by_cases hfit : span.offset - metadataLenOf F cs ≤ 2147483647
        · rw [if_pos hfit] at hplan
          cases hrw : rewriteMoov (-((span.offset - metadataLenOf F cs : Nat) : Int)) cs with
          | error e0 =>
            rw [hrw] at hplan
            exact absurd hplan (by simp [Except.bind])
          | ok cs' =>
            rw [hrw] at hplan
            have hok2 : (.ok ⟨mkBox FTYP (fbodyOf F) ++
                boxHdrBytes MOOV (encChildren cs).length ++ encChildren cs', span⟩ :
                Except Err SanitizedMetadata) = .ok r := hplan
            simp only [Except.ok.injEq] at hok2
            subst hok2
            have hsh := rewriteMoov_shape hrw
            have hlen' : (encChildren cs').length = (encChildren cs).length :=
              encChildren_length_of_shape hsh
            have hwf' := childrenWF_of_shape hsh hwf
            have htrak' : (cs'.any fun c => c.hdr.typ = TRAK) = true := by
              rw [any_typ_of_shape TRAK hsh]
              exact htrak
            have hMDdef : mkBox FTYP (fbodyOf F) ++
                boxHdrBytes MOOV (encChildren cs).length ++ encChildren cs' =
                mkBox FTYP (fbodyOf F) ++ mkBox MOOV (encChildren cs') ++ [] := by
              rw [List.append_nil]
              show (mkBox FTYP (fbodyOf F) ++ boxHdrBytes MOOV (encChildren cs).length) ++
                  encChildren cs' =
                mkBox FTYP (fbodyOf F) ++
                  (boxHdrBytes MOOV (encChildren cs').length ++ encChildren cs')
              rw [hlen', List.append_assoc]
            have hml' : metadataLenOf F cs' = metadataLenOf F cs := by
              rw [← metadataLenOf_eq F cs', ← metadataLenOf_eq F cs, hlen']
            have hMDlen : (mkBox FTYP (fbodyOf F) ++
                boxHdrBytes MOOV (encChildren cs).length ++ encChildren cs').length =
                metadataLenOf F cs := by
              rw [hMDdef, List.append_nil, List.length_append, mkBox_length, mkBox_length,
                metadataLenOf_eq, hml']
            refine sanitize_of_replay hMDdef rfl hmj hmn hfl
              (by rw [hlen']; exact hml)
              (parseMoov_complete hwf' htrak') (Or.inl rfl) hms
              (by rw [hMDlen]; exact hcost) hiso ?_
            have hMDlen' : (mkBox FTYP (fbodyOf F) ++
                boxHdrBytes MOOV (encChildren cs).length ++ encChildren cs').length =
                metadataLenOf F cs' := by
              rw [hMDlen, hml']
            have h2 := @plan_eq_zero F cs'
              ⟨(mkBox FTYP (fbodyOf F) ++ boxHdrBytes MOOV (encChildren cs).length ++
                encChildren cs').length, span.len⟩ hMDlen'
            have hback : mkBox FTYP (fbodyOf F) ++ mkBox MOOV (encChildren cs') =
                mkBox FTYP (fbodyOf F) ++
                  boxHdrBytes MOOV (encChildren cs).length ++ encChildren cs' := by
              rw [hMDdef, List.append_nil]
            rw [hback] at h2
            exact h2
        · rw [if_neg hfit] at hplan
          exact absurd hplan (by simp)
  · -- forward-displacement branch: chunk offsets are rewritten upward
    rw [plan_eq_fwd (by omega)] at hplan
    by_cases hfit : metadataLenOf F cs - span.offset ≤ 2147483647
    · rw [if_pos hfit] at hplan
      cases hrw : rewriteMoov ((metadataLenOf F cs - span.offset : Nat) : Int) cs with
      | error e0 =>
        rw [hrw] at hplan
        exact absurd hplan (by simp [Except.bind])
      | ok cs' =>
        rw [hrw] at hplan
        have hok2 : (.ok ⟨mkBox FTYP (fbodyOf F) ++
            boxHdrBytes MOOV (encChildren cs).length ++ encChildren cs', span⟩ :
            Except Err SanitizedMetadata) = .ok r := hplan
        simp only [Except.ok.injEq] at hok2
        subst hok2
        have hsh := rewriteMoov_shape hrw
        have hlen' : (encChildren cs').length = (encChildren cs).length :=
          encChildren_length_of_shape hsh
        have hwf' := childrenWF_of_shape hsh hwf
        have htrak' : (cs'.any fun c => c.hdr.typ = TRAK) = true := by
          rw [any_typ_of_shape TRAK hsh]
          exact htrak
        have hMDdef : mkBox FTYP (fbodyOf F) ++
            boxHdrBytes MOOV (encChildren cs).length ++ encChildren cs' =
            mkBox FTYP (fbodyOf F) ++ mkBox MOOV (encChildren cs') ++ [] := by
          rw [List.append_nil]
          show (mkBox FTYP (fbodyOf F) ++ boxHdrBytes MOOV (encChildren cs).length) ++
              encChildren cs' =
            mkBox FTYP (fbodyOf F) ++
              (boxHdrBytes MOOV (encChildren cs').length ++ encChildren cs')
          rw [hlen', List.append_assoc]
        have hml' : metadataLenOf F cs' = metadataLenOf F cs := by
          rw [← metadataLenOf_eq F cs', ← metadataLenOf_eq F cs, hlen']
        have hMDlen : (mkBox FTYP (fbodyOf F) ++
            boxHdrBytes MOOV (encChildren cs).length ++ encChildren cs').length =
            metadataLenOf F cs := by
          rw [hMDdef, List.append_nil, List.length_append, mkBox_length, mkBox_length,
            metadataLenOf_eq, hml']
        refine sanitize_of_replay hMDdef rfl hmj hmn hfl
          (by rw [hlen']; exact hml)
          (parseMoov_complete hwf' htrak') (Or.inl rfl) hms
          (by rw [hMDlen]; exact hcost) hiso ?_
        have hMDlen' : (mkBox FTYP (fbodyOf F) ++
            boxHdrBytes MOOV (encChildren cs).length ++ encChildren cs').length =
            metadataLenOf F cs' := by
          rw [hMDlen, hml']
        have h2 := @plan_eq_zero F cs'
          ⟨(mkBox FTYP (fbodyOf F) ++ boxHdrBytes MOOV (encChildren cs).length ++
            encChildren cs').length, span.len⟩ hMDlen'
        have hback : mkBox FTYP (fbodyOf F) ++ mkBox MOOV (encChildren cs') =
            mkBox FTYP (fbodyOf F) ++
              boxHdrBytes MOOV (encChildren cs).length ++ encChildren cs' := by
          rw [hMDdef, List.append_nil]
        rw [hback] at h2
        exact h2
    · rw [if_neg hfit] at hplan
      exact absurd hplan (by simp)

/-- Witness for `sanitize_roundtrip`: the concrete 84-byte
`ftyp`/`moov`/`mdat` stream sanitizes to metadata `preW []` with payload
span at offset 76, and sanitizing its reconstruction succeeds with the same
metadata. -/
theorem sanitize_roundtrip_witness :
    sanitize (reconstruct (listSource tail84) ⟨preW [], ⟨76, 8⟩⟩) =
      .ok ⟨preW [], ⟨(preW []).length, 8⟩⟩ :=
  sanitize_roundtrip (by decide) (by decide)

end Mp4San
